import Mathlib

/-!
# Congregational ledger: balance mutator and monthly archiver

A shallow embedding of the request handlers of `src/server.js` that mutate
fund balances, over an explicit relational store.

Conventions of the embedding.

* Money columns of the store (`DECIMAL` with two fractional digits) are
  integers counting cents.
* A JavaScript number is a `JsNum`: `NaN`, the two infinities, or a finite
  decimal `mant / 10 ^ scale`. Binary floating point is idealised as exact
  decimal arithmetic.
* A handler is a function from the store before the request to the response
  and the store after it. Store statements that may raise are selected by an
  explicit fault argument.
* The schema is not part of the sources: the store enforces no foreign-key or
  `NOT NULL` constraint, and string comparison is exact.
-/

namespace Ledger

/-! ## JavaScript numbers -/

/-- A JavaScript number: `NaN`, `Infinity`, `-Infinity`, or the finite decimal
`mant / 10 ^ scale`. -/
inductive JsNum where
  | nan
  | posInf
  | negInf
  | fin (mant : Int) (scale : Nat)
  deriving DecidableEq, Repr

/-- Quotient `n / d` rounded to the nearest integer, ties away from zero: the
rounding of `Number.prototype.toFixed` and of a decimal column on write. -/
def roundDiv (n : Int) (d : Nat) : Int :=
  if 0 ≤ n then (2 * n + d) / (2 * d) else -((2 * (-n) + d) / (2 * d))

namespace JsNum

/-- The number read from a money column holding `c` cents. -/
def ofCents (c : Int) : JsNum := fin c 2

/-- Unary minus. -/
def neg : JsNum → JsNum
  | nan => nan
  | posInf => negInf
  | negInf => posInf
  | fin m s => fin (-m) s

/-- JavaScript `a + b`. -/
def add : JsNum → JsNum → JsNum
  | nan, _ => nan
  | _, nan => nan
  | posInf, negInf => nan
  | negInf, posInf => nan
  | posInf, _ => posInf
  | _, posInf => posInf
  | negInf, _ => negInf
  | _, negInf => negInf
  | fin m s, fin n t => fin (m * 10 ^ t + n * 10 ^ s) (s + t)

/-- JavaScript `a - b`. -/
def sub (a b : JsNum) : JsNum := add a (neg b)

/-- JavaScript `isNaN(a)`. -/
def isNaN : JsNum → Bool
  | nan => true
  | _ => false

/-- JavaScript `a < 0`. -/
def ltZero : JsNum → Bool
  | negInf => true
  | fin m _ => decide (m < 0)
  | _ => false

/-- JavaScript `parseFloat(a.toFixed(2))`: the nearest value with two
fractional digits; `NaN` and the infinities print as themselves and are read
back unchanged. -/
def toFixed2 : JsNum → JsNum
  | fin m s => fin (roundDiv (m * 100) (10 ^ s)) 2
  | a => a

/-- The cents a money column holds after the number is written to it; `none`
when the number is not finite, which the store cannot hold (the statement
raises). -/
def toCents : JsNum → Option Int
  | fin m s => some (roundDiv (m * 100) (10 ^ s))
  | _ => none

end JsNum

/-! ## Persisted state -/

/-- A point in time, as far as the handlers observe it: calendar year, month
(1 to 12), day of month, and the time within the day. -/
structure DateTime where
  year : Nat
  month : Nat
  day : Nat
  time : Nat
  deriving DecidableEq, Repr

/-- Row of `branches`. -/
structure Branch where
  id : Nat
  name : String
  is_admin : Bool
  deriving DecidableEq, Repr

/-- Row of `group_types`. -/
structure GroupType where
  id : Nat
  name : String
  deriving DecidableEq, Repr

/-- Row of `congregation_groups` (a fund). -/
structure Group where
  id : Nat
  name : String
  branch_id : Nat
  group_type_id : Nat
  current_balance : Int
  is_system : Bool
  deriving DecidableEq, Repr

/-- Row of `transactions` (a ledger entry). -/
structure Transaction where
  id : Nat
  group_id : Option Nat
  group_type_id : Option Nat
  amount : Int
  description : Option String
  person_name : String
  branch_id : Nat
  previous_balance : Int
  new_balance : Int
  transaction_date : DateTime
  deriving DecidableEq, Repr

/-- Row of `monthly_archives`. -/
structure MonthlyArchive where
  id : Nat
  branch_id : Nat
  month_year : String
  total_dizimos : Int
  total_ofertas : Int
  final_balance : Int
  archived_at : DateTime
  deriving DecidableEq, Repr

/-- Row of `monthly_group_archives`. -/
structure MonthlyGroupArchive where
  archive_id : Option Nat
  group_id : Nat
  group_name : String
  initial_balance : Int
  final_balance : Int
  deriving DecidableEq, Repr

/-- The relational store: the six tables in insertion order, and the
auto-increment counters that assign identities. -/
structure Store where
  branches : List Branch
  group_types : List GroupType
  congregation_groups : List Group
  transactions : List Transaction
  monthly_archives : List MonthlyArchive
  monthly_group_archives : List MonthlyGroupArchive
  next_group_type_id : Nat
  next_group_id : Nat
  next_transaction_id : Nat
  next_archive_id : Nat
  deriving DecidableEq, Repr

/-! ## Requests and responses -/

/-- The authenticated caller, `req.user`: its branch identity and its
administrator flag. -/
structure User where
  id : Nat
  isAdmin : Bool
  deriving DecidableEq, Repr

/-- The `amount` field of a request body, by the two observations the handlers
make of it: whether it is truthy (`!amount` is false), and the number
`parseFloat(amount)` reads from it. -/
structure AmountField where
  truthy : Bool
  parsed : JsNum
  deriving DecidableEq, Repr

/-- Body of `POST /api/transactions`. A missing or empty `type` or
`person_name` is the empty string; a missing `group_id` is `none`. -/
structure PostBody where
  group_id : Option Nat
  type : String
  amount : AmountField
  description : Option String
  person_name : String
  deriving DecidableEq, Repr

/-- Body of `PUT /api/transactions/:id`. -/
structure PutBody where
  amount : AmountField
  description : Option String
  person_name : String
  deriving DecidableEq, Repr

/-- What a handler sends back. -/
inductive Response where
  /-- Status 201 of `POST /api/transactions`. -/
  | created (transactionId : Nat) (newBalance : Int) (previousBalance : Int)
      (transactionType : String) (groupId : Option Nat)
  /-- Status 200 with `success: true`. -/
  | success
  /-- Status 200 of the monthly archive, with its `monthYear` label. -/
  | archived (monthYear : String)
  /-- An error status with its `error` message. -/
  | error (status : Nat) (message : String)
  deriving DecidableEq, Repr

/-- The failure classes of the specification. -/
inductive ErrorKind where
  | validation
  | authorization
  | notFound
  | insufficientBalance
  | consistency
  | generic
  deriving DecidableEq, Repr

/-- The failure class a response stands for; `none` for a success. -/
def Response.kind : Response → Option ErrorKind
  | .created _ _ _ _ _ => none
  | .success => none
  | .archived _ => none
  | .error status message =>
    if status = 403 then some .authorization
    else if status = 404 then some .notFound
    else if status = 400 then
      (if message = "Saldo insuficiente" then some .insufficientBalance
       else some .validation)
    else if message = "Caixa Geral não configurado" then some .consistency
    else some .generic

/-! ## POST /api/transactions (Post Entry) -/

/-- The store statements of `POST /api/transactions`, in source order. -/
inductive PostStep where
  | selectCaixaGeral
  | selectGroupType
  | selectGroup
  | insertTransaction
  | updateBalance
  deriving DecidableEq, Repr

/-- The transaction types the handler accepts (`validTypes`). -/
def validTypes : List String := ["DIZIMO", "OFERTA", "DEPOSITO", "RETIRADA", "OUTROS"]

/-- The response of the handler's `catch` block. -/
def postFailure : Response := .error 500 "Erro ao registrar transação"

/-- JavaScript `description || null`. -/
def orNull : Option String → Option String
  | some d => if d = "" then none else some d
  | none => none

/-- JavaScript `!targetGroupId` for a group id: missing, or zero. -/
def falsyId : Option Nat → Bool
  | none => true
  | some n => decide (n = 0)

/-- The statement `UPDATE congregation_groups SET current_balance = ? WHERE id = ?`. -/
def setBalance (groups : List Group) (id : Option Nat) (balance : Int) : List Group :=
  groups.map fun g => if some g.id = id then { g with current_balance := balance } else g

/-- Step 5 of the handler: the target group and the previous balance, or the
early response. -/
def targetAndPrevious (s : Store) (user : User) (body : PostBody) (caixaGeral : Group)
    (fault : Option PostStep) : Except Response (Option Nat × JsNum) :=
  if body.type = "DIZIMO" ∨ body.type = "OFERTA" then
    .ok (some caixaGeral.id, JsNum.ofCents caixaGeral.current_balance)
  else if body.type = "DEPOSITO" ∨ body.type = "RETIRADA" then
    if falsyId body.group_id then .error (.error 400 "Grupo obrigatório")
    else if fault = some .selectGroup then .error postFailure
    else
      match s.congregation_groups.filter (fun g => some g.id = body.group_id) with
      | [] => .error (.error 403 "Grupo não autorizado")
      | group :: _ =>
        if !user.isAdmin && group.branch_id != user.id then
          .error (.error 403 "Grupo não autorizado")
        else .ok (body.group_id, JsNum.ofCents group.current_balance)
  else .ok (body.group_id, JsNum.ofCents 0)

/-- Step 7 of the handler: the new balance. -/
def newBalance (type : String) (previousBalance preciseAmount : JsNum) : JsNum :=
  if type = "RETIRADA" then (previousBalance.sub preciseAmount).toFixed2
  else (previousBalance.add preciseAmount).toFixed2

/-- The row step 8 of the handler inserts. -/
def postedRow (s : Store) (user : User) (body : PostBody) (now : DateTime)
    (group_type_id : Nat) (targetGroupId : Option Nat) (amount previous new : Int) :
    Transaction :=
  { id := s.next_transaction_id
    group_id := targetGroupId
    group_type_id := some group_type_id
    amount := amount
    description := orNull body.description
    person_name := body.person_name
    branch_id := user.id
    previous_balance := previous
    new_balance := new
    transaction_date := now }

/-- Steps 6 to 10 of the handler, from the resolved target on. -/
def settle (s : Store) (user : User) (body : PostBody) (now : DateTime)
    (fault : Option PostStep) (group_type_id : Nat) (targetGroupId : Option Nat)
    (previousBalance : JsNum) : Response × Store :=
  let parsedAmount := body.amount.parsed
  if parsedAmount.isNaN then (.error 400 "Valor inválido", s)
  else
    let preciseAmount := parsedAmount.toFixed2
    let newBal := newBalance body.type previousBalance preciseAmount
    if newBal.ltZero then (.error 400 "Saldo insuficiente", s)
    else if fault = some .insertTransaction then (postFailure, s)
    else
      match preciseAmount.toCents, previousBalance.toCents, newBal.toCents with
      | some amount, some previous, some new =>
        let row := postedRow s user body now group_type_id targetGroupId amount previous new
        let s1 : Store :=
          { s with transactions := s.transactions ++ [row]
                   next_transaction_id := s.next_transaction_id + 1 }
        if fault = some .updateBalance then (postFailure, s1)
        else
          (.created row.id new previous body.type targetGroupId,
           { s1 with congregation_groups := setBalance s1.congregation_groups targetGroupId new })
      | _, _, _ => (postFailure, s)

/-- The handler of `POST /api/transactions`: the response, and the store the
request leaves behind. Every statement runs on the pool in autocommit mode, so
a statement that succeeded stays applied when a later one raises. -/
def postTransactions (s : Store) (user : User) (body : PostBody) (now : DateTime)
    (fault : Option PostStep) : Response × Store :=
  if body.type = "" ∨ body.amount.truthy = false ∨ body.person_name = "" then
    (.error 400 "Campos obrigatórios faltando", s)
  else if fault = some .selectCaixaGeral then (postFailure, s)
  else
    match s.congregation_groups.filter
        (fun g => g.name = "Caixa Geral" ∧ g.branch_id = user.id) with
    | [] => (.error 500 "Caixa Geral não configurado", s)
    | caixaGeral :: _ =>
      if ¬ body.type ∈ validTypes then (.error 400 "Tipo de transação inválido", s)
      else if fault = some .selectGroupType then (postFailure, s)
      else
        match s.group_types.filter (fun t => t.name = body.type) with
        | [] => (.error 400 "Tipo não registrado", s)
        | groupType :: _ =>
          match targetAndPrevious s user body caixaGeral fault with
          | .error response => (response, s)
          | .ok (targetGroupId, previousBalance) =>
            settle s user body now fault groupType.id targetGroupId previousBalance

/-! ## PUT /api/transactions/:id (Update Entry) -/

/-- The store statements of `PUT /api/transactions/:id`, in source order. -/
inductive PutStep where
  | selectTransaction
  | updateTransaction
  | updateBalance
  deriving DecidableEq, Repr

/-- The response of the handler's `catch` block. -/
def putFailure : Response := .error 500 "Erro ao atualizar transação"

/-- The statement `UPDATE transactions SET amount = ?, description = ?,
person_name = ? WHERE id = ?`. -/
def setTransaction (rows : List Transaction) (id : Nat) (amount : Int)
    (description : Option String) (person_name : String) : List Transaction :=
  rows.map fun t =>
    if t.id = id then
      { t with amount := amount, description := description, person_name := person_name }
    else t

/-- The statement `UPDATE congregation_groups SET current_balance =
current_balance + ? WHERE id = ?` for a finite difference `mant / 10 ^ scale`. -/
def addToBalance (groups : List Group) (id : Option Nat) (mant : Int) (scale : Nat) :
    List Group :=
  groups.map fun g =>
    if some g.id = id then
      { g with current_balance :=
          roundDiv ((g.current_balance * 10 ^ scale + mant * 10 ^ 2) * 100) (10 ^ (2 + scale)) }
    else g

/-- The handler of `PUT /api/transactions/:id`. The caller is authenticated but
otherwise not consulted. The store reads from the raw `amount` the number
`parseFloat` reads; a number that is not finite makes the statement raise.
Both updates run on the pool in autocommit mode. -/
def putTransactions (s : Store) (id : Nat) (body : PutBody) (fault : Option PutStep) :
    Response × Store :=
  if fault = some .selectTransaction then (putFailure, s)
  else
    match s.transactions.filter (fun t => t.id = id) with
    | [] => (.error 404 "Transação não encontrada", s)
    | transaction :: _ =>
      let difference := body.amount.parsed.sub (JsNum.ofCents transaction.amount)
      if fault = some .updateTransaction then (putFailure, s)
      else
        match body.amount.parsed.toCents with
        | none => (putFailure, s)
        | some amount =>
          let s1 : Store :=
            { s with transactions :=
                setTransaction s.transactions id amount body.description body.person_name }
          if fault = some .updateBalance then (putFailure, s1)
          else
            match difference with
            | .fin mant scale =>
              (.success,
               { s1 with congregation_groups :=
                   addToBalance s1.congregation_groups transaction.group_id mant scale })
            | _ => (putFailure, s1)

/-! ## Zeroing, monthly archive and administrative reset -/

/-- The `typeMap` of the archive and reset handlers over the selected type
rows: the identity of the last row carrying the name (`reduce` lets later rows
override), or `none` (`undefined`, written as `NULL`) when no row carries it. -/
def typeMap (types : List GroupType) (name : String) : Option Nat :=
  ((types.filter (fun t => t.name = name)).getLast?).map (fun t => t.id)

/-- The balancing entry that brings a fund at `currentBalance` to zero. -/
def balancingRow (types : List GroupType) (s : Store) (group : Group) (description : String)
    (branchId : Nat) (date : DateTime) : Transaction :=
  let currentBalance := group.current_balance
  let type := if currentBalance > 0 then "RETIRADA" else "DEPOSITO"
  { id := s.next_transaction_id
    group_id := some group.id
    group_type_id := typeMap types type
    amount := |currentBalance|
    description := some description
    person_name := "Sistema"
    branch_id := branchId
    previous_balance := currentBalance
    new_balance := 0
    transaction_date := date }

/-- One iteration of the zeroing loop, on a group row read before the loop:
a group at zero is skipped; otherwise the balancing entry is inserted and the
group's balance is set to zero. -/
def zeroGroup (types : List GroupType) (description : String) (branchId : Nat)
    (date : DateTime) (s : Store) (group : Group) : Store :=
  if group.current_balance = 0 then s
  else
    { s with
        transactions :=
          s.transactions ++ [balancingRow types s group description branchId date]
        next_transaction_id := s.next_transaction_id + 1
        congregation_groups := setBalance s.congregation_groups (some group.id) 0 }

/-- Two-digit month, `String(m).padStart(2, '0')`. -/
def pad2 (n : Nat) : String := if n < 10 then "0" ++ toString n else toString n

/-- Gregorian leap year. -/
def isLeapYear (y : Nat) : Bool := (y % 4 == 0 && y % 100 != 0) || y % 400 == 0

/-- Days of month `m` (1 to 12) of year `y`. -/
def daysInMonth (y m : Nat) : Nat :=
  if m = 2 then (if isLeapYear y then 29 else 28)
  else if m = 4 ∨ m = 6 ∨ m = 9 ∨ m = 11 then 30
  else 31

/-- Year and month (1 to 12) of `previous` after
`previous.setMonth(previous.getMonth() - 1)`: the day of month is kept, and a
day the target month does not have carries over into the month after it. -/
def referencePeriod (now : DateTime) : Nat × Nat :=
  let target : Nat × Nat := if now.month = 1 then (now.year - 1, 12) else (now.year, now.month - 1)
  if now.day ≤ daysInMonth target.1 target.2 then target
  else if target.2 = 12 then (target.1 + 1, 1)
  else (target.1, target.2 + 1)

/-- The total `SELECT COALESCE(SUM(amount), 0) FROM transactions WHERE
branch_id = ? AND group_type_id = ? AND MONTH(transaction_date) = ? AND
YEAR(transaction_date) = ?`; a `NULL` type matches no row. -/
def monthlyTotal (s : Store) (branchId : Nat) (typeId : Option Nat) (month year : Nat) : Int :=
  ((s.transactions.filter fun t =>
      t.branch_id = branchId ∧ typeId.isSome ∧ t.group_type_id = typeId ∧
      t.transaction_date.month = month ∧ t.transaction_date.year = year).map
    fun t => t.amount).sum

/-- The body of the archive loop for one branch (steps 5 to 10). -/
def archiveBranch (types : List GroupType) (year month : Nat) (archiveDate : DateTime)
    (s : Store) (branch : Branch) : Store :=
  let branchId := branch.id
  let groups := s.congregation_groups.filter fun g => g.branch_id = branchId
  let s6 : Store :=
    { s with monthly_group_archives := s.monthly_group_archives ++
        groups.map fun g => ⟨none, g.id, g.name, g.current_balance, g.current_balance⟩ }
  let finalBalance := (groups.map fun g => g.current_balance).sum
  let totalDizimos := monthlyTotal s6 branchId (typeMap types "DIZIMO") month year
  let totalOfertas := monthlyTotal s6 branchId (typeMap types "OFERTA") month year
  let archiveId := s6.next_archive_id
  let s8 : Store :=
    { s6 with
        monthly_archives := s6.monthly_archives ++
          [⟨archiveId, branchId, toString year ++ "-" ++ pad2 month, totalDizimos, totalOfertas,
            finalBalance, archiveDate⟩]
        next_archive_id := s6.next_archive_id + 1 }
  let branchGroupIds := (s8.congregation_groups.filter fun g => g.branch_id = branchId).map
    fun g => g.id
  let s9 : Store :=
    { s8 with monthly_group_archives := s8.monthly_group_archives.map fun r =>
        if r.archive_id = none ∧ r.group_id ∈ branchGroupIds
        then { r with archive_id := some archiveId } else r }
  groups.foldl (zeroGroup types "Ajuste mensal - Zeramento" branchId archiveDate) s9

/-- The store a monthly archive run commits: every branch that is not an
administrator, in table order. -/
def archiveAll (s : Store) (now : DateTime) : Store :=
  let types := s.group_types.filter fun t =>
    t.name ∈ ["DIZIMO", "OFERTA", "DEPOSITO", "RETIRADA"]
  let branches := s.branches.filter fun b => b.is_admin = false
  let period := referencePeriod now
  branches.foldl (archiveBranch types period.1 period.2 now) s

/-- Number of store statements of a monthly archive run that goes through,
commit included. -/
def archiveStatements (s : Store) : Nat :=
  3 + ((s.branches.filter fun b => b.is_admin = false).map fun b =>
    let groups := s.congregation_groups.filter fun g => g.branch_id = b.id
    5 + groups.length + 2 * (groups.filter fun g => g.current_balance ≠ 0).length).sum

/-- The handler of `POST /api/admin/monthly-archive`. The run is one
transaction: when a statement raises (`fault` is the position of a statement
the run reaches) everything is rolled back. -/
def monthlyArchive (s : Store) (user : User) (now : DateTime) (fault : Option Nat) :
    Response × Store :=
  if !user.isAdmin then (.error 403 "Acesso não autorizado", s)
  else
    match fault with
    | some k =>
      if k < archiveStatements s then (.error 500 "Erro no arquivamento mensal", s)
      else (.archived (toString (referencePeriod now).1 ++ "-" ++ pad2 (referencePeriod now).2),
            archiveAll s now)
    | none =>
      (.archived (toString (referencePeriod now).1 ++ "-" ++ pad2 (referencePeriod now).2),
       archiveAll s now)

/-- The reset loop: as the zeroing loop, with the handler's guard that raises
on an amount that is not positive. -/
def resetLoop (types : List GroupType) (branchId : Nat) (date : DateTime) :
    List Group → Store → Except String Store
  | [], s => .ok s
  | group :: rest, s =>
    if group.current_balance = 0 then resetLoop types branchId date rest s
    else if |group.current_balance| ≤ 0 then
      .error ("Valor inválido para transação no grupo " ++ toString group.id)
    else
      resetLoop types branchId date rest
        (zeroGroup types "Zeramento administrativo" branchId date s group)

/-- Number of store statements of a reset that goes through, commit included. -/
def resetStatements (s : Store) (branchId : Nat) : Nat :=
  3 + 2 * ((s.congregation_groups.filter fun g => g.branch_id = branchId).filter
    fun g => g.current_balance ≠ 0).length

/-- The handler of `POST /api/admin/branches/:id/reset-all-groups`, one
transaction as well. The message of a store error is the store's own; it is
rendered as `store error`. -/
def resetAllGroups (s : Store) (user : User) (branchId : Nat) (now : DateTime)
    (fault : Option Nat) : Response × Store :=
  if !user.isAdmin then (.error 403 "Acesso não autorizado", s)
  else
    let types := s.group_types.filter fun t => t.name ∈ ["RETIRADA", "DEPOSITO"]
    let run : Response × Store :=
      match resetLoop types branchId now
          (s.congregation_groups.filter fun g => g.branch_id = branchId) s with
      | .ok s1 => (.success, s1)
      | .error message => (.error 500 message, s)
    match fault with
    | some k => if k < resetStatements s branchId then (.error 500 "store error", s) else run
    | none => run

/-! ## Observations the statements are made of -/

/-- The general-cash fund of a branch, as `POST /api/transactions` selects it. -/
def caixaGeralOf (s : Store) (branchId : Nat) : Option Group :=
  (s.congregation_groups.filter fun g => g.name = "Caixa Geral" ∧ g.branch_id = branchId).head?

/-- The fund row a lookup by identity returns (`none` for a missing identity
or one that matches no fund). -/
def groupById (s : Store) (id : Option Nat) : Option Group :=
  (s.congregation_groups.filter fun g => some g.id = id).head?

/-- The cached balance of a fund, as a lookup by identity reads it. -/
def balanceOf (s : Store) (id : Nat) : Option Int :=
  (groupById s (some id)).map fun g => g.current_balance

/-- The type row `POST /api/transactions` selects for a type name. -/
def groupTypeOf (s : Store) (name : String) : Option GroupType :=
  (s.group_types.filter fun t => t.name = name).head?

/-- How step 5 of `POST /api/transactions` resolves the target fund `target`
and the previous balance `previous` (in cents), given the caller's general-cash
fund: the three branches of the source. -/
def Resolved (s : Store) (user : User) (body : PostBody) (caixaGeral : Group)
    (target : Option Nat) (previous : Int) : Prop :=
  ((body.type = "DIZIMO" ∨ body.type = "OFERTA") ∧
      target = some caixaGeral.id ∧ previous = caixaGeral.current_balance) ∨
  ((body.type = "DEPOSITO" ∨ body.type = "RETIRADA") ∧ falsyId body.group_id = false ∧
      ∃ g, groupById s body.group_id = some g ∧ (user.isAdmin = true ∨ g.branch_id = user.id) ∧
        target = body.group_id ∧ previous = g.current_balance) ∨
  (body.type = "OUTROS" ∧ target = body.group_id ∧ previous = 0)

/-- The amount, at the two-digit precision the handler computes with, exceeds
`c` cents. -/
def JsNum.exceedsCents (a : JsNum) (c : Int) : Prop :=
  match a with
  | .fin m s => c < roundDiv (m * 100) (10 ^ s)
  | .posInf => True
  | _ => False

/-- The entry a lookup by identity returns. -/
def transactionById (s : Store) (id : Nat) : Option Transaction :=
  (s.transactions.filter fun t => t.id = id).head?

/-- The name of an entry's type, through the join of `group_types` on
`group_type_id`. -/
def typeName (s : Store) (group_type_id : Option Nat) : Option String :=
  match group_type_id with
  | none => none
  | some i => (s.group_types.find? fun t => t.id = i).map fun t => t.name

/-- The identities of `group_types` are pairwise distinct (a primary key). -/
def TypeIdsUnique (s : Store) : Prop := (s.group_types.map fun t => t.id).Nodup

/-- The signed amount of an entry: a withdrawal counts negative, every other
type positive. -/
def signedAmount (s : Store) (t : Transaction) : Int :=
  if typeName s t.group_type_id = some "RETIRADA" then -t.amount else t.amount

/-- The entries written between store `s` and the later store `s1`: the
handlers only append to `transactions`. -/
def writtenEntries (s s1 : Store) : List Transaction :=
  s1.transactions.drop s.transactions.length

/-- The snapshot rule of an entry: `new_balance` is `previous_balance` minus the
amount for a withdrawal, plus the amount for every other type. -/
def SnapshotRule (s : Store) (t : Transaction) : Prop :=
  t.new_balance = t.previous_balance + signedAmount s t

/-! ## Operations and reachable states -/

/-- A call of one of the four balance-mutating operations. -/
inductive Op where
  | post (user : User) (body : PostBody) (now : DateTime) (fault : Option PostStep)
  | put (id : Nat) (body : PutBody) (fault : Option PutStep)
  | archive (user : User) (now : DateTime) (fault : Option Nat)
  | reset (user : User) (branchId : Nat) (now : DateTime) (fault : Option Nat)
  deriving DecidableEq, Repr

/-- The response and the store a call leaves behind. -/
def Op.run (s : Store) : Op → Response × Store
  | .post user body now fault => postTransactions s user body now fault
  | .put id body fault => putTransactions s id body fault
  | .archive user now fault => monthlyArchive s user now fault
  | .reset user branchId now fault => resetAllGroups s user branchId now fault

/-- The funds a call archives or resets when it goes through: those of every
branch that is not an administrator for the monthly archive, those of the named
branch for a reset; none for the other calls and for a call that fails. -/
def Op.resetIds (s : Store) (op : Op) : List Nat :=
  match op, (op.run s).1 with
  | .archive _ _ _, .archived _ =>
    (s.congregation_groups.filter fun g =>
      g.branch_id ∈ (s.branches.filter fun b => b.is_admin = false).map fun b => b.id).map
      fun g => g.id
  | .reset _ branchId _ _, .success =>
    (s.congregation_groups.filter fun g => g.branch_id = branchId).map fun g => g.id
  | _, _ => []

/-- A store together with the bookkeeping the balance invariant speaks of: for
each fund identity, how many entries the store held when the fund was last
archived or reset (zero if it never was). -/
structure Audited where
  store : Store
  resetAt : Nat → Nat

/-- One call on an audited store. -/
def Audited.step (a : Audited) (op : Op) : Audited :=
  let s1 := (op.run a.store).2
  { store := s1
    resetAt := fun id => if id ∈ op.resetIds a.store then s1.transactions.length else a.resetAt id }

/-- A sequence of calls on an audited store. -/
def Audited.steps (a : Audited) (ops : List Op) : Audited := ops.foldl Audited.step a

/-- The entries posted against a fund since its last archive or reset. -/
def Audited.entriesSince (a : Audited) (id : Nat) : List Transaction :=
  (a.store.transactions.drop (a.resetAt id)).filter fun t => t.group_id = some id

/-- The balance invariant: every fund's cached balance is the signed sum of the
entries posted against it since its last archive or reset (zero when there are
none). -/
def Audited.BalancesMatch (a : Audited) : Prop :=
  ∀ g ∈ a.store.congregation_groups,
    g.current_balance = ((a.entriesSince g.id).map (signedAmount a.store)).sum

/-- An initial state: funds created with balance zero, no entry yet, no fund
archived or reset. -/
def Audited.fresh (s : Store) : Audited := { store := s, resetAt := fun _ => 0 }

/-- Funds created with balance zero and no entry posted. -/
def Store.Fresh (s : Store) : Prop :=
  s.transactions = [] ∧ ∀ g ∈ s.congregation_groups, g.current_balance = 0

/-- The balance invariant can be checked on a given state. -/
instance decidableBalancesMatch (a : Audited) : Decidable a.BalancesMatch := by
  unfold Audited.BalancesMatch; infer_instance

/-- Freshness can be checked on a given store. -/
instance decidableFresh (s : Store) : Decidable s.Fresh := by
  unfold Store.Fresh; infer_instance

/-- Uniqueness of the type identities can be checked on a given store. -/
instance decidableTypeIdsUnique (s : Store) : Decidable (TypeIdsUnique s) := by
  unfold TypeIdsUnique; infer_instance

/-- Whether an amount exceeds a balance can be checked. -/
instance decidableExceedsCents (a : JsNum) (c : Int) : Decidable (a.exceedsCents c) := by
  cases a <;> unfold JsNum.exceedsCents <;> infer_instance

/-- The snapshot rule can be checked on a given entry. -/
instance decidableSnapshotRule (s : Store) (t : Transaction) : Decidable (SnapshotRule s t) := by
  unfold SnapshotRule; infer_instance

/-! ## Example stores -/

/-- A store with two branches and an administrator, the six fund types, a
general-cash fund per branch and a fund `Jovens` holding 100.00. -/
def exampleStore : Store :=
  { branches := [⟨1, "Sede", false⟩, ⟨2, "Filial", false⟩, ⟨9, "Admin", true⟩]
    group_types := [⟨1, "DIZIMO"⟩, ⟨2, "OFERTA"⟩, ⟨3, "DEPOSITO"⟩, ⟨4, "RETIRADA"⟩,
      ⟨5, "OUTROS"⟩, ⟨6, "Caixa Geral"⟩]
    congregation_groups := [⟨1, "Caixa Geral", 1, 6, 0, true⟩,
      ⟨2, "Jovens", 1, 3, 10000, false⟩, ⟨3, "Caixa Geral", 2, 6, 0, true⟩]
    transactions := []
    monthly_archives := []
    monthly_group_archives := []
    next_group_type_id := 7
    next_group_id := 4
    next_transaction_id := 1
    next_archive_id := 1 }

/-- The example store with every balance at zero. -/
def freshStore : Store :=
  { exampleStore with
    congregation_groups := [⟨1, "Caixa Geral", 1, 6, 0, true⟩,
      ⟨2, "Jovens", 1, 3, 0, false⟩, ⟨3, "Caixa Geral", 2, 6, 0, true⟩] }

/-- A caller of branch 1 without administrator rights. -/
def member : User := ⟨1, false⟩

/-- The administrator. -/
def admin : User := ⟨9, true⟩

/-- Some invocation time. -/
def noon : DateTime := ⟨2025, 3, 31, 43200000⟩

/-- A deposit of 50.00 on the fund `Jovens` (id 2). -/
def depositBody : PostBody := ⟨some 2, "DEPOSITO", ⟨true, .fin 5000 2⟩, none, "Ana"⟩

/-- An entry of type `OUTROS` of 30.00 naming the fund `Jovens` (id 2). -/
def othersBody : PostBody := ⟨some 2, "OUTROS", ⟨true, .fin 3000 2⟩, none, "Ana"⟩

/-- A deposit whose amount field reads `-5`. -/
def negativeBody : PostBody := ⟨some 2, "DEPOSITO", ⟨true, .fin (-5) 0⟩, none, "Ana"⟩

/-- A deposit whose amount field is the text `0.004`, which is truthy. -/
def tinyBody : PostBody := ⟨some 2, "DEPOSITO", ⟨true, .fin 4 3⟩, none, "Ana"⟩

/-- A store with one entry of 50.00 on the fund `Jovens`, which holds 200.00. -/
def updateStore : Store :=
  { exampleStore with
    congregation_groups := [⟨1, "Caixa Geral", 1, 6, 0, true⟩,
      ⟨2, "Jovens", 1, 3, 20000, false⟩, ⟨3, "Caixa Geral", 2, 6, 0, true⟩]
    transactions := [⟨1, some 2, some 3, 5000, none, "Ana", 1, 15000, 20000, noon⟩]
    next_transaction_id := 2 }


/-- The example of the specification: branch 1 with the funds `A` at 100.00,
`B` at -30.00 and the general-cash fund at 50.00. -/
def archiveExample : Store :=
  { exampleStore with
    congregation_groups := [⟨1, "Caixa Geral", 1, 6, 5000, true⟩, ⟨2, "A", 1, 3, 10000, false⟩,
      ⟨3, "B", 1, 3, -3000, false⟩, ⟨4, "Caixa Geral", 2, 6, 0, true⟩]
    next_group_id := 5 }

/-! ## Vocabulary of the proofs -/

/-- The fund rows after the balances of the identities in `Z` were set to zero. -/
def zeroed (Z : List Nat) (groups : List Group) : List Group :=
  groups.map fun g => if g.id ∈ Z then { g with current_balance := 0 } else g

/-- What a zeroing run that has gone through the branches `done` has made of
the store `s0`: the reference data is untouched, the entries appended are on
funds of those branches, the balances set to zero are balances of such funds,
and every fund of those branches is zeroed or was at zero. -/
structure ZeroRun (s0 : Store) (done : List Nat) (st : Store) : Prop where
  group_types : st.group_types = s0.group_types
  branches : st.branches = s0.branches
  appended : ∃ extra, st.transactions = s0.transactions ++ extra ∧
    ∀ t ∈ extra, ∃ g ∈ s0.congregation_groups, g.branch_id ∈ done ∧ t.group_id = some g.id
  groups : ∃ Z, st.congregation_groups = zeroed Z s0.congregation_groups ∧
    (∀ z ∈ Z, ∃ g ∈ s0.congregation_groups, g.branch_id ∈ done ∧ g.id = z) ∧
    (∀ g ∈ s0.congregation_groups, g.branch_id ∈ done → g.id ∈ Z ∨ g.current_balance = 0)

/-- The entry identities are pairwise distinct and below the auto-increment
counter. -/
def EntryIdsOk (s : Store) : Prop :=
  (∀ t ∈ s.transactions, t.id < s.next_transaction_id) ∧
    (s.transactions.map fun t => t.id).Nodup

/-- The Update Entry calls the balance invariant is kept by, for the entry `t`
they address: the amount is left as it is, or `t` is not a withdrawal and was
posted against its fund since the fund's last archive or reset. -/
def Audited.KeepsEntry (a : Audited) (body : PutBody) (t : Transaction) : Prop :=
  body.amount.parsed = JsNum.ofCents t.amount ∨
  (typeName a.store t.group_type_id ≠ some "RETIRADA" ∧
    ∀ gid ∈ t.group_id, t ∈ a.store.transactions.drop (a.resetAt gid))

/-- A finite number written with two fractional digits. -/
def JsNum.TwoDigits : JsNum → Prop
  | .fin _ scale => scale = 2
  | _ => False

/-- The calls the balance invariant is kept by, in the state they are made in:
Post Entry of a type other than `OUTROS` whose balance write does not raise;
Update Entry whose balance write does not raise, with a two-digit amount, that
leaves the amount as it is or corrects an entry, not a withdrawal, posted since
its fund's last archive or reset; every monthly archive and branch reset. -/
def Audited.Keeps (a : Audited) : Op → Prop
  | .post _ body _ fault => body.type ≠ "OUTROS" ∧ fault ≠ some .updateBalance
  | .put id body fault =>
    fault ≠ some .updateBalance ∧ body.amount.parsed.TwoDigits ∧
      ∀ t ∈ transactionById a.store id, a.KeepsEntry body t
  | .archive _ _ _ => True
  | .reset _ _ _ _ => True

/-- Every call of the sequence is among those the balance invariant is kept by,
in the state it is made in. -/
def Audited.KeepsAll (a : Audited) : List Op → Prop
  | [] => True
  | op :: ops => a.Keeps op ∧ (a.step op).KeepsAll ops

/-- The invariant carried along a run: the balance invariant, reset marks within
the entry table, unique type identities and unique entry identities. -/
def Audited.Good (a : Audited) : Prop :=
  a.BalancesMatch ∧ (∀ id, a.resetAt id ≤ a.store.transactions.length) ∧
    TypeIdsUnique a.store ∧ EntryIdsOk a.store

/-- A deposit of 100.00 on the fund `Jovens`, a reset of branch 1, and an update
of the deposit to 150.00. -/
def driftingRun : List Op :=
  [.post member ⟨some 2, "DEPOSITO", ⟨true, .fin 10000 2⟩, none, "Ana"⟩ noon none,
   .reset admin 1 noon none,
   .put 1 ⟨⟨true, .fin 15000 2⟩, none, "Ana"⟩ none]

/-- Whether a number is written with two fractional digits can be checked. -/
instance decidableTwoDigits (n : JsNum) : Decidable n.TwoDigits := by
  cases n <;> unfold JsNum.TwoDigits <;> infer_instance

/-- Whether an update is among those that keep the balance invariant can be
checked. -/
instance decidableKeepsEntry (a : Audited) (body : PutBody) (t : Transaction) :
    Decidable (a.KeepsEntry body t) := by
  unfold Audited.KeepsEntry
  infer_instance

/-- Whether a call is among those that keep the balance invariant can be
checked. -/
instance decidableKeeps (a : Audited) (op : Op) : Decidable (a.Keeps op) := by
  cases op <;> simp only [Audited.Keeps] <;> infer_instance

/-- Whether a sequence of calls keeps the balance invariant can be checked. -/
instance decidableKeepsAll (a : Audited) (ops : List Op) : Decidable (a.KeepsAll ops) := by
  induction ops generalizing a with
  | nil => unfold Audited.KeepsAll; infer_instance
  | cons op ops ih =>
    unfold Audited.KeepsAll
    exact @instDecidableAnd _ _ _ (ih _)

/-- A deposit of 100.00 and a withdrawal of 30.00 on the fund `Jovens`, a tithe
of 12.50, an update of the deposit to 120.00, a monthly archive, a deposit of
5.00, an update of its description, and a reset of branch 1. -/
def keptRun : List Op :=
  [.post member ⟨some 2, "DEPOSITO", ⟨true, .fin 10000 2⟩, none, "Ana"⟩ noon none,
   .post member ⟨some 2, "RETIRADA", ⟨true, .fin 3000 2⟩, none, "Ana"⟩ noon none,
   .post member ⟨none, "DIZIMO", ⟨true, .fin 1250 2⟩, none, "Rui"⟩ noon none,
   .put 1 ⟨⟨true, .fin 12000 2⟩, none, "Ana"⟩ none,
   .archive admin noon none,
   .post member ⟨some 2, "DEPOSITO", ⟨true, .fin 500 2⟩, none, "Ana"⟩ noon none,
   .put 6 ⟨⟨true, .fin 500 2⟩, some "cantina", "Ana"⟩ none,
   .reset admin 1 noon none]

/-! ## Vocabulary of the archive claims -/

/-- A deposit of 100.00 and a withdrawal of 80.00 on the fund `Jovens`, which
leave it at 20.00. -/
def smallBalanceRun : List Op :=
  [.post member ⟨some 2, "DEPOSITO", ⟨true, .fin 10000 2⟩, none, "Ana"⟩ noon none,
   .post member ⟨some 2, "RETIRADA", ⟨true, .fin 8000 2⟩, none, "Ana"⟩ noon none]

/-- The store after the deposit of 100.00 and the withdrawal of 80.00. -/
def smallBalanceStore : Store := ((Audited.fresh freshStore).steps smallBalanceRun).store

/-- The branches a monthly archive run goes through. -/
def nonAdminBranches (s : Store) : List Branch := s.branches.filter fun b => b.is_admin = false

/-- The funds a branch owns, in table order. -/
def fundsOf (s : Store) (branchId : Nat) : List Group :=
  s.congregation_groups.filter fun g => g.branch_id = branchId

/-- The monthly-fund-archive rows written between store `s` and the later store
`s1`: the archive appends to `monthly_group_archives`. -/
def writtenFundArchives (s s1 : Store) : List MonthlyGroupArchive :=
  s1.monthly_group_archives.drop s.monthly_group_archives.length

/-- The monthly-archive rows written between store `s` and the later store
`s1`. -/
def writtenArchives (s s1 : Store) : List MonthlyArchive :=
  s1.monthly_archives.drop s.monthly_archives.length

/-- The type rows the monthly archive selects. -/
def archiveTypes (s : Store) : List GroupType :=
  s.group_types.filter fun t => t.name ∈ ["DIZIMO", "OFERTA", "DEPOSITO", "RETIRADA"]

/-- The `YYYY-MM` label of the reference period of a run invoked at `now`. -/
def periodLabel (now : DateTime) : String :=
  toString (referencePeriod now).1 ++ "-" ++ pad2 (referencePeriod now).2

/-- The primary keys of the store: the identities of the branches, of the funds
and of the fund types are pairwise distinct. -/
def Store.KeysUnique (s : Store) : Prop :=
  (s.branches.map fun b => b.id).Nodup ∧ (s.congregation_groups.map fun g => g.id).Nodup ∧
    TypeIdsUnique s

/-- The primary keys can be checked on a given store. -/
instance decidableKeysUnique (s : Store) : Decidable s.KeysUnique := by
  unfold Store.KeysUnique; infer_instance

/-- An entry without its identity. -/
def eraseId (t : Transaction) : Transaction := { t with id := 0 }

/-- The balancing entries a run invoked at `now` on store `s` posts for the
branches `bs`, in order, read off the store before the run: one per fund with a
balance other than zero. -/
def balancingSpec (s : Store) (now : DateTime) : List Branch → List Transaction
  | [] => []
  | b :: bs =>
    ((fundsOf s b.id).filter fun g => g.current_balance ≠ 0).map
        (fun g => balancingRow (archiveTypes s) s g "Ajuste mensal - Zeramento" b.id now) ++
      balancingSpec s now bs

/-- The monthly-archive row of a branch with identity `n`, read off the store
before the run. -/
def archiveRowOf (s : Store) (now : DateTime) (n : Nat) (b : Branch) : MonthlyArchive :=
  { id := n
    branch_id := b.id
    month_year := periodLabel now
    total_dizimos := monthlyTotal s b.id (typeMap (archiveTypes s) "DIZIMO")
      (referencePeriod now).2 (referencePeriod now).1
    total_ofertas := monthlyTotal s b.id (typeMap (archiveTypes s) "OFERTA")
      (referencePeriod now).2 (referencePeriod now).1
    final_balance := ((fundsOf s b.id).map fun g => g.current_balance).sum
    archived_at := now }

/-- The monthly-archive rows for the branches `bs`, with identities from `n` on. -/
def archiveRowsFrom (s : Store) (now : DateTime) (n : Nat) : List Branch → List MonthlyArchive
  | [] => []
  | b :: bs => archiveRowOf s now n b :: archiveRowsFrom s now (n + 1) bs

/-- The monthly-fund-archive rows of a branch, linked to the archive `n`. -/
def fundArchiveRowsOf (s : Store) (n : Nat) (b : Branch) : List MonthlyGroupArchive :=
  (fundsOf s b.id).map fun g => ⟨some n, g.id, g.name, g.current_balance, g.current_balance⟩

/-- The monthly-fund-archive rows for the branches `bs`, linked to archives with
identities from `n` on. -/
def fundArchiveRowsFrom (s : Store) (n : Nat) : List Branch → List MonthlyGroupArchive
  | [] => []
  | b :: bs => fundArchiveRowsOf s n b ++ fundArchiveRowsFrom s (n + 1) bs

/-- What the back-fill may do to a fund-archive row that existed before the run:
nothing, or fill an empty archive reference. -/
def Backfilled (r r1 : MonthlyGroupArchive) : Prop :=
  r1 = r ∨ (r.archive_id = none ∧ ∃ k, r1 = { r with archive_id := some k })

/-- The store `st` a run invoked at `now` on store `s` has reached after the
branches `ds`, in closed form over `s`. -/
structure ArchiveRun (s : Store) (now : DateTime) (ds : List Branch) (st : Store) : Prop where
  branches : st.branches = s.branches
  group_types : st.group_types = s.group_types
  groups : st.congregation_groups = s.congregation_groups.map fun g =>
    if g.branch_id ∈ ds.map (fun b => b.id) then { g with current_balance := 0 } else g
  transactions : ∃ extra, st.transactions = s.transactions ++ extra ∧
    extra.map eraseId = (balancingSpec s now ds).map eraseId
  next_archive_id : st.next_archive_id = s.next_archive_id + ds.length
  archives : st.monthly_archives = s.monthly_archives ++ archiveRowsFrom s now s.next_archive_id ds
  fundArchives : ∃ old, st.monthly_group_archives =
      old ++ fundArchiveRowsFrom s s.next_archive_id ds ∧
    List.Forall₂ Backfilled s.monthly_group_archives old

/-- The example of the specification with a third branch that owns no fund. -/
def sparseExample : Store :=
  { archiveExample with
    branches := [⟨1, "Sede", false⟩, ⟨2, "Filial", false⟩, ⟨3, "Nova", false⟩,
      ⟨9, "Admin", true⟩] }

/-- The names of `group_types` are pairwise distinct. -/
def TypeNamesUnique (s : Store) : Prop := (s.group_types.map fun t => t.name).Nodup

/-- The names can be checked on a given store. -/
instance decidableTypeNamesUnique (s : Store) : Decidable (TypeNamesUnique s) := by
  unfold TypeNamesUnique; infer_instance

/-- The entries of a branch whose type, through the join on `group_types`, has
the given name and whose timestamp falls in the given month and year. -/
def entriesOfTypeIn (s : Store) (branchId : Nat) (name : String) (month year : Nat) :
    List Transaction :=
  s.transactions.filter fun t =>
    t.branch_id = branchId ∧ typeName s t.group_type_id = some name ∧
    t.transaction_date.month = month ∧ t.transaction_date.year = year

/-- The example of the specification with entries on the books: tithes and
offerings of February 2025 and of other months, in both branches. -/
def titheExample : Store :=
  { archiveExample with
    transactions :=
      [⟨1, some 1, some 1, 10000, none, "Ana", 1, 0, 10000, ⟨2025, 2, 3, 0⟩⟩,
       ⟨2, some 1, some 1, 5000, none, "Rui", 1, 10000, 15000, ⟨2025, 2, 28, 0⟩⟩,
       ⟨3, some 1, some 2, 2000, none, "Ana", 1, 15000, 17000, ⟨2025, 2, 10, 0⟩⟩,
       ⟨4, some 1, some 1, 7000, none, "Ana", 1, 17000, 24000, ⟨2025, 1, 31, 0⟩⟩,
       ⟨5, some 4, some 1, 3000, none, "Lia", 2, 0, 3000, ⟨2025, 2, 5, 0⟩⟩,
       ⟨6, some 1, some 1, 900, none, "Ana", 1, 24000, 24900, ⟨2024, 2, 5, 0⟩⟩,
       ⟨7, some 2, some 3, 800, none, "Ana", 1, 0, 800, ⟨2025, 2, 6, 0⟩⟩]
    next_transaction_id := 8 }

/-- Some invocation time in the middle of March 2025. -/
def midMarch : DateTime := ⟨2025, 3, 15, 43200000⟩

/-- The (branch, month-year) pairs of the rows of `monthly_archives`. -/
def archiveKeys (s : Store) : List (Nat × String) :=
  s.monthly_archives.map fun r => (r.branch_id, r.month_year)

/-- One invocation of the monthly archive: the caller, the invocation time and
the store fault of the run, if any. -/
structure ArchiveCall where
  user : User
  now : DateTime
  fault : Option Nat

/-- The store after a sequence of invocations of the monthly archive. -/
def archiveRuns (s : Store) : List ArchiveCall → Store
  | [] => s
  | c :: rest => archiveRuns (monthlyArchive s c.user c.now c.fault).2 rest

/-! ## Login initialisation, interleaved posts and the balance views -/

/-- The store statements of `initializeGeneralCash`, in source order. -/
inductive InitStep where
  | selectType
  | insertType
  | selectGroup
  | insertGroup
  deriving DecidableEq, Repr

/-- The function `initializeGeneralCash(branchId)`, called at login with the
caller's identity. A falsy `branchId` throws, and every error is caught and
logged: the store keeps what the statements before the error wrote. The
statements run on the pool in autocommit mode. -/
def initializeGeneralCash (s : Store) (branchId : Nat) (fault : Option InitStep) : Store :=
  if branchId = 0 then s
  else if fault = some .selectType then s
  else
    let typed : Option (Store × Nat) :=
      match s.group_types.filter (fun t => t.name = "Caixa Geral") with
      | [] =>
        if fault = some .insertType then none
        else
          some ({ s with group_types := s.group_types ++ [⟨s.next_group_type_id, "Caixa Geral"⟩]
                         next_group_type_id := s.next_group_type_id + 1 },
                s.next_group_type_id)
      | t :: _ => some (s, t.id)
    match typed with
    | none => s
    | some (s1, groupTypeId) =>
      if fault = some .selectGroup then s1
      else
        match s1.congregation_groups.filter
            (fun g => g.name = "Caixa Geral" ∧ g.branch_id = branchId) with
        | [] =>
          if fault = some .insertGroup then s1
          else
            { s1 with
                congregation_groups := s1.congregation_groups ++
                  [⟨s1.next_group_id, "Caixa Geral", branchId, groupTypeId, 0, true⟩]
                next_group_id := s1.next_group_id + 1 }
        | _ :: _ => s1

/-- The funds of a branch named `Caixa Geral`. -/
def generalCashFunds (s : Store) (branchId : Nat) : List Group :=
  s.congregation_groups.filter fun g => g.name = "Caixa Geral" ∧ g.branch_id = branchId

/-- A store whose branch 2 has no general-cash fund yet, and no type row for it. -/
def loginStore : Store :=
  { exampleStore with
    group_types := [⟨1, "DIZIMO"⟩, ⟨2, "OFERTA"⟩, ⟨3, "DEPOSITO"⟩, ⟨4, "RETIRADA"⟩,
      ⟨5, "OUTROS"⟩]
    congregation_groups := [⟨1, "Jovens", 1, 3, 10000, false⟩]
    next_group_type_id := 6
    next_group_id := 2 }

/-- How far a `POST /api/transactions` request has come: what it holds in its
local variables between two store statements. -/
inductive PostPhase where
  | start
  | gotCaixaGeral (caixaGeral : Group)
  | gotGroupType (caixaGeral : Group) (group_type_id : Nat)
  | resolved (group_type_id : Nat) (targetGroupId : Option Nat) (previousBalance : JsNum)
  | inserted (transactionId : Nat) (targetGroupId : Option Nat) (previous new : Int)
  | done (response : Response)
  deriving DecidableEq, Repr

/-- A `POST /api/transactions` request in flight. -/
structure PostCall where
  user : User
  body : PostBody
  now : DateTime
  phase : PostPhase
  deriving DecidableEq, Repr

/-- The next stretch of the handler of `POST /api/transactions` for a request
in flight: the code up to and including its next store statement (steps 1-2,
3-4, 5, 6-8, 9-10 of the source), on the store as it is at that moment. No
statement raises. -/
def PostCall.step (s : Store) (c : PostCall) : Store × PostCall :=
  match c.phase with
  | .start =>
    if c.body.type = "" ∨ c.body.amount.truthy = false ∨ c.body.person_name = "" then
      (s, { c with phase := .done (.error 400 "Campos obrigatórios faltando") })
    else
      match s.congregation_groups.filter
          (fun g => g.name = "Caixa Geral" ∧ g.branch_id = c.user.id) with
      | [] => (s, { c with phase := .done (.error 500 "Caixa Geral não configurado") })
      | caixaGeral :: _ => (s, { c with phase := .gotCaixaGeral caixaGeral })
  | .gotCaixaGeral caixaGeral =>
    if ¬ c.body.type ∈ validTypes then
      (s, { c with phase := .done (.error 400 "Tipo de transação inválido") })
    else
      match s.group_types.filter (fun t => t.name = c.body.type) with
      | [] => (s, { c with phase := .done (.error 400 "Tipo não registrado") })
      | groupType :: _ => (s, { c with phase := .gotGroupType caixaGeral groupType.id })
  | .gotGroupType caixaGeral group_type_id =>
    match targetAndPrevious s c.user c.body caixaGeral none with
    | .error response => (s, { c with phase := .done response })
    | .ok (targetGroupId, previousBalance) =>
      (s, { c with phase := .resolved group_type_id targetGroupId previousBalance })
  | .resolved group_type_id targetGroupId previousBalance =>
    let parsedAmount := c.body.amount.parsed
    if parsedAmount.isNaN then (s, { c with phase := .done (.error 400 "Valor inválido") })
    else
      let preciseAmount := parsedAmount.toFixed2
      let newBal := newBalance c.body.type previousBalance preciseAmount
      if newBal.ltZero then (s, { c with phase := .done (.error 400 "Saldo insuficiente") })
      else
        match preciseAmount.toCents, previousBalance.toCents, newBal.toCents with
        | some amount, some previous, some new =>
          let row := postedRow s c.user c.body c.now group_type_id targetGroupId amount
            previous new
          ({ s with transactions := s.transactions ++ [row]
                    next_transaction_id := s.next_transaction_id + 1 },
           { c with phase := .inserted row.id targetGroupId previous new })
        | _, _, _ => (s, { c with phase := .done postFailure })
  | .inserted transactionId targetGroupId previous new =>
    ({ s with congregation_groups := setBalance s.congregation_groups targetGroupId new },
     { c with phase := .done (.created transactionId new previous c.body.type targetGroupId) })
  | .done _ => (s, c)

/-- A request run on its own, from its first statement to its response. -/
def PostCall.runAlone (s : Store) (c : PostCall) : Store × PostCall :=
  let r1 := c.step s
  let r2 := r1.2.step r1.1
  let r3 := r2.2.step r2.1
  let r4 := r3.2.step r3.1
  r4.2.step r4.1

/-- Two requests in flight on one store, under a schedule saying which of the
two runs its next stretch (`true` for the first). -/
def interleave (s : Store) (a b : PostCall) : List Bool → Store × PostCall × PostCall
  | [] => (s, a, b)
  | true :: rest => interleave (a.step s).1 (a.step s).2 b rest
  | false :: rest => interleave (b.step s).1 a (b.step s).2 rest

/-- A request about to start. -/
def PostCall.new (user : User) (body : PostBody) (now : DateTime) : PostCall :=
  ⟨user, body, now, .start⟩

/-- A deposit of 30.00 on the fund `Jovens` (id 2). -/
def secondDepositBody : PostBody := ⟨some 2, "DEPOSITO", ⟨true, .fin 3000 2⟩, none, "Rui"⟩

/-- Both requests read before either writes. -/
def racingSchedule : List Bool :=
  [true, true, true, false, false, false, true, true, false, false]

/-- The first request runs to its response before the second starts. -/
def serialSchedule : List Bool :=
  [true, true, true, true, true, false, false, false, false, false]

/-- A store where branch 2 owns the fund `Obras` (id 4) holding 500.00, with the
deposit that brought it there. -/
def twoBranchStore : Store :=
  { exampleStore with
    congregation_groups := [⟨1, "Caixa Geral", 1, 6, 0, true⟩,
      ⟨2, "Jovens", 1, 3, 10000, false⟩, ⟨3, "Caixa Geral", 2, 6, 0, true⟩,
      ⟨4, "Obras", 2, 3, 50000, false⟩, ⟨5, "Caixa Geral", 9, 6, 0, true⟩]
    transactions := [⟨1, some 4, some 3, 50000, none, "Lia", 2, 0, 50000, noon⟩]
    next_group_id := 6
    next_transaction_id := 2 }

/-- An entry of type `OUTROS` of 1.00 naming the fund `Obras` (id 4) of branch 2. -/
def foreignOthersBody : PostBody := ⟨some 4, "OUTROS", ⟨true, .fin 100 2⟩, none, "Ana"⟩

/-- The store after the example of the specification was archived in the middle
of March 2025. -/
def archivedOnce : Store := (monthlyArchive archiveExample admin midMarch none).2

/-- Some invocation time in the middle of April 2025. -/
def midApril : DateTime := ⟨2025, 4, 15, 43200000⟩

/-- The type rows the administrative reset selects. -/
def resetTypes (s : Store) : List GroupType :=
  s.group_types.filter fun t => t.name ∈ ["RETIRADA", "DEPOSITO"]

/-- What a balancing entry says apart from its description: fund, type,
amount, person, previous balance and new balance. -/
def entryFacts (t : Transaction) : Option Nat × Option Nat × Int × String × Int × Int :=
  (t.group_id, t.group_type_id, t.amount, t.person_name, t.previous_balance, t.new_balance)

/-! ## The balance views -/

/-- The row `ORDER BY id DESC LIMIT 1` keeps: the entry with the greatest
identity (the earliest such row, should identities repeat). -/
def latestEntry (rows : List Transaction) : Option Transaction :=
  rows.foldl (fun acc t =>
    match acc with
    | none => some t
    | some a => if a.id < t.id then some t else some a) none

/-- The balance column of `GET /api/admin/branches/:id/groups` for a fund:
`COALESCE((SELECT new_balance FROM transactions WHERE group_id = g.id ORDER BY
id DESC LIMIT 1), 0)`. -/
def reportedBalance (s : Store) (groupId : Nat) : Int :=
  match latestEntry (s.transactions.filter fun t => t.group_id = some groupId) with
  | some t => t.new_balance
  | none => 0

/-- The handler of `GET /api/admin/branches/:id/groups`: identity, name and
balance of the funds of the branch. The rows are given in table order; the
`ORDER BY g.name` of the source only arranges them. -/
def adminBranchGroups (s : Store) (user : User) (branchId : Nat) :
    Except Response (List (Nat × String × Int)) :=
  if !user.isAdmin then .error (.error 403 "Acesso não autorizado")
  else
    .ok ((s.congregation_groups.filter fun g => g.branch_id = branchId).map fun g =>
      (g.id, g.name, reportedBalance s g.id))

/-- The handler of `GET /api/groups`: identity, name, type name, balance and
branch name of the funds, joined with their type and branch rows; the funds of
the caller's branch, or all funds for an administrator. Rows in table order. -/
def apiGroups (s : Store) (user : User) : List (Nat × String × String × Int × String) :=
  ((s.congregation_groups.filter fun g => user.isAdmin ∨ g.branch_id = user.id).map fun g =>
    ((s.group_types.filter fun gt => gt.id = g.group_type_id).map fun gt =>
      (s.branches.filter fun b => b.id = g.branch_id).map fun b =>
        (g.id, g.name, gt.name, g.current_balance, b.name)).flatten).flatten

/-- The store a sequence of calls leaves behind. -/
def runOps (s : Store) (ops : List Op) : Store :=
  ops.foldl (fun st op => (op.run st).2) s

/-- The calls after which the administrator's fund view and the cached balances
agree: every Post Entry whose balance write does not raise, every monthly
archive and every reset; no Update Entry. -/
def Op.WritesThrough : Op → Prop
  | .post _ _ _ fault => fault ≠ some .updateBalance
  | .put _ _ _ => False
  | .archive _ _ _ => True
  | .reset _ _ _ _ => True

/-- Whether a call is among those can be checked. -/
instance decidableWritesThrough (op : Op) : Decidable op.WritesThrough := by
  cases op <;> simp only [Op.WritesThrough] <;> infer_instance

/-- The entry identities lie below the auto-increment counter and every fund's
cached balance is the `new_balance` of the latest entry on the fund, or zero
when the fund has no entry. -/
def ViewMatches (s : Store) : Prop :=
  (∀ t ∈ s.transactions, t.id < s.next_transaction_id) ∧
    ∀ g ∈ s.congregation_groups, reportedBalance s g.id = g.current_balance

/-- A deposit of 100.00 on the fund `Jovens` and an update of the deposit to
150.00. -/
def updatedRun : List Op :=
  [.post member ⟨some 2, "DEPOSITO", ⟨true, .fin 10000 2⟩, none, "Ana"⟩ noon none,
   .put 1 ⟨⟨true, .fin 15000 2⟩, none, "Ana"⟩ none]

/-- A deposit of 100.00 and a withdrawal of 30.00 on the fund `Jovens`, a tithe
of 12.50, an entry of type `OUTROS` of 7.00 on `Jovens`, a monthly archive, a
deposit of 5.00, a reset of branch 1 and an offering of 2.00. -/
def postedRun : List Op :=
  [.post member ⟨some 2, "DEPOSITO", ⟨true, .fin 10000 2⟩, none, "Ana"⟩ noon none,
   .post member ⟨some 2, "RETIRADA", ⟨true, .fin 3000 2⟩, none, "Ana"⟩ noon none,
   .post member ⟨none, "DIZIMO", ⟨true, .fin 1250 2⟩, none, "Rui"⟩ noon none,
   .post member ⟨some 2, "OUTROS", ⟨true, .fin 700 2⟩, none, "Ana"⟩ noon none,
   .archive admin noon none,
   .post member ⟨some 2, "DEPOSITO", ⟨true, .fin 500 2⟩, none, "Ana"⟩ noon none,
   .reset admin 1 noon none,
   .post member ⟨none, "OFERTA", ⟨true, .fin 200 2⟩, none, "Rui"⟩ noon none]

/-- The `CASE` of the per-branch balance of `GET /api/admin/balances`, on the
name of the joined type row. -/
def caseAmount (name : String) (amount : Int) : Int :=
  if name ∈ ["DIZIMO", "OFERTA", "DEPOSITO"] then amount
  else if name = "RETIRADA" then -amount
  else 0

/-- What an entry adds to the per-branch balance: the `CASE` over the type rows
the `LEFT JOIN group_types` matches; an entry without a matching type row is
joined with `NULL` and adds zero. -/
def entryValue (s : Store) (t : Transaction) : Int :=
  ((s.group_types.filter fun gt => some gt.id = t.group_type_id).map fun gt =>
    caseAmount gt.name t.amount).sum

/-- What the entries joined to a fund (`g.id = t.group_id`) add up to. -/
def fundLedger (s : Store) (groupId : Nat) : Int :=
  ((s.transactions.filter fun t => t.group_id = some groupId).map (entryValue s)).sum

/-- The `branches` part of the response of `GET /api/admin/balances`: identity,
name and aggregate balance of every branch that is not an administrator, the
aggregate being the sum over the branch's funds and their entries. One row per
branch row, in table order (`GROUP BY b.id` on the primary key). -/
def adminBalances (s : Store) (user : User) : Except Response (List (Nat × String × Int)) :=
  if !user.isAdmin then .error (.error 403 "Acesso não autorizado")
  else
    .ok ((s.branches.filter fun b => b.is_admin = false).map fun b =>
      (b.id, b.name,
        ((s.congregation_groups.filter fun g => g.branch_id = b.id).map fun g =>
          fundLedger s g.id).sum))

/-- The handler of `GET /api/balance`: the sum of the cached balances of the
funds of the caller's branch. -/
def apiBalance (s : Store) (user : User) : Except Response Int :=
  if user.isAdmin then .error (.error 403 "Apenas usuários comuns podem acessar esta rota")
  else
    .ok ((s.congregation_groups.filter fun g => g.branch_id = user.id).map fun g =>
      g.current_balance).sum

/-- The calls of the balance-view claim: Post Entry of a type other than
`OUTROS` whose balance write does not raise, every monthly archive and every
reset; no Update Entry. -/
def Op.Ledgers : Op → Prop
  | .post _ body _ fault => body.type ≠ "OUTROS" ∧ fault ≠ some .updateBalance
  | .put _ _ _ => False
  | .archive _ _ _ => True
  | .reset _ _ _ _ => True

/-- Whether a call is among those can be checked. -/
instance decidableLedgers (op : Op) : Decidable op.Ledgers := by
  cases op <;> simp only [Op.Ledgers] <;> infer_instance

/-- The invariant behind the balance views: every fund's cached balance is what
its entries add up to, the primary keys are unique and the types `RETIRADA` and
`DEPOSITO` are registered. -/
def Books (s : Store) : Prop :=
  (∀ g ∈ s.congregation_groups, g.current_balance = fundLedger s g.id) ∧ s.KeysUnique ∧
    (∃ x ∈ s.group_types, x.name = "RETIRADA") ∧ (∃ x ∈ s.group_types, x.name = "DEPOSITO")

/-- A deposit of 100.00 and a withdrawal of 30.00 on the fund `Jovens`, a tithe
of 12.50, a monthly archive, a deposit of 5.00, a withdrawal beyond the balance
(rejected), an offering of 2.00, a deposit of 40.00 by branch 2 on its
general-cash fund and a reset of branch 1. -/
def ledgerRun : List Op :=
  [.post member ⟨some 2, "DEPOSITO", ⟨true, .fin 10000 2⟩, none, "Ana"⟩ noon none,
   .post member ⟨some 2, "RETIRADA", ⟨true, .fin 3000 2⟩, none, "Ana"⟩ noon none,
   .post member ⟨none, "DIZIMO", ⟨true, .fin 1250 2⟩, none, "Rui"⟩ noon none,
   .archive admin noon none,
   .post member ⟨some 2, "DEPOSITO", ⟨true, .fin 500 2⟩, none, "Ana"⟩ noon none,
   .post member ⟨some 2, "RETIRADA", ⟨true, .fin 900 2⟩, none, "Ana"⟩ noon none,
   .post member ⟨none, "OFERTA", ⟨true, .fin 200 2⟩, none, "Rui"⟩ noon none,
   .post ⟨2, false⟩ ⟨some 3, "DEPOSITO", ⟨true, .fin 4000 2⟩, none, "Lia"⟩ noon none,
   .reset admin 1 noon none]

/-! ## Lemmas and theorems -/

theorem roundDiv_mul (c : Int) (d : Nat) (hd : 0 < d) : roundDiv (c * d) d = c := by
  unfold roundDiv
  have hd' : (0 : Int) < d := by exact_mod_cast hd
  split
  · rename_i h
    have hc : 0 ≤ c := by
      by_contra hneg
      push_neg at hneg
      have : c * d < 0 := mul_neg_of_neg_of_pos hneg hd'
      omega
    have : 2 * (c * ↑d) + ↑d = ↑d + (2 * ↑d) * c := by ring
    rw [this, Int.add_mul_ediv_left _ _ (by omega)]
    have : (d : Int) / (2 * d) = 0 := Int.ediv_eq_zero_of_lt (by omega) (by omega)
    omega
  · rename_i h
    have hc : c < 0 := by
      by_contra hneg
      push_neg at hneg
      have : 0 ≤ c * d := mul_nonneg hneg (by omega)
      omega
    have : 2 * -(c * ↑d) + ↑d = ↑d + (2 * ↑d) * (-c) := by ring
    rw [this, Int.add_mul_ediv_left _ _ (by omega)]
    have : (d : Int) / (2 * d) = 0 := Int.ediv_eq_zero_of_lt (by omega) (by omega)
    omega

theorem toCents_fin_two (c : Int) : (JsNum.fin c 2).toCents = some c := by
  simp only [JsNum.toCents]
  have := roundDiv_mul c (10 ^ 2) (by norm_num)
  simpa using this

theorem toCents_ofCents (c : Int) : (JsNum.ofCents c).toCents = some c := toCents_fin_two c

theorem newBalance_fin (type : String) (p a : Int) :
    newBalance type (JsNum.ofCents p) (JsNum.fin a 2)
      = JsNum.ofCents (p + (if type = "RETIRADA" then -a else a)) := by
  unfold newBalance
  split
  · simp only [JsNum.sub, JsNum.neg, JsNum.ofCents, JsNum.add, JsNum.toFixed2]
    have := roundDiv_mul (p + -a) (10 ^ (2 + 2)) (by norm_num)
    rw [← this]
    congr 1
    ring_nf
  · simp only [JsNum.ofCents, JsNum.add, JsNum.toFixed2]
    have := roundDiv_mul (p + a) (10 ^ (2 + 2)) (by norm_num)
    rw [← this]
    congr 1
    ring_nf

theorem settle_created {s : Store} {user : User} {body : PostBody} {now : DateTime}
    {fault : Option PostStep} {gtid : Nat} {tg : Option Nat} {p : Int}
    {tid : Nat} {nb pb : Int} {ty : String} {tgt : Option Nat} {s1 : Store}
    (h : settle s user body now fault gtid tg (JsNum.ofCents p)
      = (.created tid nb pb ty tgt, s1)) :
    ∃ m sc, body.amount.parsed = .fin m sc ∧
      nb = p + (if body.type = "RETIRADA" then -(roundDiv (m * 100) (10 ^ sc))
                else roundDiv (m * 100) (10 ^ sc)) ∧
      0 ≤ nb ∧ pb = p ∧ tid = s.next_transaction_id ∧ ty = body.type ∧ tgt = tg ∧
      s1 = { s with
        transactions := s.transactions ++
          [postedRow s user body now gtid tg (roundDiv (m * 100) (10 ^ sc)) p nb]
        next_transaction_id := s.next_transaction_id + 1
        congregation_groups := setBalance s.congregation_groups tg nb } := by
  unfold settle at h
  cases hp : body.amount.parsed with
  | nan => simp [hp, JsNum.isNaN] at h
  | posInf =>
    simp only [hp, JsNum.isNaN, JsNum.toFixed2, newBalance, JsNum.sub, JsNum.neg, JsNum.ofCents,
      JsNum.add] at h
    split_ifs at h <;> simp_all [JsNum.toFixed2, JsNum.ltZero, JsNum.toCents, postFailure]
  | negInf =>
    simp only [hp, JsNum.isNaN, JsNum.toFixed2, newBalance, JsNum.sub, JsNum.neg, JsNum.ofCents,
      JsNum.add] at h
    split_ifs at h <;> simp_all [JsNum.toFixed2, JsNum.ltZero, JsNum.toCents, postFailure]
  | fin m sc =>
    refine ⟨m, sc, rfl, ?_⟩
    simp only [hp, JsNum.isNaN, JsNum.toFixed2, newBalance_fin, toCents_fin_two,
      toCents_ofCents] at h
    simp only [JsNum.ofCents, JsNum.ltZero] at h
    split_ifs at h
    all_goals simp only [postFailure, Prod.mk.injEq, Response.created.injEq, reduceCtorEq,
      false_and, and_false] at h
    all_goals
      obtain ⟨⟨e1, e2, e3, e4, e5⟩, e6⟩ := h
      subst e2 e3 e4 e5 e6
      simp_all [postedRow]

theorem targetAndPrevious_ok {s : Store} {user : User} {body : PostBody} {cg : Group}
    {fault : Option PostStep} {tg : Option Nat} {prev : JsNum}
    (hv : body.type ∈ validTypes)
    (h : targetAndPrevious s user body cg fault = .ok (tg, prev)) :
    ∃ p, prev = JsNum.ofCents p ∧ Resolved s user body cg tg p := by
  unfold targetAndPrevious at h
  split_ifs at h with h1 h2 h3 h4
  · simp only [Except.ok.injEq, Prod.mk.injEq] at h
    exact ⟨cg.current_balance, h.2.symm, Or.inl ⟨h1, h.1.symm, rfl⟩⟩
  · split at h
    · simp at h
    · rename_i group rest hg
      split_ifs at h with h5
      simp only [Except.ok.injEq, Prod.mk.injEq] at h
      refine ⟨group.current_balance, h.2.symm, Or.inr (Or.inl ⟨h2, by simpa using h3, group, ?_, ?_,
        h.1.symm, rfl⟩)⟩
      · unfold groupById; rw [hg]; rfl
      · simp only [Bool.and_eq_true, Bool.not_eq_eq_eq_not, Bool.not_true, bne_iff_ne, ne_eq,
          not_and, Decidable.not_not] at h5
        cases hadm : user.isAdmin with
        | true => exact Or.inl rfl
        | false => exact Or.inr (h5 hadm)
  · simp only [Except.ok.injEq, Prod.mk.injEq] at h
    refine ⟨0, h.2.symm, Or.inr (Or.inr ⟨?_, h.1.symm, rfl⟩)⟩
    simp only [validTypes, List.mem_cons, List.mem_singleton, List.not_mem_nil, or_false] at hv
    tauto

theorem postTransactions_created {s : Store} {user : User} {body : PostBody} {now : DateTime}
    {fault : Option PostStep} {tid : Nat} {nb pb : Int} {ty : String} {tgt : Option Nat}
    {s1 : Store}
    (h : postTransactions s user body now fault = (.created tid nb pb ty tgt, s1)) :
    ∃ cg gt m sc, caixaGeralOf s user.id = some cg ∧ groupTypeOf s body.type = some gt ∧
      body.amount.parsed = .fin m sc ∧ Resolved s user body cg tgt pb ∧
      nb = pb + (if body.type = "RETIRADA" then -(roundDiv (m * 100) (10 ^ sc))
                else roundDiv (m * 100) (10 ^ sc)) ∧
      0 ≤ nb ∧ tid = s.next_transaction_id ∧ ty = body.type ∧
      s1 = { s with
        transactions := s.transactions ++
          [postedRow s user body now gt.id tgt (roundDiv (m * 100) (10 ^ sc)) pb nb]
        next_transaction_id := s.next_transaction_id + 1
        congregation_groups := setBalance s.congregation_groups tgt nb } := by
  unfold postTransactions at h
  split at h
  · simp at h
  split at h
  · simp [postFailure] at h
  split at h
  · simp at h
  rename_i cg rest hcg
  split at h
  · simp at h
  rename_i h3
  split at h
  · simp [postFailure] at h
  split at h
  · simp at h
  rename_i gt rest2 hgt
  split at h
  · rename_i response htp
    simp only [Prod.mk.injEq] at h
    obtain ⟨hr, -⟩ := h
    subst hr
    unfold targetAndPrevious at htp
    split at htp
    · simp at htp
    split at htp
    · split at htp
      · simp at htp
      split at htp
      · simp [postFailure] at htp
      split at htp
      · simp at htp
      split at htp
      · simp at htp
      · simp at htp
    · simp at htp
  · rename_i tg prev htp
    obtain ⟨p, hp, hres⟩ := targetAndPrevious_ok (by simpa using h3) htp
    subst hp
    obtain ⟨m, sc, hm, hnb, h0, hpb, htid, hty, htgt, hs1⟩ := settle_created h
    subst hpb htgt
    exact ⟨cg, gt, m, sc, by unfold caixaGeralOf; rw [hcg]; rfl,
      by unfold groupTypeOf; rw [hgt]; rfl, hm, hres, hnb, h0, htid, hty, hs1⟩

theorem head?_filter_some {α : Type} {p : α → Bool} {l : List α} {a : α}
    (h : (l.filter p).head? = some a) : a ∈ l ∧ p a = true := by
  have : a ∈ l.filter p := List.mem_of_mem_head? h
  exact List.mem_filter.mp this

theorem caixaGeralOf_some {s : Store} {branchId : Nat} {cg : Group}
    (h : caixaGeralOf s branchId = some cg) :
    cg ∈ s.congregation_groups ∧ cg.name = "Caixa Geral" ∧ cg.branch_id = branchId := by
  have := head?_filter_some h
  simpa using this

theorem groupById_some {s : Store} {id : Option Nat} {g : Group}
    (h : groupById s id = some g) : g ∈ s.congregation_groups ∧ some g.id = id := by
  have := head?_filter_some h
  simpa using this

theorem groupTypeOf_some {s : Store} {name : String} {gt : GroupType}
    (h : groupTypeOf s name = some gt) : gt ∈ s.group_types ∧ gt.name = name := by
  have := head?_filter_some h
  simpa using this

theorem filter_id_map (f : Group → Group) (hf : ∀ g, (f g).id = g.id) (gs : List Group)
    (id : Option Nat) :
    (gs.map f).filter (fun g => some g.id = id) = (gs.filter fun g => some g.id = id).map f := by
  induction gs with
  | nil => rfl
  | cons g gs ih =>
    simp only [List.map_cons, List.filter_cons, hf]
    split <;> simp [ih]

theorem groupById_map (f : Group → Group) (hf : ∀ g, (f g).id = g.id) (s s1 : Store)
    (h : s1.congregation_groups = s.congregation_groups.map f) (id : Option Nat) :
    groupById s1 id = (groupById s id).map f := by
  unfold groupById
  rw [h, filter_id_map f hf, List.head?_map]

theorem balanceOf_setBalance (s s1 : Store) (tg : Option Nat) (nb : Int)
    (h : s1.congregation_groups = setBalance s.congregation_groups tg nb) (id : Nat) :
    balanceOf s1 id =
      if some id = tg then (balanceOf s id).map (fun _ => nb) else balanceOf s id := by
  unfold balanceOf
  rw [groupById_map _ _ s s1 h]
  · cases hg : groupById s (some id) with
    | none => simp
    | some g =>
      have hid := (groupById_some hg).2
      simp only [Option.map_some']
      rw [hid]
      split <;> simp
  · intro g; split <;> rfl

/-- C5. Every accepted Post Entry call of type tithe (`DIZIMO`) or offering
(`OFERTA`) writes one entry, recorded on the general-cash fund of the caller's
branch, and changes the cached balance of that fund only, whatever fund id the
caller supplied (`body.group_id` is arbitrary). -/
theorem tithe_offering_post_to_general_cash (s : Store) (user : User) (body : PostBody)
    (now : DateTime) (fault : Option PostStep) (tid : Nat) (nb pb : Int) (ty : String)
    (tgt : Option Nat) (s1 : Store)
    (htype : body.type = "DIZIMO" ∨ body.type = "OFERTA")
    (h : postTransactions s user body now fault = (.created tid nb pb ty tgt, s1)) :
    ∃ cg, caixaGeralOf s user.id = some cg ∧ cg.name = "Caixa Geral" ∧
      cg.branch_id = user.id ∧ tgt = some cg.id ∧
      (∃ t, writtenEntries s s1 = [t] ∧ t.group_id = some cg.id) ∧
      balanceOf s1 cg.id = some nb ∧
      ∀ id, id ≠ cg.id → balanceOf s1 id = balanceOf s id := by
  obtain ⟨cg, gt, m, sc, hcg, -, -, hres, -, -, -, -, hs1⟩ := postTransactions_created h
  have hcg' := caixaGeralOf_some hcg
  have htgt : tgt = some cg.id := by
    rcases hres with h1 | h2 | h3
    · exact h1.2.1
    · rcases htype with e | e <;> rcases h2.1 with e' | e' <;> rw [e] at e' <;> simp at e'
    · rcases htype with e | e <;> rw [e] at h3 <;> simp at h3
  subst htgt
  have hgroups : s1.congregation_groups = setBalance s.congregation_groups (some cg.id) nb := by
    rw [hs1]
  refine ⟨cg, hcg, hcg'.2.1, hcg'.2.2, rfl, ?_, ?_, ?_⟩
  · refine ⟨postedRow s user body now gt.id (some cg.id) (roundDiv (m * 100) (10 ^ sc)) pb nb,
      ?_, rfl⟩
    rw [hs1]
    simp [writtenEntries]
  · rw [balanceOf_setBalance s s1 _ nb hgroups]
    simp only [↓reduceIte]
    have : ∃ g, groupById s (some cg.id) = some g := by
      unfold groupById
      cases hf : (s.congregation_groups.filter fun g => some g.id = some cg.id) with
      | nil =>
        have : cg ∈ s.congregation_groups.filter fun g => some g.id = some cg.id :=
          List.mem_filter.mpr ⟨hcg'.1, by simp⟩
        rw [hf] at this
        simp at this
      | cons a l => exact ⟨a, rfl⟩
    obtain ⟨g, hg⟩ := this
    simp [balanceOf, hg]
  · intro id hid
    rw [balanceOf_setBalance s s1 _ nb hgroups]
    have : ¬ (some id = some cg.id) := by simpa using hid
    simp [this]

/-- C5, at a tithe of 12.50 that names the fund `Jovens` (id 2): the entry and
the balance change land on the general-cash fund (id 1). -/
theorem tithe_offering_post_to_general_cash_witness :
    ∃ cg, caixaGeralOf exampleStore member.id = some cg ∧ cg.name = "Caixa Geral" ∧
      cg.branch_id = member.id ∧ some 1 = some cg.id ∧
      (∃ t, writtenEntries exampleStore
          (postTransactions exampleStore member
            ⟨some 2, "DIZIMO", ⟨true, .fin 1250 2⟩, none, "Ana"⟩ noon none).2 = [t] ∧
        t.group_id = some cg.id) ∧
      balanceOf (postTransactions exampleStore member
            ⟨some 2, "DIZIMO", ⟨true, .fin 1250 2⟩, none, "Ana"⟩ noon none).2 cg.id
        = some 1250 ∧
      ∀ id, id ≠ cg.id →
        balanceOf (postTransactions exampleStore member
            ⟨some 2, "DIZIMO", ⟨true, .fin 1250 2⟩, none, "Ana"⟩ noon none).2 id
          = balanceOf exampleStore id :=
  tithe_offering_post_to_general_cash exampleStore member
    ⟨some 2, "DIZIMO", ⟨true, .fin 1250 2⟩, none, "Ana"⟩ noon none 1 1250 0 "DIZIMO" (some 1) _
    (Or.inl rfl) (by decide)

theorem head?_eq_some_cons {α : Type} {l : List α} {a : α} (h : l.head? = some a) :
    ∃ rest, l = a :: rest := by
  cases l with
  | nil => simp at h
  | cons b rest =>
    simp only [List.head?_cons, Option.some.injEq] at h
    exact ⟨rest, by rw [h]⟩

/-- C4, amended. A withdrawal (`RETIRADA`) on an existing fund the caller may
use, whose amount rounded to cents as the handler rounds it (or an infinite
amount) exceeds the fund's cached balance, is rejected with status 400
`Saldo insuficiente`, the InsufficientBalanceError; the store is returned as it
was, so the fund's balance and the number of stored entries are unchanged. -/
theorem withdrawal_beyond_balance_rejected (s : Store) (user : User) (body : PostBody)
    (now : DateTime) (cg g : Group) (gt : GroupType)
    (htype : body.type = "RETIRADA") (hperson : body.person_name ≠ "")
    (htruthy : body.amount.truthy = true)
    (hcg : caixaGeralOf s user.id = some cg) (hgt : groupTypeOf s body.type = some gt)
    (hid : falsyId body.group_id = false) (hg : groupById s body.group_id = some g)
    (hauth : user.isAdmin = true ∨ g.branch_id = user.id)
    (hexceeds : body.amount.parsed.exceedsCents g.current_balance) :
    postTransactions s user body now none = (.error 400 "Saldo insuficiente", s) ∧
    (postTransactions s user body now none).1.kind = some .insufficientBalance ∧
    (∀ id, balanceOf (postTransactions s user body now none).2 id = balanceOf s id) ∧
    (postTransactions s user body now none).2.transactions.length = s.transactions.length := by
  have key : postTransactions s user body now none = (.error 400 "Saldo insuficiente", s) := by
    obtain ⟨r1, hcg'⟩ := head?_eq_some_cons hcg
    obtain ⟨r2, hgt'⟩ := head?_eq_some_cons hgt
    obtain ⟨r3, hg'⟩ := head?_eq_some_cons hg
    have hne : ¬ (body.type = "" ∨ body.amount.truthy = false ∨ body.person_name = "") := by
      rw [htype, htruthy]; simp [hperson]
    have hauth' : (!user.isAdmin && g.branch_id != user.id) = false := by
      rcases hauth with h | h <;> simp [h]
    have htp : targetAndPrevious s user body cg none
        = .ok (body.group_id, JsNum.ofCents g.current_balance) := by
      unfold targetAndPrevious
      rw [hg']
      simp [htype, hid, hauth']
    unfold postTransactions
    rw [if_neg hne, hcg', hgt']
    simp only [htp]
    have hv : body.type ∈ validTypes := by rw [htype]; decide
    simp only [hv, not_true_eq_false, reduceCtorEq, ↓reduceIte]
    unfold settle
    cases hp : body.amount.parsed with
    | nan => simp [hp, JsNum.exceedsCents] at hexceeds
    | negInf => simp [hp, JsNum.exceedsCents] at hexceeds
    | posInf =>
      simp [JsNum.isNaN, JsNum.toFixed2, newBalance, htype, JsNum.sub, JsNum.neg,
        JsNum.ofCents, JsNum.add, JsNum.ltZero]
    | fin m sc =>
      simp only [hp, JsNum.exceedsCents] at hexceeds
      simp only [JsNum.isNaN, JsNum.toFixed2, newBalance_fin, htype]
      simp only [JsNum.ofCents, JsNum.ltZero]
      have : g.current_balance + -roundDiv (m * 100) (10 ^ sc) < 0 := by omega
      simp [this]
  rw [key]
  exact ⟨rfl, rfl, fun _ => rfl, rfl⟩

/-- C4, amended, at a withdrawal of 100.01 from the fund `Jovens`, which holds
100.00. -/
theorem withdrawal_beyond_balance_rejected_witness :
    postTransactions exampleStore member
        ⟨some 2, "RETIRADA", ⟨true, .fin 10001 2⟩, none, "Ana"⟩ noon none
      = (.error 400 "Saldo insuficiente", exampleStore) :=
  (withdrawal_beyond_balance_rejected exampleStore member
    ⟨some 2, "RETIRADA", ⟨true, .fin 10001 2⟩, none, "Ana"⟩ noon
    ⟨1, "Caixa Geral", 1, 6, 0, true⟩ ⟨2, "Jovens", 1, 3, 10000, false⟩ ⟨4, "RETIRADA"⟩
    rfl (by decide) rfl (by decide) (by decide) (by decide) (by decide) (by decide)
    (by decide)).1

/-- C4, counterexample. A withdrawal of 100.004 from the fund `Jovens`, which
holds 100.00: the amount exceeds the balance, the handler rounds it to 100.00,
answers 201, stores one entry of 100.00 and leaves the fund at 0.00. -/
theorem withdrawal_just_beyond_balance_accepted :
    balanceOf exampleStore 2 = some 10000 ∧ (10000 : Int) * 10 ^ 3 < 100004 * 10 ^ 2 ∧
    exampleStore.transactions.length = 0 ∧
    (postTransactions exampleStore member
        ⟨some 2, "RETIRADA", ⟨true, .fin 100004 3⟩, none, "Ana"⟩ noon none).1
      = .created 1 0 10000 "RETIRADA" (some 2) ∧
    (postTransactions exampleStore member
        ⟨some 2, "RETIRADA", ⟨true, .fin 100004 3⟩, none, "Ana"⟩ noon none).2.transactions.map
      (fun t => (t.group_id, t.amount, t.previous_balance, t.new_balance))
      = [(some 2, 10000, 10000, 0)] ∧
    balanceOf (postTransactions exampleStore member
        ⟨some 2, "RETIRADA", ⟨true, .fin 100004 3⟩, none, "Ana"⟩ noon none).2 2 = some 0 := by
  decide

/-- C7, counterexample. A deposit naming fund id 99, which matches no fund, is
answered with status 403 `Grupo não autorizado`: an AuthorizationError, not the
ValidationError the claim states. -/
theorem unknown_fund_not_validation_error :
    (postTransactions exampleStore member
        ⟨some 99, "DEPOSITO", ⟨true, .fin 1000 2⟩, none, "Ana"⟩ noon none).1
      = .error 403 "Grupo não autorizado" ∧
    groupById exampleStore (some 99) = none ∧
    (postTransactions exampleStore member
        ⟨some 99, "DEPOSITO", ⟨true, .fin 1000 2⟩, none, "Ana"⟩ noon none).1.kind
      ≠ some .validation := by
  decide

/-- C7, amended. For a deposit (`DEPOSITO`) or withdrawal (`RETIRADA`) that
reaches step 5 (fields present, general-cash fund and type found): without a
fund id the call fails with status 400 `Grupo obrigatório`, a ValidationError;
with a fund id that matches no fund, or that of a fund of another branch when
the caller is not an administrator, it fails with status 403
`Grupo não autorizado`, an AuthorizationError. In each case the store is
returned as it was. -/
theorem transfer_target_checks (s : Store) (user : User) (body : PostBody)
    (now : DateTime) (cg : Group) (gt : GroupType)
    (htype : body.type = "DEPOSITO" ∨ body.type = "RETIRADA")
    (hperson : body.person_name ≠ "") (htruthy : body.amount.truthy = true)
    (hcg : caixaGeralOf s user.id = some cg) (hgt : groupTypeOf s body.type = some gt) :
    (falsyId body.group_id = true →
      postTransactions s user body now none = (.error 400 "Grupo obrigatório", s) ∧
      (postTransactions s user body now none).1.kind = some .validation) ∧
    (falsyId body.group_id = false →
      (groupById s body.group_id = none ∨
        ∃ g, groupById s body.group_id = some g ∧ user.isAdmin = false ∧
          g.branch_id ≠ user.id) →
      postTransactions s user body now none = (.error 403 "Grupo não autorizado", s) ∧
      (postTransactions s user body now none).1.kind = some .authorization) := by
  obtain ⟨r1, hcg'⟩ := head?_eq_some_cons hcg
  obtain ⟨r2, hgt'⟩ := head?_eq_some_cons hgt
  have hne : ¬ (body.type = "" ∨ body.amount.truthy = false ∨ body.person_name = "") := by
    rw [htruthy]
    rcases htype with h | h <;> rw [h] <;> simp [hperson]
  have hv : body.type ∈ validTypes := by
    rcases htype with h | h <;> rw [h] <;> decide
  have hnot : ¬ (body.type = "DIZIMO" ∨ body.type = "OFERTA") := by
    rcases htype with h | h <;> rw [h] <;> decide
  have unfolded : postTransactions s user body now none =
      match targetAndPrevious s user body cg none with
      | .error response => (response, s)
      | .ok (targetGroupId, previousBalance) =>
        settle s user body now none gt.id targetGroupId previousBalance := by
    unfold postTransactions
    rw [if_neg hne, hcg', hgt']
    simp only [hv, not_true_eq_false, reduceCtorEq, ↓reduceIte]
    try rfl
  constructor
  · intro hfalsy
    have htp : targetAndPrevious s user body cg none = .error (.error 400 "Grupo obrigatório") := by
      unfold targetAndPrevious
      rw [if_neg hnot, if_pos htype, if_pos hfalsy]
    rw [unfolded, htp]
    exact ⟨rfl, rfl⟩
  · intro hfalsy hcase
    have htp : targetAndPrevious s user body cg none
        = .error (.error 403 "Grupo não autorizado") := by
      unfold targetAndPrevious
      rw [if_neg hnot, if_pos htype, if_neg (by simp [hfalsy])]
      simp only [reduceCtorEq, ↓reduceIte]
      rcases hcase with hnone | ⟨g, hg, hadm, hbr⟩
      · unfold groupById at hnone
        cases hf : s.congregation_groups.filter (fun g => some g.id = body.group_id) with
        | nil => rfl
        | cons a l => rw [hf] at hnone; simp at hnone
      · obtain ⟨r3, hg'⟩ := head?_eq_some_cons hg
        rw [hg']
        simp [hadm, hbr]
    rw [unfolded, htp]
    exact ⟨rfl, rfl⟩

/-- C7, amended, at three deposits on the example store: without a fund id,
with the unknown fund id 99, and with fund 3, which belongs to branch 2. -/
theorem transfer_target_checks_witness :
    postTransactions exampleStore member
        ⟨none, "DEPOSITO", ⟨true, .fin 1000 2⟩, none, "Ana"⟩ noon none
      = (.error 400 "Grupo obrigatório", exampleStore) ∧
    postTransactions exampleStore member
        ⟨some 99, "DEPOSITO", ⟨true, .fin 1000 2⟩, none, "Ana"⟩ noon none
      = (.error 403 "Grupo não autorizado", exampleStore) ∧
    postTransactions exampleStore member
        ⟨some 3, "DEPOSITO", ⟨true, .fin 1000 2⟩, none, "Ana"⟩ noon none
      = (.error 403 "Grupo não autorizado", exampleStore) :=
  ⟨((transfer_target_checks exampleStore member
      ⟨none, "DEPOSITO", ⟨true, .fin 1000 2⟩, none, "Ana"⟩ noon
      ⟨1, "Caixa Geral", 1, 6, 0, true⟩ ⟨3, "DEPOSITO"⟩
      (Or.inl rfl) (by decide) rfl (by decide) (by decide)).1 (by decide)).1,
   ((transfer_target_checks exampleStore member
      ⟨some 99, "DEPOSITO", ⟨true, .fin 1000 2⟩, none, "Ana"⟩ noon
      ⟨1, "Caixa Geral", 1, 6, 0, true⟩ ⟨3, "DEPOSITO"⟩
      (Or.inl rfl) (by decide) rfl (by decide) (by decide)).2 (by decide)
      (Or.inl (by decide))).1,
   ((transfer_target_checks exampleStore member
      ⟨some 3, "DEPOSITO", ⟨true, .fin 1000 2⟩, none, "Ana"⟩ noon
      ⟨1, "Caixa Geral", 1, 6, 0, true⟩ ⟨3, "DEPOSITO"⟩
      (Or.inl rfl) (by decide) rfl (by decide) (by decide)).2 (by decide)
      (Or.inr ⟨⟨3, "Caixa Geral", 2, 6, 0, true⟩, by decide, rfl, by decide⟩)).1⟩

theorem addToBalance_cents (groups : List Group) (id : Option Nat) (c a : Int) :
    addToBalance groups id (c * 10 ^ 2 + -a * 10 ^ 2) (2 + 2)
      = groups.map fun g =>
          if some g.id = id then { g with current_balance := g.current_balance + (c - a) }
          else g := by
  unfold addToBalance
  apply List.map_congr_left
  intro g _
  split
  · have := roundDiv_mul (g.current_balance + (c - a)) (10 ^ (2 + (2 + 2))) (by norm_num)
    have e : (g.current_balance * 10 ^ (2 + 2) + (c * 10 ^ 2 + -a * 10 ^ 2) * 10 ^ 2) * 100
        = (g.current_balance + (c - a)) * ((10 ^ (2 + (2 + 2)) : Nat) : Int) := by
      push_cast
      ring
    rw [e, this]
  · rfl

theorem putTransactions_cents (s : Store) (id : Nat) (body : PutBody) (c : Int)
    (t : Transaction) (hamount : body.amount.parsed = .fin c 2)
    (ht : transactionById s id = some t) :
    putTransactions s id body none =
      (.success,
       { s with
          transactions := setTransaction s.transactions id c body.description body.person_name
          congregation_groups := s.congregation_groups.map fun g =>
            if some g.id = t.group_id then
              { g with current_balance := g.current_balance + (c - t.amount) }
            else g }) := by
  obtain ⟨r, ht'⟩ := head?_eq_some_cons ht
  unfold putTransactions
  rw [ht']
  simp only [reduceCtorEq, ↓reduceIte, hamount, toCents_fin_two, JsNum.sub, JsNum.neg,
    JsNum.ofCents, JsNum.add, addToBalance_cents]

/-- C10. For an existing entry with stored amount `a` on a fund whose cached
balance is `b`, Update Entry with a new amount of `c` cents (a money value with
two fractional digits) succeeds and leaves the fund's cached balance at
`b + (c - a)`; the entry's amount, description and person are the supplied
values; its snapshot pair and every other field, every other entry, and the
balance of every other fund are unchanged. -/
theorem update_entry_applies_delta (s : Store) (id : Nat) (body : PutBody) (c : Int)
    (t : Transaction) (gid : Nat) (b : Int)
    (hamount : body.amount.parsed = .fin c 2)
    (ht : transactionById s id = some t) (hgid : t.group_id = some gid)
    (hb : balanceOf s gid = some b) :
    (putTransactions s id body none).1 = .success ∧
    balanceOf (putTransactions s id body none).2 gid = some (b + (c - t.amount)) ∧
    (∀ other, other ≠ gid →
      balanceOf (putTransactions s id body none).2 other = balanceOf s other) ∧
    (putTransactions s id body none).2.transactions = s.transactions.map (fun e =>
      if e.id = id then
        { e with amount := c, description := body.description, person_name := body.person_name }
      else e) ∧
    (∀ e, transactionById (putTransactions s id body none).2 id = some e →
      e.amount = c ∧ e.description = body.description ∧ e.person_name = body.person_name ∧
      e.previous_balance = t.previous_balance ∧ e.new_balance = t.new_balance) := by
  rw [putTransactions_cents s id body c t hamount ht]
  refine ⟨rfl, ?_, ?_, rfl, ?_⟩
  · unfold balanceOf at hb ⊢
    rw [groupById_map (fun g => if some g.id = t.group_id then
        { g with current_balance := g.current_balance + (c - t.amount) } else g)
      (by intro g; dsimp only; split <;> rfl) s _ rfl]
    cases hg : groupById s (some gid) with
    | none => rw [hg] at hb; simp at hb
    | some g =>
      rw [hg] at hb
      simp only [Option.map_some', Option.some.injEq] at hb
      have hid : g.id = gid := by simpa using (groupById_some hg).2
      simp [hid, hgid, hb]
  · intro other hother
    unfold balanceOf
    rw [groupById_map (fun g => if some g.id = t.group_id then
        { g with current_balance := g.current_balance + (c - t.amount) } else g)
      (by intro g; dsimp only; split <;> rfl) s _ rfl]
    cases hg : groupById s (some other) with
    | none => simp
    | some g =>
      have hid := (groupById_some hg).2
      have : ¬ (some g.id = t.group_id) := by
        rw [hid, hgid]; simpa using hother
      simp [this]
  · intro e he
    unfold transactionById at he ht
    simp only [setTransaction] at he
    have hmap : (s.transactions.map fun e => if e.id = id then
          { e with amount := c, description := body.description,
                   person_name := body.person_name } else e).filter (fun t => t.id = id)
        = (s.transactions.filter fun t => t.id = id).map fun e =>
          { e with amount := c, description := body.description,
                   person_name := body.person_name } := by
      clear he ht
      induction s.transactions with
      | nil => rfl
      | cons x xs ih =>
        by_cases hx : x.id = id
        · simp [List.filter_cons, hx, ih]
        · simp [List.filter_cons, hx, ih]
    rw [hmap, List.head?_map, ht] at he
    simp only [Option.map_some', Option.some.injEq] at he
    subst he
    exact ⟨rfl, rfl, rfl, rfl, rfl⟩

/-- C10, at the example of the specification: an entry of 50.00 on a fund at
200.00, updated to 80.00, leaves the fund at 230.00. -/
theorem update_entry_applies_delta_witness :
    (putTransactions updateStore 1 ⟨⟨true, .fin 8000 2⟩, some "corrigido", "Ana B."⟩ none).1
      = .success ∧
    balanceOf (putTransactions updateStore 1
      ⟨⟨true, .fin 8000 2⟩, some "corrigido", "Ana B."⟩ none).2 2 = some (20000 + (8000 - 5000)) :=
  ⟨(update_entry_applies_delta updateStore 1 ⟨⟨true, .fin 8000 2⟩, some "corrigido", "Ana B."⟩
      8000 ⟨1, some 2, some 3, 5000, none, "Ana", 1, 15000, 20000, noon⟩ 2 20000
      rfl (by decide) rfl (by decide)).1,
   (update_entry_applies_delta updateStore 1 ⟨⟨true, .fin 8000 2⟩, some "corrigido", "Ana B."⟩
      8000 ⟨1, some 2, some 3, 5000, none, "Ana", 1, 15000, 20000, noon⟩ 2 20000
      rfl (by decide) rfl (by decide)).2.1⟩

/-- C1, failing input. On the fund `Jovens` at 100.00, an accepted deposit of
50.00 followed by an accepted `OUTROS` entry of 30.00 on the same fund: both
entries are recorded on fund 2, the first records previous balance 100.00, and
the fund ends at 30.00, not at 100.00 + 50.00 + 30.00. -/
theorem sequence_with_other_type_breaks_sum :
    (postTransactions exampleStore member depositBody noon none).1
      = .created 1 15000 10000 "DEPOSITO" (some 2) ∧
    (postTransactions (postTransactions exampleStore member depositBody noon none).2
      member othersBody noon none).1 = .created 2 3000 0 "OUTROS" (some 2) ∧
    (writtenEntries exampleStore
      (postTransactions (postTransactions exampleStore member depositBody noon none).2
        member othersBody noon none).2).map
      (fun t => (t.group_id, t.previous_balance, signedAmount exampleStore t))
      = [(some 2, 10000, 5000), (some 2, 0, 3000)] ∧
    balanceOf (postTransactions (postTransactions exampleStore member depositBody noon none).2
      member othersBody noon none).2 2 = some 3000 ∧
    (3000 : Int) ≠ 10000 + (5000 + 3000) := by
  decide

/-- C6, failing input. A deposit whose amount reads `-5` is accepted: the entry
is stored with amount -5.00 and the fund goes from 100.00 to 95.00. A deposit
whose amount is the text `0.004` is accepted with stored amount 0.00. -/
theorem negative_and_zero_amounts_accepted :
    (postTransactions exampleStore member negativeBody noon none).1
      = .created 1 9500 10000 "DEPOSITO" (some 2) ∧
    (writtenEntries exampleStore
      (postTransactions exampleStore member negativeBody noon none).2).map
      (fun t => t.amount) = [-500] ∧
    (postTransactions exampleStore member tinyBody noon none).1
      = .created 1 10000 10000 "DEPOSITO" (some 2) ∧
    (writtenEntries exampleStore
      (postTransactions exampleStore member tinyBody noon none).2).map
      (fun t => t.amount) = [0] := by
  decide

/-- C8, failing input. When the balance write of Post Entry raises, the entry
stays written while the balance is the old one; when the balance write of
Update Entry raises, the entry stays updated while the balance is the old one. -/
theorem failed_balance_write_leaves_entry :
    (postTransactions exampleStore member depositBody noon (some .updateBalance)).1
      = .error 500 "Erro ao registrar transação" ∧
    (postTransactions exampleStore member depositBody noon
      (some .updateBalance)).2.transactions.length = 1 ∧
    exampleStore.transactions.length = 0 ∧
    balanceOf (postTransactions exampleStore member depositBody noon
      (some .updateBalance)).2 2 = some 10000 ∧
    (putTransactions updateStore 1 ⟨⟨true, .fin 8000 2⟩, none, "Ana"⟩
      (some .updateBalance)).1 = .error 500 "Erro ao atualizar transação" ∧
    (putTransactions updateStore 1 ⟨⟨true, .fin 8000 2⟩, none, "Ana"⟩
      (some .updateBalance)).2.transactions.map (fun t => t.amount) = [8000] ∧
    updateStore.transactions.map (fun t => t.amount) = [5000] ∧
    balanceOf (putTransactions updateStore 1 ⟨⟨true, .fin 8000 2⟩, none, "Ana"⟩
      (some .updateBalance)).2 2 = some 20000 := by
  decide

/-- C9, failing input. An accepted `OUTROS` entry of 30.00 on the fund `Jovens`,
whose cached balance is 100.00: the entry records previous balance 0.00, and
the fund's balance becomes the entry's new balance 30.00. -/
theorem other_type_ignores_previous_balance :
    balanceOf exampleStore 2 = some 10000 ∧
    (postTransactions exampleStore member othersBody noon none).1
      = .created 1 3000 0 "OUTROS" (some 2) ∧
    (writtenEntries exampleStore
      (postTransactions exampleStore member othersBody noon none).2).map
      (fun t => (t.group_id, t.previous_balance, t.new_balance)) = [(some 2, 0, 3000)] ∧
    balanceOf (postTransactions exampleStore member othersBody noon none).2 2 = some 3000 := by
  decide

theorem find?_id_of_nodup {l : List GroupType} (hu : (l.map fun t => t.id).Nodup)
    {x : GroupType} (hx : x ∈ l) : l.find? (fun t => t.id = x.id) = some x := by
  induction l with
  | nil => simp at hx
  | cons y ys ih =>
    simp only [List.map_cons, List.nodup_cons, List.mem_map, not_exists, not_and] at hu
    rcases List.mem_cons.mp hx with rfl | hmem
    · simp
    · have hne : ¬ (y.id = x.id) := fun e => hu.1 x hmem e.symm
      simp only [List.find?_cons, hne, decide_False]
      exact ih hu.2 hmem

theorem typeName_of_mem {s : Store} (hu : TypeIdsUnique s) {x : GroupType}
    (hx : x ∈ s.group_types) : typeName s (some x.id) = some x.name := by
  unfold typeName
  simp only
  rw [find?_id_of_nodup hu hx]
  rfl

theorem typeMap_cases (types : List GroupType) (name : String) :
    typeMap types name = none ∨ ∃ x ∈ types, x.name = name ∧ typeMap types name = some x.id := by
  unfold typeMap
  cases h : (types.filter fun t => t.name = name).getLast? with
  | none => exact Or.inl rfl
  | some x =>
    right
    have hx : x ∈ types.filter fun t => t.name = name := List.mem_of_getLast?_eq_some h
    have := List.mem_filter.mp hx
    exact ⟨x, this.1, by simpa using this.2, rfl⟩

theorem typeMap_some_of_mem {types : List GroupType} {name : String}
    (h : ∃ x ∈ types, x.name = name) :
    ∃ x ∈ types, x.name = name ∧ typeMap types name = some x.id := by
  rcases typeMap_cases types name with hnone | hsome
  · exfalso
    obtain ⟨x, hx, hn⟩ := h
    unfold typeMap at hnone
    have hx' : x ∈ types.filter fun t => t.name = name :=
      List.mem_filter.mpr ⟨hx, by simpa using hn⟩
    cases hl : (types.filter fun t => t.name = name).getLast? with
    | none =>
      rw [List.getLast?_eq_none_iff] at hl
      rw [hl] at hx'
      simp at hx'
    | some y => rw [hl] at hnone; simp at hnone
  · exact hsome

theorem balancingRow_snapshotRule {s : Store} (hu : TypeIdsUnique s) {types : List GroupType}
    (hsub : ∀ x ∈ types, x ∈ s.group_types) (hret : ∃ x ∈ types, x.name = "RETIRADA")
    (st : Store) (g : Group) (description : String) (branchId : Nat) (date : DateTime) :
    SnapshotRule s (balancingRow types st g description branchId date) := by
  unfold SnapshotRule signedAmount balancingRow
  simp only
  by_cases hpos : g.current_balance > 0
  · obtain ⟨x, hx, hn, hm⟩ := typeMap_some_of_mem hret
    rw [if_pos hpos, hm, typeName_of_mem hu (hsub x hx), hn]
    simp only [↓reduceIte]
    rw [abs_of_pos hpos]
    omega
  · rw [if_neg hpos]
    have hne : typeName s (typeMap types "DEPOSITO") ≠ some "RETIRADA" := by
      rcases typeMap_cases types "DEPOSITO" with hnone | ⟨x, hx, hn, hm⟩
      · rw [hnone]; simp [typeName]
      · rw [hm, typeName_of_mem hu (hsub x hx), hn]; decide
    rw [if_neg hne, abs_of_nonpos (by omega)]
    omega

theorem zeroGroup_transactions (types : List GroupType) (description : String) (branchId : Nat)
    (date : DateTime) (st : Store) (g : Group) :
    (zeroGroup types description branchId date st g).transactions =
      st.transactions ++
        (if g.current_balance = 0 then []
         else [balancingRow types st g description branchId date]) := by
  unfold zeroGroup
  split <;> simp

theorem foldl_zeroGroup_transactions (types : List GroupType) (description : String)
    (branchId : Nat) (date : DateTime) (P : Transaction → Prop) (gs : List Group)
    (hP : ∀ st g, g ∈ gs → g.current_balance ≠ 0 →
      P (balancingRow types st g description branchId date)) (st : Store) :
    ∃ extra, (gs.foldl (zeroGroup types description branchId date) st).transactions
        = st.transactions ++ extra ∧ ∀ t ∈ extra, P t := by
  induction gs generalizing st with
  | nil => exact ⟨[], by simp, by simp⟩
  | cons g gs ih =>
    obtain ⟨extra, he, hall⟩ := ih (fun st' g' hg' => hP st' g' (List.mem_cons_of_mem _ hg'))
      (zeroGroup types description branchId date st g)
    rw [List.foldl_cons, he, zeroGroup_transactions]
    by_cases h0 : g.current_balance = 0
    · exact ⟨extra, by simp [h0], hall⟩
    · refine ⟨balancingRow types st g description branchId date :: extra, by simp [h0], ?_⟩
      intro t ht
      rcases List.mem_cons.mp ht with rfl | ht'
      · exact hP st g (List.mem_cons_self _ _) h0
      · exact hall t ht'

theorem settle_transactions (s : Store) (user : User) (body : PostBody) (now : DateTime)
    (fault : Option PostStep) (gtid : Nat) (tg : Option Nat) (p : Int) :
    (settle s user body now fault gtid tg (JsNum.ofCents p)).2.transactions = s.transactions ∨
    ∃ m sc, body.amount.parsed = .fin m sc ∧
      (settle s user body now fault gtid tg (JsNum.ofCents p)).2.transactions =
        s.transactions ++ [postedRow s user body now gtid tg (roundDiv (m * 100) (10 ^ sc)) p
          (p + (if body.type = "RETIRADA" then -(roundDiv (m * 100) (10 ^ sc))
                else roundDiv (m * 100) (10 ^ sc)))] := by
  unfold settle
  cases hp : body.amount.parsed with
  | nan => left; simp [JsNum.isNaN]
  | posInf =>
    left
    simp only [JsNum.isNaN, JsNum.toFixed2, newBalance, JsNum.sub, JsNum.neg, JsNum.ofCents,
      JsNum.add]
    split_ifs <;> simp_all [JsNum.toFixed2, JsNum.ltZero, JsNum.toCents]
  | negInf =>
    left
    simp only [JsNum.isNaN, JsNum.toFixed2, newBalance, JsNum.sub, JsNum.neg, JsNum.ofCents,
      JsNum.add]
    split_ifs <;> simp_all [JsNum.toFixed2, JsNum.ltZero, JsNum.toCents]
  | fin m sc =>
    simp only [JsNum.isNaN, JsNum.toFixed2, newBalance_fin, toCents_fin_two, toCents_ofCents]
    simp only [JsNum.ofCents, JsNum.ltZero]
    by_cases h1 : decide (p + (if body.type = "RETIRADA" then -(roundDiv (m * 100) (10 ^ sc))
                else roundDiv (m * 100) (10 ^ sc)) < 0) = true
    · left; simp [h1]
    · by_cases h2 : fault = some PostStep.insertTransaction
      · left; simp [h1, h2]
      · right
        refine ⟨m, sc, rfl, ?_⟩
        by_cases h3 : fault = some PostStep.updateBalance
        · simp [h1, h3]
        · simp [h1, h2, h3]

theorem postTransactions_transactions (s : Store) (user : User) (body : PostBody)
    (now : DateTime) (fault : Option PostStep) :
    (postTransactions s user body now fault).2.transactions = s.transactions ∨
    ∃ gt m sc tg p, groupTypeOf s body.type = some gt ∧ body.amount.parsed = .fin m sc ∧
      (postTransactions s user body now fault).2.transactions =
        s.transactions ++ [postedRow s user body now gt.id tg (roundDiv (m * 100) (10 ^ sc)) p
          (p + (if body.type = "RETIRADA" then -(roundDiv (m * 100) (10 ^ sc))
                else roundDiv (m * 100) (10 ^ sc)))] := by
  unfold postTransactions
  split
  · left; rfl
  split
  · left; rfl
  split
  · left; rfl
  rename_i cg rest hcg
  split
  · left; rfl
  rename_i h3
  split
  · left; rfl
  split
  · left; rfl
  rename_i gt rest2 hgt
  split
  · left; rfl
  · rename_i tg prev htp
    obtain ⟨p, hp, -⟩ := targetAndPrevious_ok (by simpa using h3) htp
    subst hp
    rcases settle_transactions s user body now fault gt.id tg p with h | ⟨m, sc, hm, h⟩
    · left; exact h
    · right
      exact ⟨gt, m, sc, tg, p, by unfold groupTypeOf; rw [hgt]; rfl, hm, h⟩

theorem writtenEntries_append {s s1 : Store} {extra : List Transaction}
    (h : s1.transactions = s.transactions ++ extra) : writtenEntries s s1 = extra := by
  unfold writtenEntries
  rw [h]
  simp

theorem archiveBranch_transactions (types : List GroupType) (year month : Nat)
    (date : DateTime) (P : Transaction → Prop) (st : Store) (branch : Branch)
    (hP : ∀ st' g, g ∈ (st.congregation_groups.filter fun g => g.branch_id = branch.id) →
      g.current_balance ≠ 0 →
      P (balancingRow types st' g "Ajuste mensal - Zeramento" branch.id date)) :
    ∃ extra, (archiveBranch types year month date st branch).transactions
        = st.transactions ++ extra ∧ ∀ t ∈ extra, P t := by
  unfold archiveBranch
  exact foldl_zeroGroup_transactions types _ branch.id date P _ hP _

theorem foldl_archiveBranch_transactions (types : List GroupType) (year month : Nat)
    (date : DateTime) (P : Transaction → Prop)
    (hP : ∀ st' g b, g.current_balance ≠ 0 →
      P (balancingRow types st' g "Ajuste mensal - Zeramento" b date))
    (bs : List Branch) (st : Store) :
    ∃ extra, (bs.foldl (archiveBranch types year month date) st).transactions
        = st.transactions ++ extra ∧ ∀ t ∈ extra, P t := by
  induction bs generalizing st with
  | nil => exact ⟨[], by simp, by simp⟩
  | cons b bs ih =>
    obtain ⟨e1, h1, hall1⟩ := archiveBranch_transactions types year month date P st b
      (fun st' g _ hne => hP st' g b.id hne)
    obtain ⟨e2, h2, hall2⟩ := ih (archiveBranch types year month date st b)
    refine ⟨e1 ++ e2, ?_, ?_⟩
    · rw [List.foldl_cons, h2, h1, List.append_assoc]
    · intro t ht
      rcases List.mem_append.mp ht with h | h
      · exact hall1 t h
      · exact hall2 t h

theorem resetLoop_eq_foldl (types : List GroupType) (branchId : Nat) (date : DateTime)
    (gs : List Group) (st : Store) :
    resetLoop types branchId date gs st =
      .ok (gs.foldl (zeroGroup types "Zeramento administrativo" branchId date) st) := by
  induction gs generalizing st with
  | nil => rfl
  | cons g gs ih =>
    unfold resetLoop
    by_cases h0 : g.current_balance = 0
    · rw [if_pos h0, ih, List.foldl_cons]
      have : zeroGroup types "Zeramento administrativo" branchId date st g = st := by
        unfold zeroGroup; rw [if_pos h0]
      rw [this]
    · have hpos : ¬ (|g.current_balance| ≤ 0) := by
        have := abs_pos.mpr h0
        omega
      rw [if_neg h0, if_neg hpos, ih, List.foldl_cons]

/-- C3. Every entry written by Post Entry (of any type, whatever the outcome of
the call), and, when the withdrawal type `RETIRADA` is registered, every
balancing entry written by the monthly archive or by the branch reset,
satisfies the snapshot rule at the moment it is written: `new_balance` is
`previous_balance - amount` when its type is withdrawal and
`previous_balance + amount` for every other type. The type of an entry is read
through `group_types`, whose identities are unique. -/
theorem written_entries_follow_snapshot_rule (s : Store) (hu : TypeIdsUnique s) :
    (∀ user body now fault,
      ∀ t ∈ writtenEntries s (postTransactions s user body now fault).2, SnapshotRule s t) ∧
    ((∃ x ∈ s.group_types, x.name = "RETIRADA") →
      (∀ user now fault,
        ∀ t ∈ writtenEntries s (monthlyArchive s user now fault).2, SnapshotRule s t) ∧
      (∀ user branchId now fault,
        ∀ t ∈ writtenEntries s (resetAllGroups s user branchId now fault).2,
          SnapshotRule s t)) := by
  have hnil : ∀ t ∈ writtenEntries s s, SnapshotRule s t := by
    intro t ht
    simp [writtenEntries] at ht
  refine ⟨?_, fun hret => ⟨?_, ?_⟩⟩
  · intro user body now fault t ht
    rcases postTransactions_transactions s user body now fault with h | ⟨gt, m, sc, tg, p, hgt, -, h⟩
    · have : writtenEntries s (postTransactions s user body now fault).2 = [] :=
        writtenEntries_append (by rw [h]; simp)
      rw [this] at ht
      simp at ht
    · rw [writtenEntries_append h] at ht
      simp only [List.mem_singleton] at ht
      subst ht
      have hgt' := groupTypeOf_some hgt
      unfold SnapshotRule signedAmount postedRow
      simp only
      rw [typeName_of_mem hu hgt'.1, hgt'.2]
      simp only [Option.some.injEq]
  · intro user now fault t ht
    obtain ⟨x, hx, hn⟩ := hret
    have hall : ∀ t ∈ writtenEntries s (archiveAll s now), SnapshotRule s t := by
      obtain ⟨extra, he, hP⟩ := foldl_archiveBranch_transactions
        (s.group_types.filter fun t => t.name ∈ ["DIZIMO", "OFERTA", "DEPOSITO", "RETIRADA"])
        (referencePeriod now).1 (referencePeriod now).2 now (SnapshotRule s)
        (fun st' g b _ => balancingRow_snapshotRule hu
          (fun y hy => (List.mem_filter.mp hy).1)
          ⟨x, List.mem_filter.mpr ⟨hx, by rw [hn]; decide⟩, hn⟩ st' g _ b now)
        (s.branches.filter fun b => b.is_admin = false) s
      have he' : (archiveAll s now).transactions = s.transactions ++ extra := he
      rw [writtenEntries_append he']
      exact hP
    unfold monthlyArchive at ht
    split at ht
    · exact hnil t ht
    · split at ht
      · split at ht
        · exact hnil t ht
        · exact hall t ht
      · exact hall t ht
  · intro user branchId now fault t ht
    obtain ⟨x, hx, hn⟩ := hret
    have hall : ∀ t ∈ writtenEntries s
        ((s.congregation_groups.filter fun g => g.branch_id = branchId).foldl
          (zeroGroup (s.group_types.filter fun t => t.name ∈ ["RETIRADA", "DEPOSITO"])
            "Zeramento administrativo" branchId now) s), SnapshotRule s t := by
      obtain ⟨extra, he, hP⟩ := foldl_zeroGroup_transactions
        (s.group_types.filter fun t => t.name ∈ ["RETIRADA", "DEPOSITO"])
        "Zeramento administrativo" branchId now (SnapshotRule s)
        (s.congregation_groups.filter fun g => g.branch_id = branchId)
        (fun st' g _ _ => balancingRow_snapshotRule hu
          (fun y hy => (List.mem_filter.mp hy).1)
          ⟨x, List.mem_filter.mpr ⟨hx, by rw [hn]; decide⟩, hn⟩ st' g _ branchId now) s
      rw [writtenEntries_append he]
      exact hP
    unfold resetAllGroups at ht
    simp only [resetLoop_eq_foldl] at ht
    split at ht
    · exact hnil t ht
    · split at ht
      · split at ht
        · exact hnil t ht
        · exact hall t ht
      · exact hall t ht

/-- C2, counterexample. From the fresh example store: a deposit of 100.00 on the
fund `Jovens`, a reset of its branch, then an update of the deposit to 150.00.
The fund's cached balance is 50.00 although no entry was posted against it
since its reset. -/
theorem update_after_reset_breaks_balance :
    freshStore.Fresh ∧
    balanceOf ((Audited.fresh freshStore).steps driftingRun).store 2 = some 5000 ∧
    ((Audited.fresh freshStore).steps driftingRun).entriesSince 2 = [] ∧
    ¬ ((Audited.fresh freshStore).steps driftingRun).BalancesMatch := by
  decide

theorem zeroed_nil (gs : List Group) : zeroed [] gs = gs := by
  unfold zeroed
  simp

theorem zeroed_zeroed (Z1 Z2 : List Nat) (gs : List Group) :
    zeroed Z2 (zeroed Z1 gs) = zeroed (Z1 ++ Z2) gs := by
  unfold zeroed
  rw [List.map_map]
  apply List.map_congr_left
  intro g _
  simp only [Function.comp_apply, List.mem_append]
  by_cases h1 : g.id ∈ Z1 <;> by_cases h2 : g.id ∈ Z2 <;> simp [h1, h2]

theorem setBalance_zero (gs : List Group) (i : Nat) : setBalance gs (some i) 0 = zeroed [i] gs := by
  unfold setBalance zeroed
  apply List.map_congr_left
  intro g _
  simp

theorem zeroGroup_fields (types : List GroupType) (description : String) (branchId : Nat)
    (date : DateTime) (st : Store) (g : Group) :
    (zeroGroup types description branchId date st g).group_types = st.group_types ∧
    (zeroGroup types description branchId date st g).branches = st.branches ∧
    (zeroGroup types description branchId date st g).congregation_groups =
      zeroed (if g.current_balance = 0 then [] else [g.id]) st.congregation_groups := by
  unfold zeroGroup
  split
  · simp [zeroed_nil]
  · simp [setBalance_zero]

theorem foldl_zeroGroup_fields (types : List GroupType) (description : String) (branchId : Nat)
    (date : DateTime) (gs : List Group) (st : Store) :
    (gs.foldl (zeroGroup types description branchId date) st).group_types = st.group_types ∧
    (gs.foldl (zeroGroup types description branchId date) st).branches = st.branches ∧
    (gs.foldl (zeroGroup types description branchId date) st).congregation_groups =
      zeroed ((gs.filter fun g => g.current_balance ≠ 0).map fun g => g.id)
        st.congregation_groups := by
  induction gs generalizing st with
  | nil => simp [zeroed_nil]
  | cons g gs ih =>
    obtain ⟨h1, h2, h3⟩ := ih (zeroGroup types description branchId date st g)
    obtain ⟨k1, k2, k3⟩ := zeroGroup_fields types description branchId date st g
    rw [List.foldl_cons]
    refine ⟨h1.trans k1, h2.trans k2, ?_⟩
    rw [h3, k3, zeroed_zeroed]
    by_cases h0 : g.current_balance = 0
    · simp [h0, List.filter_cons]
    · simp [h0, List.filter_cons]

theorem mem_zeroed {Z : List Nat} {gs : List Group} {g : Group} (h : g ∈ zeroed Z gs) :
    ∃ g0 ∈ gs, g.id = g0.id ∧ g.branch_id = g0.branch_id ∧
      g.current_balance = if g0.id ∈ Z then 0 else g0.current_balance := by
  unfold zeroed at h
  obtain ⟨g0, hg0, rfl⟩ := List.mem_map.mp h
  refine ⟨g0, hg0, ?_⟩
  by_cases hz : g0.id ∈ Z <;> simp [hz]

theorem zeroRun_refl (s0 : Store) : ZeroRun s0 [] s0 :=
  { group_types := rfl
    branches := rfl
    appended := ⟨[], by simp, by simp⟩
    groups := ⟨[], (zeroed_nil _).symm, by simp, by simp⟩ }

theorem zeroRun_step {s0 st st9 : Store} {done : List Nat} (h : ZeroRun s0 done st)
    (h9t : st9.transactions = st.transactions)
    (h9g : st9.congregation_groups = st.congregation_groups)
    (h9y : st9.group_types = st.group_types) (h9b : st9.branches = st.branches)
    (types : List GroupType) (description : String) (date : DateTime) (b : Nat) :
    ZeroRun s0 (done ++ [b])
      ((st.congregation_groups.filter fun g => g.branch_id = b).foldl
        (zeroGroup types description b date) st9) := by
  obtain ⟨f1, f2, f3⟩ := foldl_zeroGroup_fields types description b date
    (st.congregation_groups.filter fun g => g.branch_id = b) st9
  obtain ⟨Z, hZ, hZmem, hcover⟩ := h.groups
  obtain ⟨extra, hex, hexmem⟩ := h.appended
  have hfrom : ∀ g ∈ (st.congregation_groups.filter fun g => g.branch_id = b),
      ∃ g0 ∈ s0.congregation_groups, g0.branch_id = b ∧ g0.id = g.id ∧
        g.current_balance = if g0.id ∈ Z then 0 else g0.current_balance := by
    intro g hg
    obtain ⟨hg1, hg2⟩ := List.mem_filter.mp hg
    rw [hZ] at hg1
    obtain ⟨g0, hg0, e1, e2, e3⟩ := mem_zeroed hg1
    exact ⟨g0, hg0, by rw [← e2]; simpa using hg2, e1.symm, e3⟩
  refine
    { group_types := (f1.trans h9y).trans h.group_types
      branches := (f2.trans h9b).trans h.branches
      appended := ?_
      groups := ?_ }
  · obtain ⟨e2, he2, hmem2⟩ := foldl_zeroGroup_transactions types description b date
      (fun t => ∃ g ∈ (st.congregation_groups.filter fun g => g.branch_id = b),
        t.group_id = some g.id)
      (st.congregation_groups.filter fun g => g.branch_id = b)
      (fun st' g hg _ => ⟨g, hg, rfl⟩) st9
    refine ⟨extra ++ e2, by rw [he2, h9t, hex, List.append_assoc], ?_⟩
    intro t ht
    rcases List.mem_append.mp ht with ht | ht
    · obtain ⟨g, hg, hd, hid⟩ := hexmem t ht
      exact ⟨g, hg, List.mem_append_left _ hd, hid⟩
    · obtain ⟨g, hg, hid⟩ := hmem2 t ht
      obtain ⟨g0, hg0, hb, hid0, -⟩ := hfrom g hg
      exact ⟨g0, hg0, by simp [hb], by rw [hid, hid0]⟩
  · refine ⟨Z ++ ((st.congregation_groups.filter fun g => g.branch_id = b).filter
        fun g => g.current_balance ≠ 0).map (fun g => g.id), ?_, ?_, ?_⟩
    · rw [f3, h9g, hZ, zeroed_zeroed]
    · intro z hz
      rcases List.mem_append.mp hz with hz | hz
      · obtain ⟨g, hg, hd, hid⟩ := hZmem z hz
        exact ⟨g, hg, List.mem_append_left _ hd, hid⟩
      · obtain ⟨g, hg, rfl⟩ := List.mem_map.mp hz
        obtain ⟨g0, hg0, hb, hid0, -⟩ := hfrom g (List.mem_filter.mp hg).1
        exact ⟨g0, hg0, by simp [hb], hid0⟩
    · intro g0 hg0 hd
      rcases List.mem_append.mp hd with hd | hd
      · rcases hcover g0 hg0 hd with hz | h0
        · exact Or.inl (List.mem_append_left _ hz)
        · exact Or.inr h0
      · have hb : g0.branch_id = b := by simpa using hd
        by_cases hz : g0.id ∈ Z
        · exact Or.inl (List.mem_append_left _ hz)
        · by_cases h0 : g0.current_balance = 0
          · exact Or.inr h0
          · left
            apply List.mem_append_right
            have hin : (if g0.id ∈ Z then { g0 with current_balance := 0 } else g0)
                ∈ st.congregation_groups := by
              rw [hZ]
              unfold zeroed
              exact List.mem_map.mpr ⟨g0, hg0, rfl⟩
            rw [if_neg hz] at hin
            exact List.mem_map.mpr ⟨g0, List.mem_filter.mpr
              ⟨List.mem_filter.mpr ⟨hin, by simpa using hb⟩, by simpa using h0⟩, rfl⟩

theorem zeroRun_archiveBranch {s0 st : Store} {done : List Nat} (h : ZeroRun s0 done st)
    (types : List GroupType) (year month : Nat) (date : DateTime) (branch : Branch) :
    ZeroRun s0 (done ++ [branch.id]) (archiveBranch types year month date st branch) := by
  unfold archiveBranch
  dsimp only
  refine zeroRun_step h ?_ ?_ ?_ ?_ types _ date branch.id <;> rfl

theorem zeroRun_foldl_archiveBranch {s0 : Store} (types : List GroupType) (year month : Nat)
    (date : DateTime) (bs : List Branch) {st : Store} {done : List Nat}
    (h : ZeroRun s0 done st) :
    ZeroRun s0 (done ++ bs.map fun b => b.id)
      (bs.foldl (archiveBranch types year month date) st) := by
  induction bs generalizing st done with
  | nil => simpa using h
  | cons b bs ih =>
    have := ih (zeroRun_archiveBranch h types year month date b)
    simpa [List.append_assoc] using this

theorem zeroRun_archiveAll (s : Store) (now : DateTime) :
    ZeroRun s ((s.branches.filter fun b => b.is_admin = false).map fun b => b.id)
      (archiveAll s now) := by
  have := zeroRun_foldl_archiveBranch
    (s.group_types.filter fun t => t.name ∈ ["DIZIMO", "OFERTA", "DEPOSITO", "RETIRADA"])
    (referencePeriod now).1 (referencePeriod now).2 now
    (s.branches.filter fun b => b.is_admin = false) (zeroRun_refl s)
  unfold archiveAll
  simpa using this

theorem zeroRun_reset (s : Store) (types : List GroupType) (branchId : Nat) (now : DateTime) :
    ZeroRun s [branchId]
      ((s.congregation_groups.filter fun g => g.branch_id = branchId).foldl
        (zeroGroup types "Zeramento administrativo" branchId now) s) := by
  have := zeroRun_step (zeroRun_refl s) rfl rfl rfl rfl types "Zeramento administrativo" now
    branchId
  simpa using this

theorem signedAmount_congr {s s1 : Store} (h : s1.group_types = s.group_types)
    (t : Transaction) : signedAmount s1 t = signedAmount s t := by
  unfold signedAmount typeName
  rw [h]

theorem settle_cases (s : Store) (user : User) (body : PostBody) (now : DateTime)
    (fault : Option PostStep) (gtid : Nat) (tg : Option Nat) (prev : JsNum) :
    (settle s user body now fault gtid tg prev).2 = s ∨
    (∃ tid nb pb ty tgt,
      (settle s user body now fault gtid tg prev).1 = .created tid nb pb ty tgt) ∨
    fault = some .updateBalance := by
  by_cases hf : fault = some .updateBalance
  · right; right; exact hf
  · unfold settle
    dsimp only
    split_ifs
    · left; rfl
    · left; rfl
    · left; rfl
    · split
      · right; left; exact ⟨_, _, _, _, _, rfl⟩
      · left; rfl

theorem postTransactions_cases (s : Store) (user : User) (body : PostBody) (now : DateTime)
    (fault : Option PostStep) :
    (postTransactions s user body now fault).2 = s ∨
    (∃ tid nb pb ty tgt,
      (postTransactions s user body now fault).1 = .created tid nb pb ty tgt) ∨
    fault = some .updateBalance := by
  unfold postTransactions
  split
  · left; rfl
  split
  · left; rfl
  split
  · left; rfl
  split
  · left; rfl
  split
  · left; rfl
  split
  · left; rfl
  split
  · left; rfl
  · exact settle_cases _ _ _ _ _ _ _ _

theorem resetIds_post (s : Store) (user : User) (body : PostBody) (now : DateTime)
    (fault : Option PostStep) : Op.resetIds s (.post user body now fault) = [] := by
  unfold Op.resetIds
  split <;> simp_all

theorem sum_since_append (s : Store) (txs : List Transaction) (row : Transaction) (k id : Nat)
    (hk : k ≤ txs.length) :
    ((((txs ++ [row]).drop k).filter fun t => t.group_id = some id).map (signedAmount s)).sum =
      (((txs.drop k).filter fun t => t.group_id = some id).map (signedAmount s)).sum +
        (if row.group_id = some id then signedAmount s row else 0) := by
  rw [List.drop_append_of_le_length hk, List.filter_append, List.map_append, List.sum_append]
  by_cases h : row.group_id = some id
  · simp [List.filter_cons, h]
  · simp [List.filter_cons, h]

theorem entryIdsOk_append {s s1 : Store} {row : Transaction} (h : EntryIdsOk s)
    (hrow : row.id = s.next_transaction_id)
    (htx : s1.transactions = s.transactions ++ [row])
    (hnext : s1.next_transaction_id = s.next_transaction_id + 1) : EntryIdsOk s1 := by
  obtain ⟨hlt, hnd⟩ := h
  constructor
  · intro t ht
    rw [htx] at ht
    rw [hnext]
    rcases List.mem_append.mp ht with h1 | h1
    · have := hlt t h1
      omega
    · simp only [List.mem_singleton] at h1
      rw [h1, hrow]
      omega
  · rw [htx, List.map_append, List.nodup_append]
    refine ⟨hnd, by simp, ?_⟩
    intro i hi hi'
    simp only [List.map_cons, List.map_nil, List.mem_singleton] at hi'
    obtain ⟨t, ht, rfl⟩ := List.mem_map.mp hi
    have := hlt t ht
    rw [hi', hrow] at this
    omega

theorem balances_after_entry {a : Audited} (hbal : a.BalancesMatch)
    (hmark : ∀ id, a.resetAt id ≤ a.store.transactions.length) {s1 : Store}
    {row : Transaction} {g : Group} {nb : Int} (hg : g ∈ a.store.congregation_groups)
    (htypes : s1.group_types = a.store.group_types)
    (htx : s1.transactions = a.store.transactions ++ [row])
    (hgroups : s1.congregation_groups = setBalance a.store.congregation_groups (some g.id) nb)
    (hrow : row.group_id = some g.id)
    (hnb : nb = g.current_balance + signedAmount a.store row) :
    Audited.BalancesMatch { store := s1, resetAt := a.resetAt } := by
  intro g1 hg1
  simp only [hgroups, setBalance] at hg1
  obtain ⟨g0, hg0, rfl⟩ := List.mem_map.mp hg1
  have hsa : signedAmount s1 = signedAmount a.store := funext (signedAmount_congr htypes)
  unfold Audited.entriesSince
  simp only
  rw [htx, hsa]
  by_cases hid : g0.id = g.id
  · have h1 := sum_since_append a.store a.store.transactions row (a.resetAt g.id) g.id (hmark _)
    rw [if_pos hrow] at h1
    have hold := hbal g hg
    unfold Audited.entriesSince at hold
    simp only [hid, ↓reduceIte]
    rw [h1, ← hold, hnb]
  · have h1 := sum_since_append a.store a.store.transactions row (a.resetAt g0.id) g0.id
      (hmark _)
    have hrow' : ¬ (row.group_id = some g0.id) := by
      rw [hrow]
      simpa using fun e : g.id = g0.id => hid e.symm
    rw [if_neg hrow', add_zero] at h1
    have hold := hbal g0 hg0
    unfold Audited.entriesSince at hold
    have hne : ¬ (some g0.id = some g.id) := by simpa using hid
    simp only [hne, ↓reduceIte]
    rw [h1, ← hold]

theorem good_post (a : Audited) (hg : a.Good) (user : User) (body : PostBody) (now : DateTime)
    (fault : Option PostStep) (hty : body.type ≠ "OUTROS")
    (hfault : fault ≠ some .updateBalance) :
    (a.step (.post user body now fault)).Good := by
  obtain ⟨hbal, hmark, hu, hids⟩ := hg
  have hstep : a.step (.post user body now fault) =
      { store := (postTransactions a.store user body now fault).2, resetAt := a.resetAt } := by
    unfold Audited.step
    simp only [Op.run, resetIds_post, List.not_mem_nil, ↓reduceIte]
  rw [hstep]
  rcases postTransactions_cases a.store user body now fault with h | ⟨tid, nb, pb, ty, tgt, h⟩ | h
  · rw [h]
    exact ⟨hbal, hmark, hu, hids⟩
  · have hfull : postTransactions a.store user body now fault
        = (.created tid nb pb ty tgt, (postTransactions a.store user body now fault).2) := by
      rw [← h]
    obtain ⟨cg, gt, m, sc, hcg, hgt, -, hres, hnb, -, -, -, hs1⟩ := postTransactions_created hfull
    have hgt' := groupTypeOf_some hgt
    obtain ⟨g, hgmem, htgt, hpb⟩ : ∃ g ∈ a.store.congregation_groups,
        tgt = some g.id ∧ pb = g.current_balance := by
      rcases hres with h1 | h2 | h3
      · exact ⟨cg, (caixaGeralOf_some hcg).1, h1.2.1, h1.2.2⟩
      · obtain ⟨-, -, g, hg, -, e1, e2⟩ := h2
        have := groupById_some hg
        exact ⟨g, this.1, by rw [e1, this.2], e2⟩
      · exact absurd h3.1 hty
    subst htgt
    have hsigned : signedAmount a.store
        (postedRow a.store user body now gt.id (some g.id) (roundDiv (m * 100) (10 ^ sc)) pb nb)
        = (if body.type = "RETIRADA" then -(roundDiv (m * 100) (10 ^ sc))
            else roundDiv (m * 100) (10 ^ sc)) := by
      unfold signedAmount postedRow
      simp only
      rw [typeName_of_mem hu hgt'.1, hgt'.2]
      simp only [Option.some.injEq]
    refine ⟨?_, ?_, ?_, ?_⟩
    · exact balances_after_entry hbal hmark hgmem (by rw [hs1]) (by rw [hs1]) (by rw [hs1]) rfl
        (by rw [hsigned, hnb, hpb])
    · intro id
      have := hmark id
      simp only [hs1, List.length_append, List.length_singleton]
      omega
    · unfold TypeIdsUnique
      rw [hs1]
      exact hu
    · rw [hs1]
      exact entryIdsOk_append hids rfl rfl rfl
  · exact absurd h hfault

theorem balance_eq_of_id_eq {a : Audited} (hbal : a.BalancesMatch) {g h : Group}
    (hg : g ∈ a.store.congregation_groups) (hh : h ∈ a.store.congregation_groups)
    (hid : g.id = h.id) : g.current_balance = h.current_balance := by
  rw [hbal g hg, hbal h hh, hid]

theorem entryIdsOk_zeroGroup (types : List GroupType) (description : String) (branchId : Nat)
    (date : DateTime) (st : Store) (g : Group) (h : EntryIdsOk st) :
    EntryIdsOk (zeroGroup types description branchId date st g) := by
  unfold zeroGroup
  split
  · exact h
  · exact @entryIdsOk_append st _ (balancingRow types st g description branchId date) h
      rfl rfl rfl

theorem entryIdsOk_foldl_zeroGroup (types : List GroupType) (description : String)
    (branchId : Nat) (date : DateTime) (gs : List Group) (st : Store) (h : EntryIdsOk st) :
    EntryIdsOk (gs.foldl (zeroGroup types description branchId date) st) := by
  induction gs generalizing st with
  | nil => exact h
  | cons g gs ih =>
    rw [List.foldl_cons]
    exact ih _ (entryIdsOk_zeroGroup types description branchId date st g h)

theorem entryIdsOk_archiveBranch (types : List GroupType) (year month : Nat) (date : DateTime)
    (st : Store) (branch : Branch) (h : EntryIdsOk st) :
    EntryIdsOk (archiveBranch types year month date st branch) := by
  unfold archiveBranch
  dsimp only
  exact entryIdsOk_foldl_zeroGroup types _ branch.id date _ _ h

theorem entryIdsOk_foldl_archiveBranch (types : List GroupType) (year month : Nat)
    (date : DateTime) (bs : List Branch) (st : Store) (h : EntryIdsOk st) :
    EntryIdsOk (bs.foldl (archiveBranch types year month date) st) := by
  induction bs generalizing st with
  | nil => exact h
  | cons b bs ih =>
    rw [List.foldl_cons]
    exact ih _ (entryIdsOk_archiveBranch types year month date st b h)

theorem entryIdsOk_archiveAll (s : Store) (now : DateTime) (h : EntryIdsOk s) :
    EntryIdsOk (archiveAll s now) := by
  unfold archiveAll
  exact entryIdsOk_foldl_archiveBranch _ _ _ now _ s h

theorem good_zeroRun (a : Audited) (hg : a.Good) {done : List Nat} {s1 : Store}
    (hz : ZeroRun a.store done s1) (hids1 : EntryIdsOk s1) :
    Audited.Good
      { store := s1
        resetAt := fun id =>
          if id ∈ (a.store.congregation_groups.filter fun g => g.branch_id ∈ done).map
              (fun g => g.id)
          then s1.transactions.length else a.resetAt id } := by
  obtain ⟨hbal, hmark, hu, -⟩ := hg
  obtain ⟨extra, hex, hexmem⟩ := hz.appended
  obtain ⟨Z, hZ, hZmem, hcover⟩ := hz.groups
  have hsa : signedAmount s1 = signedAmount a.store := funext (signedAmount_congr hz.group_types)
  have hM : ∀ id, id ∈ (a.store.congregation_groups.filter fun g => g.branch_id ∈ done).map
      (fun g => g.id) ↔ ∃ g ∈ a.store.congregation_groups, g.branch_id ∈ done ∧ g.id = id := by
    intro id
    simp only [List.mem_map, List.mem_filter, decide_eq_true_eq]
    constructor
    · rintro ⟨g, ⟨h1, h2⟩, h3⟩; exact ⟨g, h1, h2, h3⟩
    · rintro ⟨g, h1, h2, h3⟩; exact ⟨g, ⟨h1, h2⟩, h3⟩
  refine ⟨?_, ?_, ?_, hids1⟩
  · intro g1 hg1
    simp only at hg1
    rw [hZ] at hg1
    obtain ⟨g0, hg0, e1, -, e3⟩ := mem_zeroed hg1
    unfold Audited.entriesSince
    simp only
    rw [hsa, e1]
    by_cases hin : g0.id ∈ (a.store.congregation_groups.filter fun g => g.branch_id ∈ done).map
        (fun g => g.id)
    · rw [if_pos hin, List.drop_eq_nil_of_le (le_refl _)]
      simp only [List.filter_nil, List.map_nil, List.sum_nil]
      rw [e3]
      by_cases hz0 : g0.id ∈ Z
      · rw [if_pos hz0]
      · rw [if_neg hz0]
        obtain ⟨h, hh, hd, hid⟩ := (hM g0.id).mp hin
        rcases hcover h hh hd with hzh | h0
        · rw [hid] at hzh; exact absurd hzh hz0
        · rw [balance_eq_of_id_eq hbal hg0 hh hid.symm, h0]
    · rw [if_neg hin]
      have hz0 : g0.id ∉ Z := by
        intro hz0
        obtain ⟨h, hh, hd, hid⟩ := hZmem _ hz0
        exact hin ((hM g0.id).mpr ⟨h, hh, hd, hid⟩)
      rw [e3, if_neg hz0, hex, List.drop_append_of_le_length (hmark _), List.filter_append]
      have hnone : extra.filter (fun t => t.group_id = some g0.id) = [] := by
        rw [List.filter_eq_nil_iff]
        intro t ht
        obtain ⟨h, hh, hd, hid⟩ := hexmem t ht
        simp only [decide_eq_true_eq]
        intro e
        rw [hid] at e
        simp only [Option.some.injEq] at e
        exact hin ((hM g0.id).mpr ⟨h, hh, hd, e⟩)
      rw [hnone, List.append_nil]
      exact hbal g0 hg0
  · intro id
    simp only
    split
    · exact le_refl _
    · have := hmark id
      rw [hex, List.length_append]
      omega
  · unfold TypeIdsUnique
    simp only
    rw [hz.group_types]
    exact hu

theorem monthlyArchive_cases (s : Store) (user : User) (now : DateTime) (fault : Option Nat) :
    (∃ label, monthlyArchive s user now fault = (.archived label, archiveAll s now)) ∨
    ∃ status message, monthlyArchive s user now fault = (.error status message, s) := by
  unfold monthlyArchive
  split
  · exact Or.inr ⟨_, _, rfl⟩
  · split
    · split
      · exact Or.inr ⟨_, _, rfl⟩
      · exact Or.inl ⟨_, rfl⟩
    · exact Or.inl ⟨_, rfl⟩

theorem resetAllGroups_cases (s : Store) (user : User) (branchId : Nat) (now : DateTime)
    (fault : Option Nat) :
    resetAllGroups s user branchId now fault =
      (.success, (s.congregation_groups.filter fun g => g.branch_id = branchId).foldl
        (zeroGroup (s.group_types.filter fun t => t.name ∈ ["RETIRADA", "DEPOSITO"])
          "Zeramento administrativo" branchId now) s) ∨
    ∃ status message, resetAllGroups s user branchId now fault = (.error status message, s) := by
  unfold resetAllGroups
  simp only [resetLoop_eq_foldl]
  split
  · exact Or.inr ⟨_, _, rfl⟩
  · split
    · split
      · exact Or.inr ⟨_, _, rfl⟩
      · exact Or.inl rfl
    · exact Or.inl rfl


theorem putTransactions_twoDigits (s : Store) (id : Nat) (body : PutBody)
    (fault : Option PutStep) (c : Int) (hamount : body.amount.parsed = .fin c 2)
    (hf : fault ≠ some .updateBalance) :
    (putTransactions s id body fault).2 = s ∨
    ∃ t, transactionById s id = some t ∧
      (putTransactions s id body fault).2 =
        { s with
          transactions := setTransaction s.transactions id c body.description body.person_name
          congregation_groups := s.congregation_groups.map fun g =>
            if some g.id = t.group_id then
              { g with current_balance := g.current_balance + (c - t.amount) }
            else g } := by
  cases hfault : fault with
  | none =>
    cases ht : transactionById s id with
    | none =>
      left
      unfold transactionById at ht
      unfold putTransactions
      cases hl : s.transactions.filter (fun t => t.id = id) with
      | nil => simp
      | cons x xs => rw [hl] at ht; simp at ht
    | some t =>
      right
      exact ⟨t, rfl, by rw [putTransactions_cents s id body c t hamount ht]⟩
  | some k =>
    left
    cases k with
    | selectTransaction => simp [putTransactions]
    | updateTransaction =>
      unfold putTransactions
      simp only [reduceCtorEq, ↓reduceIte]
      split <;> first | rfl | (split <;> rfl)
    | updateBalance => exact absurd hfault hf

theorem sum_map_update (F : Transaction → Int) (f : Transaction → Transaction)
    (t : Transaction) (l : List Transaction) (hnd : (l.map fun e => e.id).Nodup)
    (hf : ∀ e, e.id ≠ t.id → f e = e) (huniq : ∀ e ∈ l, e.id = t.id → e = t) :
    (l.map fun e => F (f e)).sum = (l.map F).sum + (if t ∈ l then F (f t) - F t else 0) := by
  induction l with
  | nil => simp
  | cons x xs ih =>
    simp only [List.map_cons, List.nodup_cons, List.mem_map, not_exists, not_and] at hnd
    have ih' := ih hnd.2 (fun e he => huniq e (List.mem_cons_of_mem _ he))
    simp only [List.map_cons, List.sum_cons]
    by_cases hx : x.id = t.id
    · have hxt : x = t := huniq x (List.mem_cons_self _ _) hx
      subst hxt
      have hnot : x ∉ xs := fun hmem => hnd.1 x hmem rfl
      rw [if_neg hnot, add_zero] at ih'
      rw [ih', if_pos (List.mem_cons_self _ _)]
      ring
    · have hne : t ≠ x := fun e => hx (by rw [e])
      have hmem : t ∈ x :: xs ↔ t ∈ xs := by
        simp only [List.mem_cons, hne, false_or]
      rw [hf x hx, ih']
      by_cases ht : t ∈ xs
      · rw [if_pos ht, if_pos (hmem.mpr ht)]
        ring
      · rw [if_neg ht, if_neg (fun h => ht (hmem.mp h))]
        ring

theorem mem_of_transactionById {s : Store} {id : Nat} {t : Transaction}
    (h : transactionById s id = some t) : t ∈ s.transactions ∧ t.id = id := by
  have := head?_filter_some h
  simpa using this

theorem eq_of_id_eq {l : List Transaction} (hnd : (l.map fun e => e.id).Nodup)
    {t e : Transaction} (ht : t ∈ l) (he : e ∈ l) (hid : e.id = t.id) : e = t := by
  induction l with
  | nil => simp at ht
  | cons x xs ih =>
    simp only [List.map_cons, List.nodup_cons, List.mem_map, not_exists, not_and] at hnd
    rcases List.mem_cons.mp ht with rfl | ht' <;> rcases List.mem_cons.mp he with rfl | he'
    · rfl
    · exact absurd hid (hnd.1 e he')
    · exact absurd hid.symm (hnd.1 t ht')
    · exact ih hnd.2 ht' he'

theorem good_put (a : Audited) (hg : a.Good) (id : Nat) (body : PutBody)
    (fault : Option PutStep) (hk : a.Keeps (.put id body fault)) :
    (a.step (.put id body fault)).Good := by
  obtain ⟨hbal, hmark, hu, hids⟩ := hg
  obtain ⟨hfault, htwo, hentry⟩ := hk
  have hstep : a.step (.put id body fault) =
      { store := (putTransactions a.store id body fault).2, resetAt := a.resetAt } := by
    unfold Audited.step
    have : Op.resetIds a.store (.put id body fault) = [] := by
      unfold Op.resetIds
      split <;> simp_all
    simp only [Op.run, this, List.not_mem_nil, ↓reduceIte]
  rw [hstep]
  obtain ⟨c, hc⟩ : ∃ c, body.amount.parsed = .fin c 2 := by
    cases hp : body.amount.parsed with
    | fin m sc =>
      rw [hp] at htwo
      simp only [JsNum.TwoDigits] at htwo
      subst htwo
      exact ⟨m, rfl⟩
    | nan => rw [hp] at htwo; simp [JsNum.TwoDigits] at htwo
    | posInf => rw [hp] at htwo; simp [JsNum.TwoDigits] at htwo
    | negInf => rw [hp] at htwo; simp [JsNum.TwoDigits] at htwo
  rcases putTransactions_twoDigits a.store id body fault c hc hfault with h | ⟨t, ht, h⟩
  · rw [h]
    exact ⟨hbal, hmark, hu, hids⟩
  · rw [h]
    have hkeep := hentry t ht
    obtain ⟨htmem, htid⟩ := mem_of_transactionById ht
    -- the rewritten entry table
    have hf : ∀ e : Transaction, e.id ≠ t.id →
        (if e.id = id then
          { e with amount := c, description := body.description,
                   person_name := body.person_name } else e) = e := by
      intro e he
      rw [htid] at he
      rw [if_neg he]
    refine ⟨?_, ?_, ?_, ?_⟩
    · intro g1 hg1
      simp only at hg1
      obtain ⟨g0, hg0, rfl⟩ := List.mem_map.mp hg1
      unfold Audited.entriesSince
      simp only [setTransaction]
      have hsa : signedAmount
          { a.store with
            transactions := a.store.transactions.map fun e =>
              if e.id = id then
                { e with amount := c, description := body.description,
                         person_name := body.person_name } else e
            congregation_groups := a.store.congregation_groups.map fun g =>
              if some g.id = t.group_id then
                { g with current_balance := g.current_balance + (c - t.amount) }
              else g } = signedAmount a.store := funext (signedAmount_congr rfl)
      rw [hsa]
      have hgid : ∀ k : Nat,
          (if some g0.id = t.group_id then
            { g0 with current_balance := g0.current_balance + (c - t.amount) } else g0).id = k
          ↔ g0.id = k := by
        intro k
        split <;> rfl
      have hid1 : (if some g0.id = t.group_id then
            { g0 with current_balance := g0.current_balance + (c - t.amount) } else g0).id
          = g0.id := by
        split <;> rfl
      rw [hid1, ← List.map_drop, List.filter_map, List.map_map]
      have hcomp : ((fun t => decide (t.group_id = some g0.id)) ∘ fun e : Transaction =>
          if e.id = id then
            { e with amount := c, description := body.description,
                     person_name := body.person_name } else e)
          = fun t => decide (t.group_id = some g0.id) := by
        funext e
        simp only [Function.comp_apply]
        split <;> rfl
      rw [hcomp]
      have hsub : ((a.store.transactions.drop (a.resetAt g0.id)).filter
          fun t => decide (t.group_id = some g0.id)).Sublist a.store.transactions :=
        (List.filter_sublist _).trans (List.drop_sublist _ _)
      have hsum := sum_map_update (signedAmount a.store)
        (fun e => if e.id = id then
            { e with amount := c, description := body.description,
                     person_name := body.person_name } else e) t
        ((a.store.transactions.drop (a.resetAt g0.id)).filter
          fun t => decide (t.group_id = some g0.id))
        ((hsub.map _).nodup hids.2) hf
        (fun e he hid => eq_of_id_eq hids.2 htmem (hsub.subset he) hid)
      have hold := hbal g0 hg0
      unfold Audited.entriesSince at hold
      have hfun : (signedAmount a.store ∘ fun e : Transaction =>
          if e.id = id then
            { e with amount := c, description := body.description,
                     person_name := body.person_name } else e)
          = fun e => signedAmount a.store (if e.id = id then
            { e with amount := c, description := body.description,
                     person_name := body.person_name } else e) := rfl
      rw [hfun, hsum, ← hold]
      -- the signed amount of the rewritten entry
      have hft : signedAmount a.store (if t.id = id then
            { t with amount := c, description := body.description,
                     person_name := body.person_name } else t)
          = if typeName a.store t.group_type_id = some "RETIRADA" then -c else c := by
        rw [if_pos htid]
        rfl
      have hFt : signedAmount a.store t
          = if typeName a.store t.group_type_id = some "RETIRADA" then -t.amount
            else t.amount := rfl
      by_cases hgrp : some g0.id = t.group_id
      · rw [if_pos hgrp]
        simp only
        rcases hkeep with hsame | ⟨hnotw, hsince⟩
        · have hca : c = t.amount := by
            rw [hc] at hsame
            simp only [JsNum.ofCents, JsNum.fin.injEq, and_true] at hsame
            exact hsame
          rw [hft, hFt, hca]
          split <;> simp
        · have hin : t ∈ (a.store.transactions.drop (a.resetAt g0.id)).filter
              fun t => decide (t.group_id = some g0.id) := by
            refine List.mem_filter.mpr ⟨hsince g0.id hgrp.symm, ?_⟩
            simp only [decide_eq_true_eq]
            exact hgrp.symm
          rw [if_pos hin, hft, hFt, if_neg hnotw, if_neg hnotw]
      · rw [if_neg hgrp]
        have hin : t ∉ (a.store.transactions.drop (a.resetAt g0.id)).filter
              fun t => decide (t.group_id = some g0.id) := by
          intro hmem
          have := (List.mem_filter.mp hmem).2
          simp only [decide_eq_true_eq] at this
          exact hgrp this.symm
        rw [if_neg hin, add_zero]
    · intro k
      simp only [setTransaction, List.length_map]
      exact hmark k
    · exact hu
    · constructor
      · intro e he
        simp only [setTransaction] at he
        obtain ⟨e0, he0, rfl⟩ := List.mem_map.mp he
        have := hids.1 e0 he0
        split <;> exact this
      · simp only [setTransaction, List.map_map]
        have : ((fun t : Transaction => t.id) ∘ fun t : Transaction =>
            if t.id = id then
              { t with amount := c, description := body.description,
                       person_name := body.person_name } else t)
            = fun t => t.id := by
          funext e
          simp only [Function.comp_apply]
          split <;> rfl
        rw [this]
        exact hids.2

theorem good_step (a : Audited) (hg : a.Good) (op : Op) (hop : a.Keeps op) :
    (a.step op).Good := by
  cases op with
  | post user body now fault => exact good_post a hg user body now fault hop.1 hop.2
  | put id body fault => exact good_put a hg id body fault hop
  | archive user now fault =>
    unfold Audited.step Op.resetIds
    simp only [Op.run]
    rcases monthlyArchive_cases a.store user now fault with ⟨label, h⟩ | ⟨status, message, h⟩
    · rw [h]
      simp only
      have := good_zeroRun a hg (zeroRun_archiveAll a.store now)
        (entryIdsOk_archiveAll a.store now hg.2.2.2)
      simpa using this
    · rw [h]
      simpa using hg
  | reset user branchId now fault =>
    unfold Audited.step Op.resetIds
    simp only [Op.run]
    rcases resetAllGroups_cases a.store user branchId now fault with h | ⟨status, message, h⟩
    · rw [h]
      simp only
      have := good_zeroRun a hg
        (zeroRun_reset a.store (a.store.group_types.filter fun t => t.name ∈ ["RETIRADA", "DEPOSITO"])
          branchId now)
        (entryIdsOk_foldl_zeroGroup _ _ branchId now _ a.store hg.2.2.2)
      have key : (fun g : Group => decide (g.branch_id ∈ [branchId]))
          = fun g => decide (g.branch_id = branchId) := by
        funext g
        simp
      rw [key] at this
      simpa using this
    · rw [h]
      simpa using hg

theorem good_steps (ops : List Op) (a : Audited) (hg : a.Good) (hops : a.KeepsAll ops) :
    (a.steps ops).Good := by
  induction ops generalizing a with
  | nil => exact hg
  | cons op ops ih =>
    unfold Audited.steps
    rw [List.foldl_cons]
    exact ih (a.step op) (good_step a hg op hops.1) hops.2

theorem good_fresh (s : Store) (hfresh : s.Fresh) (hu : TypeIdsUnique s) :
    (Audited.fresh s).Good := by
  refine ⟨?_, ?_, hu, ?_⟩
  · intro g hg
    unfold Audited.entriesSince Audited.fresh
    simp only [hfresh.1, List.drop_nil, List.filter_nil, List.map_nil, List.sum_nil]
    exact hfresh.2 g hg
  · intro id
    simp [Audited.fresh]
  · unfold EntryIdsOk Audited.fresh
    simp [hfresh.1]

/-- C2, amended. From funds created with balance zero and no entry, in every
state reached through any sequence of Post Entry calls of a type other than
`OUTROS` whose balance write does not raise, Update Entry calls (whose balance
write does not raise, with a two-digit amount) that leave the amount as it is
or correct an entry, not a withdrawal, posted since its fund's last archive or
reset, monthly archive runs and branch resets, each fund's cached balance
equals the signed sum (withdrawals negative, every other type positive) of the
entries posted against it since its last archive or reset, and zero when there
is none. Calls that fail are included. -/
theorem balances_match_along_kept_calls (s : Store) (ops : List Op) (hfresh : s.Fresh)
    (hu : TypeIdsUnique s) (hops : (Audited.fresh s).KeepsAll ops) :
    ((Audited.fresh s).steps ops).BalancesMatch :=
  (good_steps ops (Audited.fresh s) (good_fresh s hfresh hu) hops).1

/-- C2, amended, on the example run: a deposit, a withdrawal, a tithe, an update
of the deposit, a monthly archive, a deposit, an update of its description and a
branch reset from the fresh example store; the run writes seven entries, and
the balances before the archive are 12.50, 90.00 and 0.00. -/
theorem balances_match_along_kept_calls_witness :
    ((Audited.fresh freshStore).steps keptRun).BalancesMatch ∧
    ((Audited.fresh freshStore).steps keptRun).store.transactions.length = 7 ∧
    ((Audited.fresh freshStore).steps (keptRun.take 4)).store.congregation_groups.map
      (fun g => g.current_balance) = [1250, 9000, 0] :=
  ⟨balances_match_along_kept_calls freshStore keptRun (by decide) (by decide) (by decide),
   by decide, by decide⟩

/-- C3, on the example of the specification (funds at 100.00, -30.00 and 50.00):
the monthly archive writes three balancing entries, each within the rule. -/
theorem written_entries_follow_snapshot_rule_witness :
    (writtenEntries archiveExample (monthlyArchive archiveExample admin noon none).2).map
      (fun t => (t.group_id, t.group_type_id, t.amount, t.previous_balance, t.new_balance))
      = [(some 1, some 4, 5000, 5000, 0), (some 2, some 4, 10000, 10000, 0),
         (some 3, some 3, 3000, -3000, 0)] ∧
    ∀ t ∈ writtenEntries archiveExample (monthlyArchive archiveExample admin noon none).2,
      SnapshotRule archiveExample t :=
  ⟨by decide,
   ((written_entries_follow_snapshot_rule archiveExample (by decide)).2
      ⟨⟨4, "RETIRADA"⟩, by decide, rfl⟩).1 admin noon none⟩

/-- C11. Update Entry does not re-validate non-negativity: for an existing entry
with stored amount `a` on a fund whose cached balance is `b`, whatever `b` is, a
new two-digit amount `c` with `b + (c - a) < 0` is accepted with success and the
fund's cached balance is left at `b + (c - a)`, strictly negative. -/
theorem update_entry_can_leave_negative_balance (s : Store) (id : Nat) (body : PutBody)
    (c : Int) (t : Transaction) (gid : Nat) (b : Int)
    (hamount : body.amount.parsed = .fin c 2)
    (ht : transactionById s id = some t) (hgid : t.group_id = some gid)
    (hb : balanceOf s gid = some b) (hneg : b + (c - t.amount) < 0) :
    (putTransactions s id body none).1 = .success ∧
    ∃ b1, balanceOf (putTransactions s id body none).2 gid = some b1 ∧
      b1 = b + (c - t.amount) ∧ b1 < 0 := by
  rw [putTransactions_cents s id body c t hamount ht]
  refine ⟨rfl, b + (c - t.amount), ?_, rfl, hneg⟩
  unfold balanceOf at hb ⊢
  rw [groupById_map (fun g => if some g.id = t.group_id then
      { g with current_balance := g.current_balance + (c - t.amount) } else g)
    (by intro g; dsimp only; split <;> rfl) s _ rfl]
  cases hg : groupById s (some gid) with
  | none => rw [hg] at hb; simp at hb
  | some g =>
    rw [hg] at hb
    simp only [Option.map_some', Option.some.injEq] at hb
    have hid : g.id = gid := by simpa using (groupById_some hg).2
    simp [hid, hgid, hb]

/-- C11, on the store reached by a deposit of 100.00 and a withdrawal of 80.00
on the fund `Jovens`: the fund holds 20.00, updating the deposit to 10.00
succeeds and leaves the fund at -70.00. -/
theorem update_entry_can_leave_negative_balance_witness :
    balanceOf smallBalanceStore 2 = some 2000 ∧
    (transactionById smallBalanceStore 1).map (fun t => (t.group_id, t.amount))
      = some (some 2, 10000) ∧
    balanceOf (putTransactions smallBalanceStore 1 ⟨⟨true, .fin 1000 2⟩, none, "Ana"⟩ none).2 2
      = some (-7000) ∧
    (putTransactions smallBalanceStore 1 ⟨⟨true, .fin 1000 2⟩, none, "Ana"⟩ none).1
      = .success ∧
    ∃ b1, balanceOf (putTransactions smallBalanceStore 1
        ⟨⟨true, .fin 1000 2⟩, none, "Ana"⟩ none).2 2 = some b1 ∧
      b1 = 2000 + (1000 - 10000) ∧ b1 < 0 :=
  ⟨by decide, by decide, by decide,
   update_entry_can_leave_negative_balance smallBalanceStore 1
     ⟨⟨true, .fin 1000 2⟩, none, "Ana"⟩ 1000
     ⟨1, some 2, some 3, 10000, none, "Ana", 1, 0, 10000, noon⟩ 2 2000
     rfl (by decide) rfl (by decide) (by decide)⟩

theorem monthlyArchive_archived {s : Store} {user : User} {now : DateTime}
    {fault : Option Nat} {label : String} {s1 : Store}
    (h : monthlyArchive s user now fault = (.archived label, s1)) :
    s1 = archiveAll s now ∧ user.isAdmin = true ∧
      label = toString (referencePeriod now).1 ++ "-" ++ pad2 (referencePeriod now).2 := by
  unfold monthlyArchive at h
  split at h
  · simp at h
  · rename_i hadm
    have hadm' : user.isAdmin = true := by simpa using hadm
    split at h
    · split at h
      · simp at h
      · simp only [Prod.mk.injEq, Response.archived.injEq] at h
        exact ⟨h.2.symm, hadm', h.1.symm⟩
    · simp only [Prod.mk.injEq, Response.archived.injEq] at h
      exact ⟨h.2.symm, hadm', h.1.symm⟩

/-- C12. A monthly archive run is all or nothing. Whenever the run answers with
an error, the store after the call is the store before it: the monthly archive
rows, the monthly fund archive rows, the entries and the fund balances of every
branch are unchanged. A store statement that raises at any position `k` the run
reaches makes the run answer with an error. -/
theorem failed_archive_retains_nothing (s : Store) (user : User) (now : DateTime) :
    (∀ (fault : Option Nat) status message,
      (monthlyArchive s user now fault).1 = .error status message →
      (monthlyArchive s user now fault).2 = s ∧
      (monthlyArchive s user now fault).2.monthly_archives = s.monthly_archives ∧
      (monthlyArchive s user now fault).2.monthly_group_archives = s.monthly_group_archives ∧
      (monthlyArchive s user now fault).2.transactions = s.transactions ∧
      (monthlyArchive s user now fault).2.congregation_groups = s.congregation_groups) ∧
    (∀ k, k < archiveStatements s →
      ∃ status message, monthlyArchive s user now (some k) = (.error status message, s)) := by
  constructor
  · intro fault status message h
    rcases monthlyArchive_cases s user now fault with ⟨label, h1⟩ | ⟨st, msg, h1⟩
    · rw [h1] at h
      simp at h
    · rw [h1]
      exact ⟨rfl, rfl, rfl, rfl, rfl⟩
  · intro k hk
    unfold monthlyArchive
    split
    · exact ⟨_, _, rfl⟩
    · simp only [hk, ↓reduceIte]
      exact ⟨_, _, rfl⟩

/-- C12, on the example of the specification: the run has 23 statements; when
the last balance update (statement 15) raises, the store is the one before the
run, while the run without a failure writes two archive rows, four fund rows
and three entries. -/
theorem failed_archive_retains_nothing_witness :
    archiveStatements archiveExample = 23 ∧
    monthlyArchive archiveExample admin noon (some 15)
      = (.error 500 "Erro no arquivamento mensal", archiveExample) ∧
    (monthlyArchive archiveExample admin noon none).2.monthly_archives.length = 2 ∧
    (monthlyArchive archiveExample admin noon none).2.monthly_group_archives.length = 4 ∧
    (monthlyArchive archiveExample admin noon none).2.transactions.length = 3 :=
  ⟨by decide,
   Prod.ext (by decide)
     ((failed_archive_retains_nothing archiveExample admin noon).1 (some 15) 500
       "Erro no arquivamento mensal" (by decide)).1,
   by decide, by decide, by decide⟩

/-- C14. After a successful monthly archive, every fund of every branch that is
not an administrator has cached balance exactly zero, whatever its balance was
before the run. -/
theorem archive_zeroes_every_fund (s : Store) (user : User) (now : DateTime)
    (fault : Option Nat) (label : String) (s1 : Store)
    (h : monthlyArchive s user now fault = (.archived label, s1)) :
    ∀ g ∈ s1.congregation_groups, g.branch_id ∈ (nonAdminBranches s).map (fun b => b.id) →
      g.current_balance = 0 := by
  obtain ⟨hs1, -, -⟩ := monthlyArchive_archived h
  subst hs1
  have hz := zeroRun_archiveAll s now
  obtain ⟨Z, hZ, -, hcover⟩ := hz.groups
  intro g hg hb
  rw [hZ] at hg
  obtain ⟨g0, hg0, -, e2, e3⟩ := mem_zeroed hg
  rw [e3]
  split
  · rfl
  · rename_i hz0
    rw [e2] at hb
    rcases hcover g0 hg0 hb with h1 | h1
    · exact absurd h1 hz0
    · exact h1

/-- C14, on the example of the specification: the funds at 50.00, 100.00 and
-30.00 and the fund of branch 2 are all at zero after the run. -/
theorem archive_zeroes_every_fund_witness :
    archiveExample.congregation_groups.map (fun g => g.current_balance)
      = [5000, 10000, -3000, 0] ∧
    ∀ g ∈ (monthlyArchive archiveExample admin noon none).2.congregation_groups,
      g.branch_id ∈ (nonAdminBranches archiveExample).map (fun b => b.id) →
      g.current_balance = 0 :=
  ⟨by decide,
   archive_zeroes_every_fund archiveExample admin noon none "2025-03" _ (by decide)⟩

/-- C19, failing input. Invoked on 31 March 2025, the run computes the reference
period March 2025, the month of the invocation itself, and labels its archive
rows `2025-03`; the calendar month before the invocation is February 2025.
Invoked on 28 March 2025 it computes February 2025. -/
theorem reference_period_on_day_31 :
    referencePeriod ⟨2025, 3, 31, 43200000⟩ = (2025, 3) ∧
    (monthlyArchive archiveExample admin ⟨2025, 3, 31, 43200000⟩ none).1 = .archived "2025-03" ∧
    (writtenArchives archiveExample
      (monthlyArchive archiveExample admin ⟨2025, 3, 31, 43200000⟩ none).2).map
      (fun r => r.month_year) = ["2025-03", "2025-03"] ∧
    referencePeriod ⟨2025, 3, 28, 43200000⟩ = (2025, 2) := by
  decide

theorem balancingSpec_append (s : Store) (now : DateTime) (ds : List Branch) (b : Branch) :
    balancingSpec s now (ds ++ [b]) = balancingSpec s now ds ++
      ((fundsOf s b.id).filter fun g => g.current_balance ≠ 0).map
        (fun g => balancingRow (archiveTypes s) s g "Ajuste mensal - Zeramento" b.id now) := by
  induction ds with
  | nil => simp [balancingSpec]
  | cons d ds ih => simp [balancingSpec, ih]

theorem archiveRowsFrom_append (s : Store) (now : DateTime) (n : Nat) (ds : List Branch)
    (b : Branch) :
    archiveRowsFrom s now n (ds ++ [b]) =
      archiveRowsFrom s now n ds ++ [archiveRowOf s now (n + ds.length) b] := by
  induction ds generalizing n with
  | nil => simp [archiveRowsFrom]
  | cons d ds ih =>
    show archiveRowOf s now n d :: archiveRowsFrom s now (n + 1) (ds ++ [b]) = _
    rw [ih (n + 1), List.length_cons, show n + 1 + ds.length = n + (ds.length + 1) by omega]
    rfl

theorem fundArchiveRowsFrom_append (s : Store) (n : Nat) (ds : List Branch) (b : Branch) :
    fundArchiveRowsFrom s n (ds ++ [b]) =
      fundArchiveRowsFrom s n ds ++ fundArchiveRowsOf s (n + ds.length) b := by
  induction ds generalizing n with
  | nil => simp [fundArchiveRowsFrom]
  | cons d ds ih =>
    show fundArchiveRowsOf s n d ++ fundArchiveRowsFrom s (n + 1) (ds ++ [b]) = _
    rw [ih (n + 1), List.length_cons, show n + 1 + ds.length = n + (ds.length + 1) by omega,
      ← List.append_assoc]
    rfl

theorem fundArchiveRowsFrom_linked (s : Store) (n : Nat) (ds : List Branch) :
    ∀ r ∈ fundArchiveRowsFrom s n ds, r.archive_id ≠ none := by
  induction ds generalizing n with
  | nil => simp [fundArchiveRowsFrom]
  | cons d ds ih =>
    intro r hr
    simp only [fundArchiveRowsFrom, List.mem_append] at hr
    rcases hr with h | h
    · simp only [fundArchiveRowsOf, List.mem_map] at h
      obtain ⟨g, -, rfl⟩ := h
      simp
    · exact ih (n + 1) r h

theorem balancingSpec_type (s : Store) (now : DateTime) (ds : List Branch) :
    ∀ t ∈ balancingSpec s now ds,
      t.group_type_id = typeMap (archiveTypes s) "RETIRADA" ∨
      t.group_type_id = typeMap (archiveTypes s) "DEPOSITO" := by
  induction ds with
  | nil => simp [balancingSpec]
  | cons d ds ih =>
    intro t ht
    simp only [balancingSpec, List.mem_append, List.mem_map] at ht
    rcases ht with ⟨g, -, rfl⟩ | h
    · unfold balancingRow
      simp only
      split
      · exact Or.inl rfl
      · exact Or.inr rfl
    · exact ih t h

theorem eraseId_balancingRow (types : List GroupType) (st s : Store) (g : Group)
    (description : String) (branchId : Nat) (date : DateTime) :
    eraseId (balancingRow types st g description branchId date)
      = eraseId (balancingRow types s g description branchId date) := rfl

theorem foldl_zeroGroup_erased (types : List GroupType) (description : String) (branchId : Nat)
    (date : DateTime) (s : Store) (gs : List Group) (st : Store) :
    ∃ extra, (gs.foldl (zeroGroup types description branchId date) st).transactions
        = st.transactions ++ extra ∧
      extra.map eraseId = ((gs.filter fun g => g.current_balance ≠ 0).map
        (fun g => balancingRow types s g description branchId date)).map eraseId := by
  induction gs generalizing st with
  | nil => exact ⟨[], by simp, by simp⟩
  | cons g gs ih =>
    obtain ⟨extra, he, hm⟩ := ih (zeroGroup types description branchId date st g)
    rw [List.foldl_cons, he, zeroGroup_transactions]
    by_cases h0 : g.current_balance = 0
    · refine ⟨extra, by simp [h0], ?_⟩
      rw [hm]
      simp [List.filter_cons, h0]
    · refine ⟨balancingRow types st g description branchId date :: extra, by simp [h0], ?_⟩
      simp only [List.map_cons, hm, List.filter_cons, ne_eq, h0, not_false_eq_true,
        decide_True, ↓reduceIte]
      rw [eraseId_balancingRow types st s]

theorem foldl_zeroGroup_frame (types : List GroupType) (description : String) (branchId : Nat)
    (date : DateTime) (gs : List Group) (st : Store) :
    (gs.foldl (zeroGroup types description branchId date) st).monthly_archives
        = st.monthly_archives ∧
    (gs.foldl (zeroGroup types description branchId date) st).monthly_group_archives
        = st.monthly_group_archives ∧
    (gs.foldl (zeroGroup types description branchId date) st).next_archive_id
        = st.next_archive_id := by
  induction gs generalizing st with
  | nil => exact ⟨rfl, rfl, rfl⟩
  | cons g gs ih =>
    obtain ⟨h1, h2, h3⟩ := ih (zeroGroup types description branchId date st g)
    rw [List.foldl_cons]
    have : (zeroGroup types description branchId date st g).monthly_archives
          = st.monthly_archives ∧
        (zeroGroup types description branchId date st g).monthly_group_archives
          = st.monthly_group_archives ∧
        (zeroGroup types description branchId date st g).next_archive_id
          = st.next_archive_id := by
      unfold zeroGroup
      split <;> exact ⟨rfl, rfl, rfl⟩
    exact ⟨h1.trans this.1, h2.trans this.2.1, h3.trans this.2.2⟩

theorem groupType_eq_of_id_eq {l : List GroupType} (hnd : (l.map fun e => e.id).Nodup)
    {x y : GroupType} (hx : x ∈ l) (hy : y ∈ l) (hid : x.id = y.id) : x = y := by
  have h1 := find?_id_of_nodup hnd hx
  have h2 := find?_id_of_nodup hnd hy
  rw [hid, h2] at h1
  exact (Option.some.inj h1).symm

theorem typeMap_injective {s : Store} (hu : TypeIdsUnique s) {n1 n2 : String} {i : Nat}
    (h1 : typeMap (archiveTypes s) n1 = some i) (h2 : typeMap (archiveTypes s) n2 = some i) :
    n1 = n2 := by
  rcases typeMap_cases (archiveTypes s) n1 with h | ⟨x, hx, hxn, hxm⟩
  · rw [h] at h1; simp at h1
  rcases typeMap_cases (archiveTypes s) n2 with h | ⟨y, hy, hyn, hym⟩
  · rw [h] at h2; simp at h2
  rw [h1] at hxm
  rw [h2] at hym
  have hid : x.id = y.id := by
    have := hxm.symm.trans hym
    simpa using this
  have hx' : x ∈ s.group_types := (List.mem_filter.mp hx).1
  have hy' : y ∈ s.group_types := (List.mem_filter.mp hy).1
  have := groupType_eq_of_id_eq hu hx' hy' hid
  rw [← hxn, ← hyn, this]

theorem monthlyTotal_append (s st : Store) (extra : List Transaction) (branchId : Nat)
    (typeId : Option Nat) (month year : Nat)
    (htx : st.transactions = s.transactions ++ extra)
    (hextra : ∀ t ∈ extra, typeId.isSome = true → t.group_type_id ≠ typeId) :
    monthlyTotal st branchId typeId month year = monthlyTotal s branchId typeId month year := by
  unfold monthlyTotal
  rw [htx, List.filter_append]
  have : extra.filter (fun t => decide (t.branch_id = branchId ∧ typeId.isSome = true ∧
      t.group_type_id = typeId ∧ t.transaction_date.month = month ∧
      t.transaction_date.year = year)) = [] := by
    rw [List.filter_eq_nil_iff]
    intro t ht
    simp only [decide_eq_true_eq, not_and]
    intro _ hsome hty
    exact absurd hty (hextra t ht hsome)
  rw [this, List.append_nil]

theorem funds_of_unprocessed (s : Store) (ds : List Branch) (b : Branch)
    (hb : b.id ∉ ds.map fun d => d.id) :
    ((s.congregation_groups.map fun g =>
        if g.branch_id ∈ ds.map (fun d => d.id) then { g with current_balance := 0 } else g).filter
      fun g => g.branch_id = b.id) = fundsOf s b.id := by
  unfold fundsOf
  rw [List.filter_map]
  have hcomp : ((fun g : Group => decide (g.branch_id = b.id)) ∘ fun g : Group =>
      if g.branch_id ∈ ds.map (fun d => d.id) then { g with current_balance := 0 } else g)
      = fun g => decide (g.branch_id = b.id) := by
    funext g
    simp only [Function.comp_apply]
    split <;> rfl
  rw [hcomp]
  have hid : ∀ g ∈ s.congregation_groups.filter (fun g => decide (g.branch_id = b.id)),
      (if g.branch_id ∈ ds.map (fun d => d.id) then { g with current_balance := 0 } else g)
        = id g := by
    intro g hg
    have hbr : g.branch_id = b.id := by simpa using (List.mem_filter.mp hg).2
    rw [hbr, if_neg hb]
    rfl
  rw [List.map_congr_left hid, List.map_id]

theorem zero_balance_eq (g : Group) (h : g.current_balance = 0) :
    { g with current_balance := 0 } = g := by
  cases g
  simp_all

theorem zeroed_branch (s : Store) (hg : (s.congregation_groups.map fun g => g.id).Nodup)
    (ds : List Branch) (b : Branch) :
    zeroed (((fundsOf s b.id).filter fun g => g.current_balance ≠ 0).map fun g => g.id)
      (s.congregation_groups.map fun g =>
        if g.branch_id ∈ ds.map (fun d => d.id) then { g with current_balance := 0 } else g)
    = s.congregation_groups.map fun g =>
        if g.branch_id ∈ (ds ++ [b]).map (fun d => d.id) then { g with current_balance := 0 }
        else g := by
  unfold zeroed
  rw [List.map_map]
  apply List.map_congr_left
  intro g hgm
  simp only [Function.comp_apply]
  have hidF : (if g.branch_id ∈ ds.map (fun d => d.id) then { g with current_balance := 0 }
      else g).id = g.id := by
    split <;> rfl
  rw [hidF]
  have hZ : g.id ∈ ((fundsOf s b.id).filter fun g => g.current_balance ≠ 0).map (fun g => g.id)
      ↔ g.branch_id = b.id ∧ g.current_balance ≠ 0 := by
    constructor
    · intro h
      obtain ⟨h0, hmem, hid⟩ := List.mem_map.mp h
      obtain ⟨hf, hnz⟩ := List.mem_filter.mp hmem
      obtain ⟨hs, hbr⟩ := List.mem_filter.mp hf
      have : h0 = g := List.inj_on_of_nodup_map hg hs hgm hid
      subst this
      exact ⟨by simpa using hbr, by simpa using hnz⟩
    · rintro ⟨hbr, hnz⟩
      exact List.mem_map.mpr ⟨g, List.mem_filter.mpr
        ⟨List.mem_filter.mpr ⟨hgm, by simpa using hbr⟩, by simpa using hnz⟩, rfl⟩
  have hmem' : g.branch_id ∈ (ds ++ [b]).map (fun d => d.id)
      ↔ g.branch_id ∈ ds.map (fun d => d.id) ∨ g.branch_id = b.id := by
    simp
  by_cases hds : g.branch_id ∈ ds.map (fun d => d.id)
  · have h1 : g.branch_id ∈ (ds ++ [b]).map (fun d => d.id) := hmem'.mpr (Or.inl hds)
    rw [if_pos hds, if_pos h1]
    split <;> rfl
  · rw [if_neg hds]
    by_cases hbr : g.branch_id = b.id
    · have h1 : g.branch_id ∈ (ds ++ [b]).map (fun d => d.id) := hmem'.mpr (Or.inr hbr)
      rw [if_pos h1]
      by_cases hnz : g.current_balance = 0
      · have : ¬ (g.id ∈ ((fundsOf s b.id).filter fun g => g.current_balance ≠ 0).map
            (fun g => g.id)) := fun h => (hZ.mp h).2 hnz
        rw [if_neg this, zero_balance_eq g hnz]
      · rw [if_pos (hZ.mpr ⟨hbr, hnz⟩)]
    · have h1 : ¬ (g.branch_id ∈ (ds ++ [b]).map (fun d => d.id)) := by
        rw [hmem']
        exact fun h => h.elim hds hbr
      have : ¬ (g.id ∈ ((fundsOf s b.id).filter fun g => g.current_balance ≠ 0).map
            (fun g => g.id)) := fun h => hbr (hZ.mp h).1
      rw [if_neg h1, if_neg this]

theorem archiveRun_refl (s : Store) (now : DateTime) : ArchiveRun s now [] s :=
  { branches := rfl
    group_types := rfl
    groups := by simp
    transactions := ⟨[], by simp, by simp [balancingSpec]⟩
    next_archive_id := by simp
    archives := by simp [archiveRowsFrom]
    fundArchives := ⟨s.monthly_group_archives, by simp [fundArchiveRowsFrom],
      List.forall₂_same.mpr fun r _ => Or.inl rfl⟩ }

theorem extra_type_ne {s : Store} (hu : TypeIdsUnique s) {now : DateTime} {ds : List Branch}
    {extra : List Transaction}
    (hm : extra.map eraseId = (balancingSpec s now ds).map eraseId) {name : String}
    (hname : name ≠ "RETIRADA" ∧ name ≠ "DEPOSITO") :
    ∀ t ∈ extra, (typeMap (archiveTypes s) name).isSome = true →
      t.group_type_id ≠ typeMap (archiveTypes s) name := by
  intro t ht hsome hty
  have h1 : eraseId t ∈ (balancingSpec s now ds).map eraseId := by
    rw [← hm]
    exact List.mem_map.mpr ⟨t, ht, rfl⟩
  obtain ⟨t1, ht1, he⟩ := List.mem_map.mp h1
  have hgt : t.group_type_id = t1.group_type_id := by
    have := congrArg Transaction.group_type_id he
    exact this.symm
  obtain ⟨i, hi⟩ := Option.isSome_iff_exists.mp hsome
  rcases balancingSpec_type s now ds t1 ht1 with h | h
  · have := typeMap_injective hu hi (by rw [← h, ← hgt, hty, hi])
    exact hname.1 this
  · have := typeMap_injective hu hi (by rw [← h, ← hgt, hty, hi])
    exact hname.2 this

theorem archiveBranch_fields (types : List GroupType) (year month : Nat) (date : DateTime)
    (s st : Store) (b : Branch) :
    (archiveBranch types year month date st b).branches = st.branches ∧
    (archiveBranch types year month date st b).group_types = st.group_types ∧
    (archiveBranch types year month date st b).congregation_groups =
      zeroed (((st.congregation_groups.filter fun g => g.branch_id = b.id).filter
        fun g => g.current_balance ≠ 0).map fun g => g.id) st.congregation_groups ∧
    (∃ x, (archiveBranch types year month date st b).transactions = st.transactions ++ x ∧
      x.map eraseId = (((st.congregation_groups.filter fun g => g.branch_id = b.id).filter
        fun g => g.current_balance ≠ 0).map
          (fun g => balancingRow types s g "Ajuste mensal - Zeramento" b.id date)).map eraseId) ∧
    (archiveBranch types year month date st b).next_archive_id = st.next_archive_id + 1 ∧
    (archiveBranch types year month date st b).monthly_archives = st.monthly_archives ++
      [⟨st.next_archive_id, b.id, toString year ++ "-" ++ pad2 month,
        monthlyTotal st b.id (typeMap types "DIZIMO") month year,
        monthlyTotal st b.id (typeMap types "OFERTA") month year,
        ((st.congregation_groups.filter fun g => g.branch_id = b.id).map
          fun g => g.current_balance).sum, date⟩] ∧
    (archiveBranch types year month date st b).monthly_group_archives =
      (st.monthly_group_archives ++
        (st.congregation_groups.filter fun g => g.branch_id = b.id).map fun (g : Group) =>
          (⟨none, g.id, g.name, g.current_balance, g.current_balance⟩ :
            MonthlyGroupArchive)).map fun (r : MonthlyGroupArchive) =>
        if r.archive_id = none ∧
            r.group_id ∈ (st.congregation_groups.filter fun g => g.branch_id = b.id).map
              (fun g => g.id)
        then { r with archive_id := some st.next_archive_id } else r := by
  unfold archiveBranch
  dsimp only
  have hf := foldl_zeroGroup_fields types "Ajuste mensal - Zeramento"
    b.id date (st.congregation_groups.filter fun g => g.branch_id = b.id)
  have he := foldl_zeroGroup_frame types "Ajuste mensal - Zeramento"
    b.id date (st.congregation_groups.filter fun g => g.branch_id = b.id)
  refine ⟨?_, ?_, ?_, ?_, ?_, ?_, ?_⟩
  · rw [(hf _).2.1]
  · rw [(hf _).1]
  · rw [(hf _).2.2]
  · exact foldl_zeroGroup_erased types "Ajuste mensal - Zeramento" b.id date s _ _
  · rw [(he _).2.2]
  · rw [(he _).1]
    rfl
  · rw [(he _).2.1]

theorem archiveRun_step {s : Store} (hk : s.KeysUnique) {now : DateTime} {ds : List Branch}
    {st : Store} (h : ArchiveRun s now ds st) (b : Branch)
    (hb : b.id ∉ ds.map fun d => d.id) :
    ArchiveRun s now (ds ++ [b])
      (archiveBranch (archiveTypes s) (referencePeriod now).1 (referencePeriod now).2 now st b) := by
  obtain ⟨-, hgn, hu⟩ := hk
  obtain ⟨extra, htx, hextra⟩ := h.transactions
  obtain ⟨old, hmga, hold⟩ := h.fundArchives
  have hfunds : (st.congregation_groups.filter fun g => g.branch_id = b.id) = fundsOf s b.id := by
    rw [h.groups]
    exact funds_of_unprocessed s ds b hb
  obtain ⟨f2, f1, f3, ⟨x, hx1, hx2⟩, e3, e1, e2⟩ := archiveBranch_fields (archiveTypes s)
    (referencePeriod now).1 (referencePeriod now).2 now s st b
  rw [hfunds] at f3 hx2 e1 e2
  have htotal : ∀ name : String, name ≠ "RETIRADA" ∧ name ≠ "DEPOSITO" →
      monthlyTotal st b.id (typeMap (archiveTypes s) name) (referencePeriod now).2
        (referencePeriod now).1
      = monthlyTotal s b.id (typeMap (archiveTypes s) name) (referencePeriod now).2
          (referencePeriod now).1 := by
    intro name hname
    exact monthlyTotal_append s _ extra b.id _ _ _ htx (extra_type_ne hu hextra hname)
  refine
    { branches := f2.trans h.branches
      group_types := f1.trans h.group_types
      groups := ?_
      transactions := ?_
      next_archive_id := ?_
      archives := ?_
      fundArchives := ?_ }
  · rw [f3, h.groups]
    exact zeroed_branch s hgn ds b
  · refine ⟨extra ++ x, ?_, ?_⟩
    · rw [hx1, htx, List.append_assoc]
    · rw [List.map_append, hextra, hx2, balancingSpec_append, List.map_append]
  · rw [e3, h.next_archive_id, List.length_append, List.length_singleton]
    omega
  · rw [e1, h.archives, archiveRowsFrom_append, List.append_assoc, h.next_archive_id,
      htotal "DIZIMO" (by decide), htotal "OFERTA" (by decide)]
    rfl
  · rw [e2, hmga, List.map_append, List.map_append]
    refine ⟨old.map (fun r =>
        if r.archive_id = none ∧ r.group_id ∈ (fundsOf s b.id).map (fun g => g.id)
        then { r with archive_id := some st.next_archive_id } else r), ?_, ?_⟩
    · rw [fundArchiveRowsFrom_append, List.append_assoc]
      congr 1
      congr 1
      · refine (List.map_congr_left ?_).trans (List.map_id _)
        intro r hr
        have := fundArchiveRowsFrom_linked s s.next_archive_id ds r hr
        simp [this]
      · unfold fundArchiveRowsOf
        rw [List.map_map, h.next_archive_id]
        apply List.map_congr_left
        intro g hgm
        have : g.id ∈ (fundsOf s b.id).map (fun g => g.id) := List.mem_map.mpr ⟨g, hgm, rfl⟩
        simp only [Function.comp_apply, true_and, this, ↓reduceIte]
    · rw [List.forall₂_map_right_iff]
      refine hold.imp ?_
      intro r r1 hr
      rcases hr with rfl | ⟨hnone, k, rfl⟩
      · by_cases hc : r1.archive_id = none ∧ r1.group_id ∈ (fundsOf s b.id).map (fun g => g.id)
        · rw [if_pos hc]
          exact Or.inr ⟨hc.1, _, rfl⟩
        · rw [if_neg hc]
          exact Or.inl rfl
      · right
        refine ⟨hnone, k, ?_⟩
        simp

theorem archiveRun_foldl {s : Store} (hk : s.KeysUnique) (now : DateTime) (bs ds : List Branch)
    {st : Store} (hnd : ((ds ++ bs).map fun b => b.id).Nodup) (h : ArchiveRun s now ds st) :
    ArchiveRun s now (ds ++ bs)
      (bs.foldl (archiveBranch (archiveTypes s) (referencePeriod now).1 (referencePeriod now).2
        now) st) := by
  induction bs generalizing ds st with
  | nil => simpa using h
  | cons b bs ih =>
    have hb : b.id ∉ ds.map fun d => d.id := by
      rw [List.map_append, List.nodup_append] at hnd
      intro hmem
      exact hnd.2.2 hmem (by simp)
    have hstep := archiveRun_step hk h b hb
    have := ih (ds ++ [b]) (by simpa [List.append_assoc] using hnd) hstep
    simpa [List.append_assoc] using this

theorem nonAdminBranches_nodup {s : Store} (hk : s.KeysUnique) :
    ((nonAdminBranches s).map fun b => b.id).Nodup :=
  ((List.filter_sublist _).map _).nodup hk.1

theorem archiveRun_archiveAll {s : Store} (hk : s.KeysUnique) (now : DateTime) :
    ArchiveRun s now (nonAdminBranches s) (archiveAll s now) := by
  have := archiveRun_foldl hk now (nonAdminBranches s) []
    (by simpa using nonAdminBranches_nodup hk) (archiveRun_refl s now)
  simpa using this

theorem filter_key_of_nodup {α β : Type} [DecidableEq β] (key : α → β) (q : α → Bool)
    {l : List α} (hnd : (l.map key).Nodup) {a : α} (ha : a ∈ l) :
    (l.filter q).filter (fun x => key x = key a) = if q a = true then [a] else [] := by
  induction l with
  | nil => simp at ha
  | cons x xs ih =>
    simp only [List.map_cons, List.nodup_cons, List.mem_map, not_exists, not_and] at hnd
    rcases List.mem_cons.mp ha with rfl | hmem
    · have hnone : (xs.filter q).filter (fun x => decide (key x = key a)) = [] := by
        rw [List.filter_eq_nil_iff]
        intro y hy
        have hy' := (List.mem_filter.mp hy).1
        simpa using hnd.1 y hy'
      by_cases hq : q a = true
      · simp [List.filter_cons, hq, hnone]
      · simp [List.filter_cons, hq, hnone]
    · have hne : ¬ (key x = key a) := fun e => hnd.1 a hmem e.symm
      by_cases hq : q x = true
      · simp only [List.filter_cons, hq, ↓reduceIte, hne, decide_False]
        exact ih hnd.2 hmem
      · simp only [List.filter_cons, hq, ↓reduceIte]
        exact ih hnd.2 hmem

theorem map_eq_singleton {α β : Type} {f : α → β} {l : List α} {y : β} (h : l.map f = [y]) :
    ∃ x, l = [x] ∧ f x = y := by
  cases l with
  | nil => simp at h
  | cons x xs =>
    cases xs with
    | nil => exact ⟨x, rfl, by simpa using h⟩
    | cons z zs => simp at h

theorem balancingSpec_filter {s : Store} (hg : (s.congregation_groups.map fun g => g.id).Nodup)
    (now : DateTime) (bs : List Branch) (hnd : (bs.map fun b => b.id).Nodup) {g : Group}
    (hmem : g ∈ s.congregation_groups) :
    (balancingSpec s now bs).filter (fun t => t.group_id = some g.id) =
      if g.branch_id ∈ bs.map (fun b => b.id) ∧ g.current_balance ≠ 0 then
        [balancingRow (archiveTypes s) s g "Ajuste mensal - Zeramento" g.branch_id now]
      else [] := by
  induction bs with
  | nil => simp [balancingSpec]
  | cons b bs ih =>
    simp only [List.map_cons, List.nodup_cons] at hnd
    have ih' := ih hnd.2
    simp only [balancingSpec, List.filter_append, ih']
    have hrows : (((fundsOf s b.id).filter fun g => g.current_balance ≠ 0).map
        (fun g => balancingRow (archiveTypes s) s g "Ajuste mensal - Zeramento" b.id now)).filter
        (fun t => t.group_id = some g.id) =
        if g.branch_id = b.id ∧ g.current_balance ≠ 0 then
          [balancingRow (archiveTypes s) s g "Ajuste mensal - Zeramento" b.id now]
        else [] := by
      have hinner : ((fundsOf s b.id).filter fun g => g.current_balance ≠ 0)
          = s.congregation_groups.filter
            (fun a => decide (a.current_balance ≠ 0) && decide (a.branch_id = b.id)) :=
        List.filter_filter _ _
      rw [hinner, List.filter_map]
      have hcomp : ((fun t : Transaction => decide (t.group_id = some g.id)) ∘
          fun g => balancingRow (archiveTypes s) s g "Ajuste mensal - Zeramento" b.id now)
          = fun x : Group => decide (x.id = g.id) := by
        funext x
        simp [balancingRow]
      rw [hcomp, filter_key_of_nodup (fun x : Group => x.id) _ hg hmem]
      by_cases hc : g.branch_id = b.id ∧ g.current_balance ≠ 0
      · simp [hc.1, hc.2]
      · rw [if_neg hc]
        have : ¬ ((decide (g.current_balance ≠ 0) && decide (g.branch_id = b.id)) = true) := by
          simp only [Bool.and_eq_true, decide_eq_true_eq]
          exact fun h => hc ⟨h.2, h.1⟩
        rw [if_neg this]
        rfl
    rw [hrows]
    have hcons : g.branch_id ∈ (b :: bs).map (fun b => b.id)
        ↔ g.branch_id = b.id ∨ g.branch_id ∈ bs.map (fun b => b.id) := by
      simp
    by_cases hnz : g.current_balance ≠ 0
    · by_cases hb : g.branch_id = b.id
      · have hnot : g.branch_id ∉ bs.map (fun b => b.id) := by rw [hb]; exact hnd.1
        rw [if_pos ⟨hb, hnz⟩, if_neg (fun h => hnot h.1), if_pos ⟨hcons.mpr (Or.inl hb), hnz⟩,
          List.append_nil, hb]
      · rw [if_neg (fun h => hb h.1), List.nil_append]
        by_cases hbs : g.branch_id ∈ bs.map (fun b => b.id)
        · rw [if_pos ⟨hbs, hnz⟩, if_pos ⟨hcons.mpr (Or.inr hbs), hnz⟩]
        · rw [if_neg (fun h => hbs h.1), if_neg (fun h => (hcons.mp h.1).elim hb hbs)]
    · rw [if_neg (fun h => hnz h.2), if_neg (fun h => hnz h.2), if_neg (fun h => hnz h.2),
        List.append_nil]

theorem filter_erased (extra spec : List Transaction) (h : extra.map eraseId = spec.map eraseId)
    (id : Nat) :
    (extra.filter fun t => t.group_id = some id).map eraseId
      = (spec.filter fun t => t.group_id = some id).map eraseId := by
  have hcomp : ((fun t : Transaction => decide (t.group_id = some id)) ∘ eraseId)
      = fun t => decide (t.group_id = some id) := by
    funext t
    rfl
  have h1 := List.filter_map (p := fun t : Transaction => decide (t.group_id = some id))
    eraseId extra
  have h2 := List.filter_map (p := fun t : Transaction => decide (t.group_id = some id))
    eraseId spec
  rw [hcomp] at h1 h2
  rw [← h1, ← h2, h]

theorem archive_typeName {s : Store} (hu : TypeIdsUnique s) {name : String}
    (hname : name ∈ ["DIZIMO", "OFERTA", "DEPOSITO", "RETIRADA"])
    (hreg : ∃ x ∈ s.group_types, x.name = name) :
    typeName s (typeMap (archiveTypes s) name) = some name := by
  obtain ⟨x, hx, hn⟩ := hreg
  have hx' : x ∈ archiveTypes s := List.mem_filter.mpr ⟨hx, by rw [hn]; simpa using hname⟩
  obtain ⟨y, hy, hyn, hym⟩ := typeMap_some_of_mem ⟨x, hx', hn⟩
  rw [hym, typeName_of_mem hu (List.mem_filter.mp hy).1, hyn]

/-- C13. A successful monthly archive posts, for every fund of a branch that is
not an administrator whose cached balance before the run is not zero, exactly
one entry on that fund: of type withdrawal (`RETIRADA`) when the balance is
positive and deposit (`DEPOSITO`) when it is negative, with amount the absolute
value of the balance, person `Sistema`, description `Ajuste mensal - Zeramento`
and the archive time as timestamp; it posts no entry on a fund whose balance is
zero. The primary keys are unique and the two types are registered. -/
theorem archive_posts_one_balancing_entry (s : Store) (user : User) (now : DateTime)
    (fault : Option Nat) (label : String) (s1 : Store)
    (h : monthlyArchive s user now fault = (.archived label, s1))
    (hk : s.KeysUnique)
    (hret : ∃ x ∈ s.group_types, x.name = "RETIRADA")
    (hdep : ∃ x ∈ s.group_types, x.name = "DEPOSITO") :
    ∀ g ∈ s.congregation_groups, g.branch_id ∈ (nonAdminBranches s).map (fun b => b.id) →
      (g.current_balance = 0 →
        (writtenEntries s s1).filter (fun t => t.group_id = some g.id) = []) ∧
      (g.current_balance ≠ 0 →
        ∃ t, (writtenEntries s s1).filter (fun t => t.group_id = some g.id) = [t] ∧
          typeName s t.group_type_id
            = some (if g.current_balance > 0 then "RETIRADA" else "DEPOSITO") ∧
          t.amount = |g.current_balance| ∧ t.person_name = "Sistema" ∧
          t.description = some "Ajuste mensal - Zeramento" ∧ t.transaction_date = now ∧
          t.previous_balance = g.current_balance ∧ t.new_balance = 0) := by
  obtain ⟨hs1, -, -⟩ := monthlyArchive_archived h
  subst hs1
  have hrun := archiveRun_archiveAll hk now
  obtain ⟨extra, htx, hextra⟩ := hrun.transactions
  rw [writtenEntries_append htx]
  intro g hg hb
  have hfilter := filter_erased extra _ hextra g.id
  rw [balancingSpec_filter hk.2.1 now _ (nonAdminBranches_nodup hk) hg] at hfilter
  constructor
  · intro h0
    have : ¬ (g.branch_id ∈ (nonAdminBranches s).map (fun b => b.id) ∧ g.current_balance ≠ 0) :=
      fun hc => hc.2 h0
    rw [if_neg this] at hfilter
    simpa using hfilter
  · intro hnz
    rw [if_pos ⟨hb, hnz⟩] at hfilter
    obtain ⟨t, ht, he⟩ := map_eq_singleton hfilter
    refine ⟨t, ht, ?_, ?_, ?_, ?_, ?_, ?_, ?_⟩
    · have hty : t.group_type_id = typeMap (archiveTypes s)
          (if g.current_balance > 0 then "RETIRADA" else "DEPOSITO") :=
        congrArg Transaction.group_type_id he
      rw [hty]
      split
      · exact archive_typeName hk.2.2 (by decide) hret
      · exact archive_typeName hk.2.2 (by decide) hdep
    · exact congrArg Transaction.amount he
    · exact congrArg Transaction.person_name he
    · exact congrArg Transaction.description he
    · exact congrArg Transaction.transaction_date he
    · exact congrArg Transaction.previous_balance he
    · exact congrArg Transaction.new_balance he

/-- C13, on the example of the specification: a withdrawal of 50.00 on the
general-cash fund, a withdrawal of 100.00 on `A`, a deposit of 30.00 on `B`,
and nothing on the fund of branch 2, which is at zero. -/
theorem archive_posts_one_balancing_entry_witness :
    (writtenEntries archiveExample (monthlyArchive archiveExample admin noon none).2).map
      (fun t => (t.group_id, typeName archiveExample t.group_type_id, t.amount, t.person_name))
      = [(some 1, some "RETIRADA", 5000, "Sistema"), (some 2, some "RETIRADA", 10000, "Sistema"),
         (some 3, some "DEPOSITO", 3000, "Sistema")] ∧
    ∀ g ∈ archiveExample.congregation_groups,
      g.branch_id ∈ (nonAdminBranches archiveExample).map (fun b => b.id) →
      (g.current_balance = 0 →
        (writtenEntries archiveExample (monthlyArchive archiveExample admin noon none).2).filter
          (fun t => t.group_id = some g.id) = []) ∧
      (g.current_balance ≠ 0 →
        ∃ t, (writtenEntries archiveExample
            (monthlyArchive archiveExample admin noon none).2).filter
            (fun t => t.group_id = some g.id) = [t] ∧
          typeName archiveExample t.group_type_id
            = some (if g.current_balance > 0 then "RETIRADA" else "DEPOSITO") ∧
          t.amount = |g.current_balance| ∧ t.person_name = "Sistema" ∧
          t.description = some "Ajuste mensal - Zeramento" ∧ t.transaction_date = noon ∧
          t.previous_balance = g.current_balance ∧ t.new_balance = 0) :=
  ⟨by decide,
   archive_posts_one_balancing_entry archiveExample admin noon none "2025-03" _ (by decide)
     (by decide) ⟨⟨4, "RETIRADA"⟩, by decide, rfl⟩ ⟨⟨3, "DEPOSITO"⟩, by decide, rfl⟩⟩

theorem writtenFundArchives_of_run {s : Store} {now : DateTime} {ds : List Branch} {st : Store}
    (h : ArchiveRun s now ds st) :
    writtenFundArchives s st = fundArchiveRowsFrom s s.next_archive_id ds := by
  obtain ⟨old, hmga, hold⟩ := h.fundArchives
  unfold writtenFundArchives
  rw [hmga, hold.length_eq]
  simp

theorem writtenArchives_of_run {s : Store} {now : DateTime} {ds : List Branch} {st : Store}
    (h : ArchiveRun s now ds st) :
    writtenArchives s st = archiveRowsFrom s now s.next_archive_id ds := by
  unfold writtenArchives
  rw [h.archives]
  simp

theorem fundArchiveRowsFrom_mem (s : Store) (n : Nat) (bs : List Branch) :
    ∀ r ∈ fundArchiveRowsFrom s n bs, ∃ b ∈ bs, ∃ g ∈ fundsOf s b.id, ∃ k,
      r = ⟨some k, g.id, g.name, g.current_balance, g.current_balance⟩ := by
  induction bs generalizing n with
  | nil => simp [fundArchiveRowsFrom]
  | cons b bs ih =>
    intro r hr
    simp only [fundArchiveRowsFrom, List.mem_append] at hr
    rcases hr with h | h
    · simp only [fundArchiveRowsOf, List.mem_map] at h
      obtain ⟨g, hg, rfl⟩ := h
      exact ⟨b, List.mem_cons_self _ _, g, hg, n, rfl⟩
    · obtain ⟨b1, hb1, rest⟩ := ih (n + 1) r h
      exact ⟨b1, List.mem_cons_of_mem _ hb1, rest⟩

theorem archiveRowsFrom_mem (s : Store) (now : DateTime) (n : Nat) (bs : List Branch) :
    ∀ r ∈ archiveRowsFrom s now n bs, ∃ b ∈ bs, ∃ k, r = archiveRowOf s now k b := by
  induction bs generalizing n with
  | nil => simp [archiveRowsFrom]
  | cons b bs ih =>
    intro r hr
    simp only [archiveRowsFrom, List.mem_cons] at hr
    rcases hr with rfl | h
    · exact ⟨b, List.mem_cons_self _ _, n, rfl⟩
    · obtain ⟨b1, hb1, rest⟩ := ih (n + 1) r h
      exact ⟨b1, List.mem_cons_of_mem _ hb1, rest⟩

theorem archiveRowsFrom_branches (s : Store) (now : DateTime) (n : Nat) (bs : List Branch) :
    (archiveRowsFrom s now n bs).map (fun r => r.branch_id) = bs.map fun b => b.id := by
  induction bs generalizing n with
  | nil => rfl
  | cons b bs ih => simp [archiveRowsFrom, archiveRowOf, ih]

theorem fundArchiveRowsFrom_filter {s : Store}
    (hg : (s.congregation_groups.map fun g => g.id).Nodup) (n : Nat) (bs : List Branch)
    (hnd : (bs.map fun b => b.id).Nodup) {g : Group} (hmem : g ∈ s.congregation_groups) :
    (g.branch_id ∈ bs.map (fun b => b.id) →
      ∃ k, (fundArchiveRowsFrom s n bs).filter (fun r => r.group_id = g.id)
        = [⟨some k, g.id, g.name, g.current_balance, g.current_balance⟩]) ∧
    (g.branch_id ∉ bs.map (fun b => b.id) →
      (fundArchiveRowsFrom s n bs).filter (fun r => r.group_id = g.id) = []) := by
  induction bs generalizing n with
  | nil => simp [fundArchiveRowsFrom]
  | cons b bs ih =>
    simp only [List.map_cons, List.nodup_cons] at hnd
    obtain ⟨ih1, ih2⟩ := ih (n + 1) hnd.2
    have hrows : (fundArchiveRowsOf s n b).filter (fun r => r.group_id = g.id) =
        if g.branch_id = b.id then
          [⟨some n, g.id, g.name, g.current_balance, g.current_balance⟩]
        else [] := by
      unfold fundArchiveRowsOf fundsOf
      rw [List.filter_map]
      have hcomp : ((fun r : MonthlyGroupArchive => decide (r.group_id = g.id)) ∘
          fun x : Group =>
            (⟨some n, x.id, x.name, x.current_balance, x.current_balance⟩ : MonthlyGroupArchive))
          = fun x : Group => decide (x.id = g.id) := by
        funext x
        rfl
      rw [hcomp, filter_key_of_nodup (fun x : Group => x.id) _ hg hmem]
      by_cases hb : g.branch_id = b.id
      · simp [hb]
      · simp [hb]
    simp only [fundArchiveRowsFrom, List.filter_append, hrows, List.map_cons, List.mem_cons]
    constructor
    · intro hin
      by_cases hb : g.branch_id = b.id
      · have hnot : g.branch_id ∉ bs.map (fun b => b.id) := by rw [hb]; exact hnd.1
        rw [if_pos hb, ih2 hnot]
        exact ⟨n, rfl⟩
      · rw [if_neg hb]
        obtain ⟨k, hk⟩ := ih1 (hin.resolve_left hb)
        exact ⟨k, by rw [hk]; rfl⟩
    · intro hnot
      have hb : ¬ (g.branch_id = b.id) := fun e => hnot (Or.inl e)
      rw [if_neg hb, ih2 (fun e => hnot (Or.inr e))]
      rfl

/-- C15. A successful monthly archive writes, for every branch that is not an
administrator and every fund the branch owns, exactly one monthly fund archive
row: it carries the fund's identity and name, and its initial balance and final
balance both equal the fund's cached balance before the run. The primary keys
are unique. -/
theorem archive_writes_one_fund_row (s : Store) (user : User) (now : DateTime)
    (fault : Option Nat) (label : String) (s1 : Store)
    (h : monthlyArchive s user now fault = (.archived label, s1)) (hk : s.KeysUnique) :
    ∀ g ∈ s.congregation_groups, g.branch_id ∈ (nonAdminBranches s).map (fun b => b.id) →
      ∃ r, (writtenFundArchives s s1).filter (fun r => r.group_id = g.id) = [r] ∧
        r.group_id = g.id ∧ r.group_name = g.name ∧
        r.initial_balance = g.current_balance ∧ r.final_balance = g.current_balance := by
  obtain ⟨hs1, -, -⟩ := monthlyArchive_archived h
  subst hs1
  rw [writtenFundArchives_of_run (archiveRun_archiveAll hk now)]
  intro g hg hb
  obtain ⟨k, hfilter⟩ := (fundArchiveRowsFrom_filter hk.2.1 s.next_archive_id
    (nonAdminBranches s) (nonAdminBranches_nodup hk) hg).1 hb
  exact ⟨_, hfilter, rfl, rfl, rfl, rfl⟩

/-- C15, on the example of the specification: four fund rows, one per fund, with
the balances before the run. -/
theorem archive_writes_one_fund_row_witness :
    (writtenFundArchives archiveExample
      (monthlyArchive archiveExample admin noon none).2).map
      (fun r => (r.group_id, r.group_name, r.initial_balance, r.final_balance))
      = [(1, "Caixa Geral", 5000, 5000), (2, "A", 10000, 10000), (3, "B", -3000, -3000),
         (4, "Caixa Geral", 0, 0)] ∧
    ∀ g ∈ archiveExample.congregation_groups,
      g.branch_id ∈ (nonAdminBranches archiveExample).map (fun b => b.id) →
      ∃ r, (writtenFundArchives archiveExample
          (monthlyArchive archiveExample admin noon none).2).filter
          (fun r => r.group_id = g.id) = [r] ∧
        r.group_id = g.id ∧ r.group_name = g.name ∧
        r.initial_balance = g.current_balance ∧ r.final_balance = g.current_balance :=
  ⟨by decide,
   archive_writes_one_fund_row archiveExample admin noon none "2025-03" _ (by decide)
     (by decide)⟩

/-- C16, counterexample. On the example of the specification the fund row of the
fund `A` (id 2) has final balance 100.00, while the fund's cached balance after
the archive's reset is 0.00. -/
theorem fund_row_final_balance_is_not_after_reset :
    (monthlyArchive archiveExample admin noon none).1 = .archived "2025-03" ∧
    ((writtenFundArchives archiveExample
      (monthlyArchive archiveExample admin noon none).2).filter
        (fun r => r.group_id = 2)).map (fun r => (r.initial_balance, r.final_balance))
      = [(10000, 10000)] ∧
    balanceOf archiveExample 2 = some 10000 ∧
    balanceOf (monthlyArchive archiveExample admin noon none).2 2 = some 0 := by
  decide

/-- C16, amended. For every monthly fund archive row written by a successful
monthly archive, the row's initial balance and the row's final balance both
equal the cached balance, immediately before the archive's reset, of the fund
the row names; after the reset that fund is at zero. The primary keys are
unique. -/
theorem fund_rows_hold_balance_before_reset (s : Store) (user : User) (now : DateTime)
    (fault : Option Nat) (label : String) (s1 : Store)
    (h : monthlyArchive s user now fault = (.archived label, s1)) (hk : s.KeysUnique) :
    ∀ r ∈ writtenFundArchives s s1,
      ∃ g ∈ s.congregation_groups,
        g.branch_id ∈ (nonAdminBranches s).map (fun b => b.id) ∧
        r.group_id = g.id ∧ r.group_name = g.name ∧
        r.initial_balance = g.current_balance ∧ r.final_balance = g.current_balance ∧
        balanceOf s g.id = some g.current_balance ∧ balanceOf s1 g.id = some 0 := by
  obtain ⟨hs1, -, -⟩ := monthlyArchive_archived h
  subst hs1
  have hrun := archiveRun_archiveAll hk now
  rw [writtenFundArchives_of_run hrun]
  intro r hr
  obtain ⟨b, hb, g, hg, k, rfl⟩ := fundArchiveRowsFrom_mem s _ _ r hr
  obtain ⟨hgm, hbr⟩ := List.mem_filter.mp hg
  have hbr' : g.branch_id = b.id := by simpa using hbr
  have hin : g.branch_id ∈ (nonAdminBranches s).map (fun b => b.id) := by
    rw [hbr']
    exact List.mem_map.mpr ⟨b, hb, rfl⟩
  have hlookup : groupById s (some g.id) = some g := by
    unfold groupById
    have := filter_key_of_nodup (fun x : Group => x.id) (fun _ => true) hk.2.1 hgm
    simp only [List.filter_true, ↓reduceIte] at this
    have hpred : (fun x : Group => decide (some x.id = some g.id))
        = fun x : Group => decide (x.id = g.id) := by
      funext x
      simp
    rw [hpred, this]
    rfl
  refine ⟨g, hgm, hin, rfl, rfl, rfl, rfl, ?_, ?_⟩
  · unfold balanceOf
    rw [hlookup]
    rfl
  · unfold balanceOf
    rw [groupById_map _ (by intro x; split <;> rfl) s _ hrun.groups, hlookup]
    have hin2 : ∃ a ∈ nonAdminBranches s, a.id = g.branch_id := ⟨b, hb, hbr'.symm⟩
    simp [hin2]

/-- C16, amended, on the example of the specification. -/
theorem fund_rows_hold_balance_before_reset_witness :
    (writtenFundArchives archiveExample
      (monthlyArchive archiveExample admin noon none).2).length = 4 ∧
    ∀ r ∈ writtenFundArchives archiveExample (monthlyArchive archiveExample admin noon none).2,
      ∃ g ∈ archiveExample.congregation_groups,
        g.branch_id ∈ (nonAdminBranches archiveExample).map (fun b => b.id) ∧
        r.group_id = g.id ∧ r.group_name = g.name ∧
        r.initial_balance = g.current_balance ∧ r.final_balance = g.current_balance ∧
        balanceOf archiveExample g.id = some g.current_balance ∧
        balanceOf (monthlyArchive archiveExample admin noon none).2 g.id = some 0 :=
  ⟨by decide,
   fund_rows_hold_balance_before_reset archiveExample admin noon none "2025-03" _ (by decide)
     (by decide)⟩

/-- C17. For every monthly archive row written by a successful monthly archive,
`final_balance` is the sum of the cached balances, before the run, of all funds
owned by the row's branch (zero for a branch without funds); the run writes one
row per branch that is not an administrator. The primary keys are unique. -/
theorem archive_final_balance_is_sum (s : Store) (user : User) (now : DateTime)
    (fault : Option Nat) (label : String) (s1 : Store)
    (h : monthlyArchive s user now fault = (.archived label, s1)) (hk : s.KeysUnique) :
    (writtenArchives s s1).map (fun r => r.branch_id) = (nonAdminBranches s).map (fun b => b.id) ∧
    ∀ r ∈ writtenArchives s s1,
      r.final_balance = ((fundsOf s r.branch_id).map fun g => g.current_balance).sum := by
  obtain ⟨hs1, -, -⟩ := monthlyArchive_archived h
  subst hs1
  rw [writtenArchives_of_run (archiveRun_archiveAll hk now)]
  refine ⟨archiveRowsFrom_branches s now _ _, ?_⟩
  intro r hr
  obtain ⟨b, -, k, rfl⟩ := archiveRowsFrom_mem s now _ _ r hr
  rfl

/-- C17, on the example of the specification with a third branch without funds:
the funds at 100.00, -30.00 and 50.00 give 120.00, the branch without funds
gives 0.00. -/
theorem archive_final_balance_is_sum_witness :
    (writtenArchives sparseExample (monthlyArchive sparseExample admin noon none).2).map
      (fun r => (r.branch_id, r.final_balance)) = [(1, 12000), (2, 0), (3, 0)] ∧
    fundsOf sparseExample 3 = [] ∧
    ∀ r ∈ writtenArchives sparseExample (monthlyArchive sparseExample admin noon none).2,
      r.final_balance = ((fundsOf sparseExample r.branch_id).map fun g => g.current_balance).sum :=
  ⟨by decide, by decide,
   (archive_final_balance_is_sum sparseExample admin noon none "2025-03" _ (by decide)
     (by decide)).2⟩

theorem isSome_typeMap_iff_typeName {s : Store} (hu : TypeIdsUnique s) (hn : TypeNamesUnique s)
    {name : String} (hname : name ∈ ["DIZIMO", "OFERTA", "DEPOSITO", "RETIRADA"])
    (gt : Option Nat) :
    ((typeMap (archiveTypes s) name).isSome = true ∧ gt = typeMap (archiveTypes s) name) ↔
      typeName s gt = some name := by
  constructor
  · rintro ⟨hsome, rfl⟩
    rcases typeMap_cases (archiveTypes s) name with h | ⟨x, hx, hxn, hxm⟩
    · rw [h] at hsome; simp at hsome
    · rw [hxm, typeName_of_mem hu (List.mem_filter.mp hx).1, hxn]
  · intro h
    cases gt with
    | none => simp [typeName] at h
    | some i =>
      simp only [typeName, Option.map_eq_some'] at h
      obtain ⟨y, hfind, hyn⟩ := h
      have hy : y ∈ s.group_types := List.mem_of_find?_eq_some hfind
      have hyi : y.id = i := by simpa using List.find?_some hfind
      have hy' : y ∈ archiveTypes s :=
        List.mem_filter.mpr ⟨hy, by rw [hyn]; simpa using hname⟩
      obtain ⟨x, hx, hxn, hxm⟩ := typeMap_some_of_mem ⟨y, hy', hyn⟩
      have hxy : x = y :=
        List.inj_on_of_nodup_map hn (List.mem_filter.mp hx).1 hy (hxn.trans hyn.symm)
      rw [hxm, hxy, hyi]
      exact ⟨rfl, rfl⟩

theorem monthlyTotal_eq_entries {s : Store} (hu : TypeIdsUnique s) (hn : TypeNamesUnique s)
    {name : String} (hname : name ∈ ["DIZIMO", "OFERTA", "DEPOSITO", "RETIRADA"])
    (branchId month year : Nat) :
    monthlyTotal s branchId (typeMap (archiveTypes s) name) month year =
      ((entriesOfTypeIn s branchId name month year).map fun t => t.amount).sum := by
  unfold monthlyTotal entriesOfTypeIn
  congr 2
  apply List.filter_congr
  intro t _
  have := isSome_typeMap_iff_typeName hu hn hname t.group_type_id
  simp only [decide_eq_decide]
  constructor
  · rintro ⟨a, b, c, d, e⟩
    exact ⟨a, this.mp ⟨b, c⟩, d, e⟩
  · rintro ⟨a, b, d, e⟩
    exact ⟨a, (this.mpr b).1, (this.mpr b).2, d, e⟩

/-- C18. For every monthly archive row written by a successful monthly archive,
`total_dizimos` (respectively `total_ofertas`) equals the sum of the stored
amounts of the entries of the row's branch whose type is `DIZIMO` (respectively
`OFERTA`) and whose timestamp falls in the reference month and year, and is zero
when there is no such entry. The primary keys and the type names are unique. -/
theorem archive_totals_sum_period_entries (s : Store) (user : User) (now : DateTime)
    (fault : Option Nat) (label : String) (s1 : Store)
    (h : monthlyArchive s user now fault = (.archived label, s1)) (hk : s.KeysUnique)
    (hn : TypeNamesUnique s) :
    ∀ r ∈ writtenArchives s s1,
      r.total_dizimos = ((entriesOfTypeIn s r.branch_id "DIZIMO" (referencePeriod now).2
        (referencePeriod now).1).map fun t => t.amount).sum ∧
      r.total_ofertas = ((entriesOfTypeIn s r.branch_id "OFERTA" (referencePeriod now).2
        (referencePeriod now).1).map fun t => t.amount).sum ∧
      (entriesOfTypeIn s r.branch_id "DIZIMO" (referencePeriod now).2
        (referencePeriod now).1 = [] → r.total_dizimos = 0) ∧
      (entriesOfTypeIn s r.branch_id "OFERTA" (referencePeriod now).2
        (referencePeriod now).1 = [] → r.total_ofertas = 0) := by
  obtain ⟨hs1, -, -⟩ := monthlyArchive_archived h
  subst hs1
  rw [writtenArchives_of_run (archiveRun_archiveAll hk now)]
  intro r hr
  obtain ⟨b, -, k, rfl⟩ := archiveRowsFrom_mem s now _ _ r hr
  have hd : (archiveRowOf s now k b).total_dizimos = ((entriesOfTypeIn s b.id "DIZIMO"
      (referencePeriod now).2 (referencePeriod now).1).map fun t => t.amount).sum :=
    monthlyTotal_eq_entries hk.2.2 hn (by simp) _ _ _
  have ho : (archiveRowOf s now k b).total_ofertas = ((entriesOfTypeIn s b.id "OFERTA"
      (referencePeriod now).2 (referencePeriod now).1).map fun t => t.amount).sum :=
    monthlyTotal_eq_entries hk.2.2 hn (by simp) _ _ _
  refine ⟨hd, ho, ?_, ?_⟩
  · intro he
    have he' : entriesOfTypeIn s b.id "DIZIMO" (referencePeriod now).2
        (referencePeriod now).1 = [] := he
    rw [hd, he']
    rfl
  · intro he
    have he' : entriesOfTypeIn s b.id "OFERTA" (referencePeriod now).2
        (referencePeriod now).1 = [] := he
    rw [ho, he']
    rfl

/-- C18, on a store with entries: a run in March 2025 totals the tithes and
offerings of February 2025 per branch, leaving out the other months, years,
branches and types; the branch without offerings gets zero. -/
theorem archive_totals_sum_period_entries_witness :
    referencePeriod midMarch = (2025, 2) ∧
    (writtenArchives titheExample (monthlyArchive titheExample admin midMarch none).2).map
      (fun r => (r.branch_id, r.total_dizimos, r.total_ofertas))
      = [(1, 15000, 2000), (2, 3000, 0)] ∧
    entriesOfTypeIn titheExample 2 "OFERTA" 2 2025 = [] ∧
    ∀ r ∈ writtenArchives titheExample (monthlyArchive titheExample admin midMarch none).2,
      r.total_dizimos = ((entriesOfTypeIn titheExample r.branch_id "DIZIMO"
        (referencePeriod midMarch).2 (referencePeriod midMarch).1).map fun t => t.amount).sum ∧
      r.total_ofertas = ((entriesOfTypeIn titheExample r.branch_id "OFERTA"
        (referencePeriod midMarch).2 (referencePeriod midMarch).1).map fun t => t.amount).sum ∧
      (entriesOfTypeIn titheExample r.branch_id "DIZIMO" (referencePeriod midMarch).2
        (referencePeriod midMarch).1 = [] → r.total_dizimos = 0) ∧
      (entriesOfTypeIn titheExample r.branch_id "OFERTA" (referencePeriod midMarch).2
        (referencePeriod midMarch).1 = [] → r.total_ofertas = 0) :=
  ⟨by decide, by decide, by decide,
   archive_totals_sum_period_entries titheExample admin midMarch none "2025-02" _ (by decide)
     (by decide) (by decide)⟩

theorem archiveKeys_foldl (types : List GroupType) (year month : Nat) (date : DateTime)
    (bs : List Branch) (st : Store) :
    archiveKeys (bs.foldl (archiveBranch types year month date) st) =
      archiveKeys st ++ bs.map fun b => (b.id, toString year ++ "-" ++ pad2 month) := by
  induction bs generalizing st with
  | nil => simp
  | cons b bs ih =>
    rw [List.foldl_cons, ih]
    have h := (archiveBranch_fields types year month date st st b).2.2.2.2.2.1
    unfold archiveKeys
    rw [h]
    simp

theorem archiveKeys_archiveAll (s : Store) (now : DateTime) :
    archiveKeys (archiveAll s now) =
      archiveKeys s ++ (nonAdminBranches s).map fun b => (b.id, periodLabel now) := by
  unfold archiveAll
  exact archiveKeys_foldl _ _ _ now _ s

theorem archiveKeys_new_nodup {s : Store} (hb : (s.branches.map fun b => b.id).Nodup)
    (label : String) : ((nonAdminBranches s).map fun b => (b.id, label)).Nodup := by
  have h1 : ((nonAdminBranches s).map fun b => b.id).Nodup :=
    ((List.filter_sublist _).map _).nodup hb
  have h2 : ((nonAdminBranches s).map fun b => (b.id, label)) =
      ((nonAdminBranches s).map fun b => b.id).map fun i => (i, label) := by
    rw [List.map_map]
    rfl
  rw [h2]
  exact h1.map (fun a b hab => (Prod.mk.inj hab).1)

/-- C20, counterexample. Two successful runs in the same month (15 and 20 March
2025) both archive February 2025: the store then holds two rows for each pair
of a branch and `2025-02`. -/
theorem repeated_archive_duplicates_period :
    (monthlyArchive archiveExample admin midMarch none).1 = .archived "2025-02" ∧
    (monthlyArchive (monthlyArchive archiveExample admin midMarch none).2 admin
      ⟨2025, 3, 20, 0⟩ none).1 = .archived "2025-02" ∧
    archiveKeys (archiveRuns archiveExample
        [⟨admin, midMarch, none⟩, ⟨admin, ⟨2025, 3, 20, 0⟩, none⟩])
      = [(1, "2025-02"), (2, "2025-02"), (1, "2025-02"), (2, "2025-02")] ∧
    ¬ (archiveKeys (archiveRuns archiveExample
        [⟨admin, midMarch, none⟩, ⟨admin, ⟨2025, 3, 20, 0⟩, none⟩])).Nodup := by
  decide

/-- C20, amended. From a store with unique branch identities whose archive rows
have pairwise distinct (branch, month-year) pairs, any sequence of invocations
of the monthly archive whose reference month-years are pairwise distinct and
not archived yet leaves at most one archive row for each (branch, month-year)
pair. -/
theorem distinct_periods_keep_archive_keys_unique (s : Store) (calls : List ArchiveCall)
    (hb : (s.branches.map fun b => b.id).Nodup) (hs : (archiveKeys s).Nodup)
    (hnew : ∀ c ∈ calls, ∀ k ∈ archiveKeys s, k.2 ≠ periodLabel c.now)
    (hd : (calls.map fun c => periodLabel c.now).Nodup) :
    (archiveKeys (archiveRuns s calls)).Nodup := by
  induction calls generalizing s with
  | nil => exact hs
  | cons c rest ih =>
    simp only [List.map_cons, List.nodup_cons, List.mem_map, not_exists, not_and] at hd
    show (archiveKeys (archiveRuns (monthlyArchive s c.user c.now c.fault).2 rest)).Nodup
    rcases monthlyArchive_cases s c.user c.now c.fault with ⟨label, h⟩ | ⟨status, message, h⟩
    · rw [h]
      have hkeys := archiveKeys_archiveAll s c.now
      apply ih
      · rw [(zeroRun_archiveAll s c.now).branches]
        exact hb
      · rw [hkeys]
        refine List.Nodup.append hs (archiveKeys_new_nodup hb _) ?_
        intro k hk1 hk2
        obtain ⟨b, -, rfl⟩ := List.mem_map.mp hk2
        exact hnew c (List.mem_cons_self _ _) _ hk1 rfl
      · intro c1 hc1 k hk
        rw [hkeys] at hk
        rcases List.mem_append.mp hk with hk1 | hk2
        · exact hnew c1 (List.mem_cons_of_mem _ hc1) k hk1
        · obtain ⟨b, -, rfl⟩ := List.mem_map.mp hk2
          exact fun e => hd.1 c1 hc1 e.symm
      · exact hd.2
    · rw [h]
      exact ih s hb hs (fun c1 hc1 => hnew c1 (List.mem_cons_of_mem _ hc1)) hd.2

/-- C20, amended, on the example of the specification: runs for March 2025 and
February 2025, a run by a caller who is not an administrator and a run that
fails leave one row per branch and month. -/
theorem distinct_periods_keep_archive_keys_unique_witness :
    archiveKeys (archiveRuns archiveExample
        [⟨admin, ⟨2025, 4, 2, 0⟩, none⟩, ⟨admin, midMarch, none⟩,
         ⟨member, ⟨2025, 6, 10, 0⟩, none⟩, ⟨admin, ⟨2025, 8, 1, 0⟩, some 0⟩])
      = [(1, "2025-03"), (2, "2025-03"), (1, "2025-02"), (2, "2025-02")] ∧
    (archiveKeys (archiveRuns archiveExample
        [⟨admin, ⟨2025, 4, 2, 0⟩, none⟩, ⟨admin, midMarch, none⟩,
         ⟨member, ⟨2025, 6, 10, 0⟩, none⟩, ⟨admin, ⟨2025, 8, 1, 0⟩, some 0⟩])).Nodup :=
  ⟨by decide,
   distinct_periods_keep_archive_keys_unique archiveExample _ (by decide) (by decide)
     (by decide) (by decide)⟩

theorem step_done (s : Store) (user : User) (body : PostBody) (now : DateTime) (r : Response) :
    PostCall.step s ⟨user, body, now, .done r⟩ = (s, ⟨user, body, now, .done r⟩) := rfl

theorem runAlone_of_done {s s1 : Store} {user : User} {body : PostBody} {now : DateTime}
    {c : PostCall} {r : Response} (h : c.step s = (s1, ⟨user, body, now, .done r⟩)) :
    c.runAlone s = (s1, ⟨user, body, now, .done r⟩) := by
  simp only [PostCall.runAlone, h, step_done]

theorem runAlone_of_done2 {s s1 s2 : Store} {user : User} {body : PostBody} {now : DateTime}
    {c c1 : PostCall} {r : Response} (h1 : c.step s = (s1, c1))
    (h2 : c1.step s1 = (s2, ⟨user, body, now, .done r⟩)) :
    c.runAlone s = (s2, ⟨user, body, now, .done r⟩) := by
  simp only [PostCall.runAlone, h1, h2, step_done]

theorem runAlone_of_done3 {s s1 s2 s3 : Store} {user : User} {body : PostBody} {now : DateTime}
    {c c1 c2 : PostCall} {r : Response} (h1 : c.step s = (s1, c1)) (h2 : c1.step s1 = (s2, c2))
    (h3 : c2.step s2 = (s3, ⟨user, body, now, .done r⟩)) :
    c.runAlone s = (s3, ⟨user, body, now, .done r⟩) := by
  simp only [PostCall.runAlone, h1, h2, h3, step_done]

theorem runAlone_of_done4 {s s1 s2 s3 s4 : Store} {user : User} {body : PostBody}
    {now : DateTime} {c c1 c2 c3 : PostCall} {r : Response} (h1 : c.step s = (s1, c1))
    (h2 : c1.step s1 = (s2, c2)) (h3 : c2.step s2 = (s3, c3))
    (h4 : c3.step s3 = (s4, ⟨user, body, now, .done r⟩)) :
    c.runAlone s = (s4, ⟨user, body, now, .done r⟩) := by
  simp only [PostCall.runAlone, h1, h2, h3, h4, step_done]

theorem runAlone_of_done5 {s s1 s2 s3 s4 s5 : Store} {c c1 c2 c3 c4 c5 : PostCall}
    (h1 : c.step s = (s1, c1)) (h2 : c1.step s1 = (s2, c2)) (h3 : c2.step s2 = (s3, c3))
    (h4 : c3.step s3 = (s4, c4)) (h5 : c4.step s4 = (s5, c5)) :
    c.runAlone s = (s5, c5) := by
  simp only [PostCall.runAlone, h1, h2, h3, h4, h5]

theorem runAlone_eq_postTransactions (s : Store) (user : User) (body : PostBody)
    (now : DateTime) :
    (PostCall.new user body now).runAlone s =
      ((postTransactions s user body now none).2,
       ⟨user, body, now, .done (postTransactions s user body now none).1⟩) := by
  unfold postTransactions PostCall.new
  by_cases h1 : body.type = "" ∨ body.amount.truthy = false ∨ body.person_name = ""
  · rw [if_pos h1]
    exact runAlone_of_done (by simp only [PostCall.step, if_pos h1])
  · rw [if_neg h1]
    simp only [reduceCtorEq, if_false]
    have e1 : PostCall.step s ⟨user, body, now, .start⟩ =
        (match s.congregation_groups.filter
            (fun g => g.name = "Caixa Geral" ∧ g.branch_id = user.id) with
         | [] => (s, ⟨user, body, now, .done (.error 500 "Caixa Geral não configurado")⟩)
         | caixaGeral :: _ => (s, ⟨user, body, now, .gotCaixaGeral caixaGeral⟩)) := by
      simp only [PostCall.step, if_neg h1]
    cases hcg : s.congregation_groups.filter
        (fun g => g.name = "Caixa Geral" ∧ g.branch_id = user.id) with
    | nil =>
      rw [hcg] at e1
      exact runAlone_of_done e1
    | cons cg rest =>
      rw [hcg] at e1
      simp only at e1 ⊢
      by_cases h2 : body.type ∈ validTypes
      · simp only [h2, not_true_eq_false, if_false]
        have e2 : PostCall.step s ⟨user, body, now, .gotCaixaGeral cg⟩ =
            (match s.group_types.filter (fun t => t.name = body.type) with
             | [] => (s, ⟨user, body, now, .done (.error 400 "Tipo não registrado")⟩)
             | groupType :: _ => (s, ⟨user, body, now, .gotGroupType cg groupType.id⟩)) := by
          simp only [PostCall.step, h2, not_true_eq_false, if_false]
        cases hgt : s.group_types.filter (fun t => t.name = body.type) with
        | nil =>
          rw [hgt] at e2
          exact runAlone_of_done2 e1 e2
        | cons gt rest2 =>
          rw [hgt] at e2
          simp only at e2 ⊢
          cases htp : targetAndPrevious s user body cg none with
          | error r =>
            exact runAlone_of_done3 e1 e2 (by simp only [PostCall.step, htp])
          | ok tp =>
            obtain ⟨tg, prev⟩ := tp
            have e3 : PostCall.step s ⟨user, body, now, .gotGroupType cg gt.id⟩ =
                (s, ⟨user, body, now, .resolved gt.id tg prev⟩) := by
              simp only [PostCall.step, htp]
            simp only [settle, reduceCtorEq, if_false]
            by_cases h3 : body.amount.parsed.isNaN = true
            · rw [if_pos h3]
              exact runAlone_of_done4 e1 e2 e3 (by simp only [PostCall.step, if_pos h3])
            · rw [if_neg h3]
              by_cases h4 : (newBalance body.type prev body.amount.parsed.toFixed2).ltZero = true
              · rw [if_pos h4]
                exact runAlone_of_done4 e1 e2 e3
                  (by simp only [PostCall.step, if_neg h3, if_pos h4])
              · rw [if_neg h4]
                cases ha : body.amount.parsed.toFixed2.toCents with
                | none =>
                  exact runAlone_of_done4 e1 e2 e3
                    (by simp only [PostCall.step, if_neg h3, if_neg h4, ha])
                | some a =>
                  cases hp : prev.toCents with
                  | none =>
                    exact runAlone_of_done4 e1 e2 e3
                      (by simp only [PostCall.step, if_neg h3, if_neg h4, ha, hp])
                  | some p =>
                    cases hn : (newBalance body.type prev
                        body.amount.parsed.toFixed2).toCents with
                    | none =>
                      exact runAlone_of_done4 e1 e2 e3
                        (by simp only [PostCall.step, if_neg h3, if_neg h4, ha, hp, hn])
                    | some n =>
                      have e4 : PostCall.step s ⟨user, body, now, .resolved gt.id tg prev⟩ =
                          ({ s with
                              transactions := s.transactions ++
                                [postedRow s user body now gt.id tg a p n]
                              next_transaction_id := s.next_transaction_id + 1 },
                           ⟨user, body, now,
                            .inserted (postedRow s user body now gt.id tg a p n).id tg p n⟩) := by
                        simp only [PostCall.step, if_neg h3, if_neg h4, ha, hp, hn]
                      exact runAlone_of_done5 e1 e2 e3 e4 rfl
      · simp only [h2, not_false_eq_true, if_true]
        exact runAlone_of_done2 e1 (by simp only [PostCall.step, h2, not_false_eq_true, if_true])

/-- C26, failing input. Two deposits of 50.00 and 30.00 on the fund `Jovens`
(100.00) whose requests both run their reads before either writes: both are
answered 201 with previous balance 100.00, both entries record
`previous_balance` 100.00, and the fund ends at 130.00, the first deposit's
balance write being overwritten. Run one after the other, the second entry's
`previous_balance` is the first's `new_balance` and the fund ends at 180.00. -/
theorem racing_posts_read_same_previous_balance :
    (interleave exampleStore (PostCall.new member depositBody noon)
      (PostCall.new member secondDepositBody noon) racingSchedule).2.1.phase
      = .done (.created 1 15000 10000 "DEPOSITO" (some 2)) ∧
    (interleave exampleStore (PostCall.new member depositBody noon)
      (PostCall.new member secondDepositBody noon) racingSchedule).2.2.phase
      = .done (.created 2 13000 10000 "DEPOSITO" (some 2)) ∧
    (interleave exampleStore (PostCall.new member depositBody noon)
      (PostCall.new member secondDepositBody noon) racingSchedule).1.transactions.map
      (fun t => (t.amount, t.previous_balance, t.new_balance))
      = [(5000, 10000, 15000), (3000, 10000, 13000)] ∧
    balanceOf (interleave exampleStore (PostCall.new member depositBody noon)
      (PostCall.new member secondDepositBody noon) racingSchedule).1 2 = some 13000 ∧
    (interleave exampleStore (PostCall.new member depositBody noon)
      (PostCall.new member secondDepositBody noon) serialSchedule).1.transactions.map
      (fun t => (t.amount, t.previous_balance, t.new_balance))
      = [(5000, 10000, 15000), (3000, 15000, 18000)] ∧
    balanceOf (interleave exampleStore (PostCall.new member depositBody noon)
      (PostCall.new member secondDepositBody noon) serialSchedule).1 2 = some 18000 := by
  decide

/-- C27, failing input. A caller of branch 1 who is not an administrator posts
an entry of type `OUTROS` of 1.00 naming the fund `Obras` (id 4) of branch 2,
which holds 500.00: the call is answered 201 and the fund of branch 2 is left
at 1.00. -/
theorem other_type_overwrites_foreign_fund :
    member.isAdmin = false ∧ member.id = 1 ∧
    (groupById twoBranchStore (some 4)).map (fun g => (g.branch_id, g.current_balance))
      = some (2, 50000) ∧
    (postTransactions twoBranchStore member foreignOthersBody noon none).1
      = .created 2 100 0 "OUTROS" (some 4) ∧
    (groupById (postTransactions twoBranchStore member foreignOthersBody noon none).2
      (some 4)).map (fun g => (g.branch_id, g.current_balance)) = some (2, 100) ∧
    (postTransactions twoBranchStore member
      { foreignOthersBody with type := "DEPOSITO" } noon none)
      = (.error 403 "Grupo não autorizado", twoBranchStore) := by
  decide

/-- C28, failing input. The handler of Update Entry never consults the caller:
the update of entry 1, an entry of branch 2 on the fund `Obras` (id 4) of branch
2, to 1.00 is answered with success for whoever sends it, rewrites the entry
and takes the fund of branch 2 from 500.00 to 1.00. -/
theorem update_entry_reaches_foreign_branch :
    (transactionById twoBranchStore 1).map (fun t => (t.branch_id, t.group_id, t.amount))
      = some (2, some 4, 50000) ∧
    (groupById twoBranchStore (some 4)).map (fun g => (g.branch_id, g.current_balance))
      = some (2, 50000) ∧
    (putTransactions twoBranchStore 1 ⟨⟨true, .fin 100 2⟩, some "x", "Ana"⟩ none).1
      = .success ∧
    (transactionById (putTransactions twoBranchStore 1
      ⟨⟨true, .fin 100 2⟩, some "x", "Ana"⟩ none).2 1).map
      (fun t => (t.branch_id, t.group_id, t.amount, t.person_name))
      = some (2, some 4, 100, "Ana") ∧
    (groupById (putTransactions twoBranchStore 1
      ⟨⟨true, .fin 100 2⟩, some "x", "Ana"⟩ none).2 (some 4)).map
      (fun g => (g.branch_id, g.current_balance)) = some (2, 100) := by
  decide

theorem initializeGeneralCash_present (s : Store) (b : Nat) (hb : b ≠ 0) (t : GroupType)
    (ts : List GroupType) (g : Group) (gs : List Group)
    (ht : s.group_types.filter (fun t => t.name = "Caixa Geral") = t :: ts)
    (hg : generalCashFunds s b = g :: gs) :
    initializeGeneralCash s b none = s := by
  unfold generalCashFunds at hg
  unfold initializeGeneralCash
  simp only [if_neg hb, reduceCtorEq, if_false, ht, hg]

theorem initializeGeneralCash_cases (s : Store) (b : Nat) (hb : b ≠ 0) :
    ∃ types next, (types.filter (fun t => t.name = "Caixa Geral")) ≠ [] ∧
      ((∃ g gs, generalCashFunds s b = g :: gs ∧
          initializeGeneralCash s b none =
            { s with group_types := types, next_group_type_id := next }) ∨
       (∃ k, generalCashFunds s b = [] ∧
          initializeGeneralCash s b none =
            { s with group_types := types, next_group_type_id := next
                     congregation_groups := s.congregation_groups ++
                       [⟨s.next_group_id, "Caixa Geral", b, k, 0, true⟩]
                     next_group_id := s.next_group_id + 1 })) := by
  unfold generalCashFunds initializeGeneralCash
  simp only [if_neg hb, reduceCtorEq, if_false]
  cases ht : s.group_types.filter (fun t => t.name = "Caixa Geral") with
  | nil =>
    refine ⟨s.group_types ++ [⟨s.next_group_type_id, "Caixa Geral"⟩], s.next_group_type_id + 1,
      by simp [List.filter_append], ?_⟩
    cases hg : s.congregation_groups.filter
        (fun g => g.name = "Caixa Geral" ∧ g.branch_id = b) with
    | nil => exact Or.inr ⟨s.next_group_type_id, rfl, by simp only [hg]⟩
    | cons g gs => exact Or.inl ⟨g, gs, rfl, by simp only [hg]⟩
  | cons t ts =>
    refine ⟨s.group_types, s.next_group_type_id, by simp [ht], ?_⟩
    cases hg : s.congregation_groups.filter
        (fun g => g.name = "Caixa Geral" ∧ g.branch_id = b) with
    | nil => exact Or.inr ⟨t.id, rfl, by simp only [hg]⟩
    | cons g gs => exact Or.inl ⟨g, gs, rfl, by simp only [hg]⟩

/-- C24. For every branch (with a truthy identity) that owns at most one fund
named `Caixa Geral`, after `initializeGeneralCash` the branch owns exactly one
such fund: when it was absent the fund is created with balance 0 and the system
flag set, when it was present every fund row, its balance included, is left as
it was. A second call for the same branch changes nothing in the store. No
store statement raises. -/
theorem general_cash_initialised_once (s : Store) (b : Nat) (hb : b ≠ 0)
    (hone : (generalCashFunds s b).length ≤ 1) :
    (generalCashFunds (initializeGeneralCash s b none) b).length = 1 ∧
    (generalCashFunds s b = [] →
      ∃ g, generalCashFunds (initializeGeneralCash s b none) b = [g] ∧
        g.current_balance = 0 ∧ g.is_system = true ∧
        (initializeGeneralCash s b none).congregation_groups = s.congregation_groups ++ [g]) ∧
    (generalCashFunds s b ≠ [] →
      (initializeGeneralCash s b none).congregation_groups = s.congregation_groups) ∧
    initializeGeneralCash (initializeGeneralCash s b none) b none
      = initializeGeneralCash s b none := by
  obtain ⟨types, next, htypes, hcase⟩ := initializeGeneralCash_cases s b hb
  obtain ⟨t, ts, ht⟩ := List.exists_cons_of_ne_nil htypes
  rcases hcase with ⟨g, gs, hg, hrun⟩ | ⟨k, hg, hrun⟩
  · have hgs : gs = [] := by
      rw [hg] at hone
      simpa using hone
    subst hgs
    rw [hrun]
    have hfunds : generalCashFunds
        { s with group_types := types, next_group_type_id := next } b = [g] := hg
    refine ⟨by rw [hfunds]; rfl, ?_, fun _ => rfl, ?_⟩
    · intro hnil
      rw [hnil] at hg
      simp at hg
    · exact initializeGeneralCash_present _ b hb t ts g [] ht hfunds
  · rw [hrun]
    have hfunds : generalCashFunds
        { s with group_types := types, next_group_type_id := next
                 congregation_groups := s.congregation_groups ++
                   [⟨s.next_group_id, "Caixa Geral", b, k, 0, true⟩]
                 next_group_id := s.next_group_id + 1 } b
        = [⟨s.next_group_id, "Caixa Geral", b, k, 0, true⟩] := by
      unfold generalCashFunds at hg ⊢
      simp only [List.filter_append, hg]
      simp
    refine ⟨by rw [hfunds]; rfl, fun _ => ⟨_, hfunds, rfl, rfl, rfl⟩, ?_, ?_⟩
    · intro hne
      exact absurd hg hne
    · exact initializeGeneralCash_present _ b hb t ts _ [] ht hfunds

/-- C24, on a store where branch 2 has no general-cash fund and the type row is
missing: the first login creates the type (id 6) and the fund (id 2, balance 0,
system flag set), the second changes nothing; branch 1 of the example store
keeps its general-cash fund as it is. -/
theorem general_cash_initialised_once_witness :
    generalCashFunds loginStore 2 = [] ∧
    generalCashFunds (initializeGeneralCash loginStore 2 none) 2
      = [⟨2, "Caixa Geral", 2, 6, 0, true⟩] ∧
    initializeGeneralCash archiveExample 1 none = archiveExample ∧
    (generalCashFunds (initializeGeneralCash loginStore 2 none) 2).length = 1 ∧
    initializeGeneralCash (initializeGeneralCash loginStore 2 none) 2 none
      = initializeGeneralCash loginStore 2 none :=
  ⟨by decide, by decide, by decide,
   (general_cash_initialised_once loginStore 2 (by decide) (by decide)).1,
   (general_cash_initialised_once loginStore 2 (by decide) (by decide)).2.2.2⟩

theorem archiveRowsFrom_ids (s : Store) (now : DateTime) (n : Nat) (bs : List Branch) :
    (∀ a ∈ archiveRowsFrom s now n bs, n ≤ a.id ∧ a.id < n + bs.length) ∧
    ∀ a ∈ archiveRowsFrom s now n bs, ∀ a1 ∈ archiveRowsFrom s now n bs,
      a1.id = a.id → a1 = a := by
  induction bs generalizing n with
  | nil => simp [archiveRowsFrom]
  | cons b bs ih =>
    obtain ⟨ih1, ih2⟩ := ih (n + 1)
    have hhead : (archiveRowOf s now n b).id = n := rfl
    constructor
    · intro a ha
      simp only [archiveRowsFrom, List.mem_cons] at ha
      rcases ha with rfl | ha
      · rw [hhead, List.length_cons]
        omega
      · have := ih1 a ha
        rw [List.length_cons]
        omega
    · intro a ha a1 ha1 hid
      simp only [archiveRowsFrom, List.mem_cons] at ha ha1
      rcases ha with rfl | ha <;> rcases ha1 with rfl | ha1
      · rfl
      · have := (ih1 a1 ha1).1
        rw [hid, hhead] at this
        omega
      · have := (ih1 a ha).1
        rw [← hid, hhead] at this
        omega
      · exact ih2 a ha a1 ha1 hid

theorem fundArchiveRowsFrom_link (s : Store) (now : DateTime) (n : Nat) (bs : List Branch) :
    ∀ r ∈ fundArchiveRowsFrom s n bs, ∃ b ∈ bs, ∃ g ∈ fundsOf s b.id, ∃ k,
      r = ⟨some k, g.id, g.name, g.current_balance, g.current_balance⟩ ∧
      archiveRowOf s now k b ∈ archiveRowsFrom s now n bs := by
  induction bs generalizing n with
  | nil => simp [fundArchiveRowsFrom]
  | cons b bs ih =>
    intro r hr
    simp only [fundArchiveRowsFrom, List.mem_append] at hr
    rcases hr with h | h
    · simp only [fundArchiveRowsOf, List.mem_map] at h
      obtain ⟨g, hg, rfl⟩ := h
      exact ⟨b, List.mem_cons_self _ _, g, hg, n, rfl, List.mem_cons_self _ _⟩
    · obtain ⟨b1, hb1, g, hg, k, hr, hrow⟩ := ih (n + 1) r h
      exact ⟨b1, List.mem_cons_of_mem _ hb1, g, hg, k, hr, List.mem_cons_of_mem _ hrow⟩

theorem backfilled_of_linked {l old : List MonthlyGroupArchive}
    (h : List.Forall₂ Backfilled l old) (hl : ∀ r ∈ l, r.archive_id ≠ none) : old = l := by
  induction h with
  | nil => rfl
  | @cons r r1 l1 old1 hr _ ih =>
    have hr1 : r1 = r := by
      rcases hr with e | ⟨hnone, -⟩
      · exact e
      · exact absurd hnone (hl r (List.mem_cons_self _ _))
    rw [hr1, ih (fun x hx => hl x (List.mem_cons_of_mem _ hx))]

/-- C21. After a successful monthly archive on a store whose fund archive rows
all carry an archive reference, no fund archive row has an empty reference, the
rows that existed before the run are as they were, and each row written by the
run references the archive row written in this run for the branch that owns the
row's fund, which is the only archive row with that identity. The primary keys
are unique and the archive identities lie below the auto-increment counter,
before the run and after it. -/
theorem archive_links_fund_rows (s : Store) (user : User) (now : DateTime)
    (fault : Option Nat) (label : String) (s1 : Store)
    (h : monthlyArchive s user now fault = (.archived label, s1)) (hk : s.KeysUnique)
    (hids : ∀ a ∈ s.monthly_archives, a.id < s.next_archive_id)
    (hnull : ∀ r ∈ s.monthly_group_archives, r.archive_id ≠ none) :
    (∀ r ∈ s1.monthly_group_archives, r.archive_id ≠ none) ∧
    s1.monthly_group_archives = s.monthly_group_archives ++ writtenFundArchives s s1 ∧
    (∀ r ∈ writtenFundArchives s s1,
      ∃ g ∈ s.congregation_groups, ∃ a ∈ writtenArchives s s1,
        r.group_id = g.id ∧ (∀ g1 ∈ s.congregation_groups, g1.id = r.group_id → g1 = g) ∧
        a.branch_id = g.branch_id ∧ r.archive_id = some a.id ∧
        ∀ a1 ∈ s1.monthly_archives, a1.id = a.id → a1 = a) ∧
    ∀ a ∈ s1.monthly_archives, a.id < s1.next_archive_id := by
  obtain ⟨hs1, -, -⟩ := monthlyArchive_archived h
  subst hs1
  have hrun := archiveRun_archiveAll hk now
  have hwritten := writtenFundArchives_of_run hrun
  have hwrittenA := writtenArchives_of_run hrun
  obtain ⟨old, hmga, hold⟩ := hrun.fundArchives
  have hold' := backfilled_of_linked hold hnull
  subst hold'
  obtain ⟨hrange, hinj⟩ := archiveRowsFrom_ids s now s.next_archive_id (nonAdminBranches s)
  refine ⟨?_, ?_, ?_, ?_⟩
  · intro r hr
    rw [hmga] at hr
    rcases List.mem_append.mp hr with h1 | h1
    · exact hnull r h1
    · exact fundArchiveRowsFrom_linked s _ _ r h1
  · rw [hwritten, hmga]
  · rw [hwritten, hwrittenA]
    intro r hr
    obtain ⟨b, -, g, hg, k, rfl, hrow⟩ := fundArchiveRowsFrom_link s now _ _ r hr
    obtain ⟨hgm, hbr⟩ := List.mem_filter.mp hg
    have hbr' : g.branch_id = b.id := by simpa using hbr
    refine ⟨g, hgm, archiveRowOf s now k b, hrow, rfl, ?_, hbr'.symm, rfl, ?_⟩
    · intro g1 hg1 hid
      exact List.inj_on_of_nodup_map hk.2.1 hg1 hgm hid
    · intro a1 ha1 hid
      rw [hrun.archives] at ha1
      rcases List.mem_append.mp ha1 with h1 | h1
      · have hlt := hids a1 h1
        have hge := (hrange _ hrow).1
        rw [hid] at hlt
        omega
      · exact hinj _ hrow a1 h1 hid
  · intro a ha
    rw [hrun.archives] at ha
    rw [hrun.next_archive_id]
    rcases List.mem_append.mp ha with h1 | h1
    · have := hids a h1
      omega
    · exact (hrange a h1).2

/-- C21, on the example of the specification archived in March 2025 and again in
April 2025: the second run leaves the four rows of the first run linked to the
archives 1 and 2 and links its own four rows to the archives 3 and 4 it
writes for the branches 1 and 2. -/
theorem archive_links_fund_rows_witness :
    archivedOnce.monthly_group_archives.map (fun r => (r.group_id, r.archive_id))
      = [(1, some 1), (2, some 1), (3, some 1), (4, some 2)] ∧
    (monthlyArchive archivedOnce admin midApril none).2.monthly_group_archives.map
      (fun r => (r.group_id, r.archive_id))
      = [(1, some 1), (2, some 1), (3, some 1), (4, some 2),
         (1, some 3), (2, some 3), (3, some 3), (4, some 4)] ∧
    (writtenArchives archivedOnce (monthlyArchive archivedOnce admin midApril none).2).map
      (fun a => (a.id, a.branch_id)) = [(3, 1), (4, 2)] ∧
    ∀ r ∈ (monthlyArchive archivedOnce admin midApril none).2.monthly_group_archives,
      r.archive_id ≠ none :=
  ⟨by decide, by decide, by decide,
   (archive_links_fund_rows archivedOnce admin midApril none "2025-03" _ (by decide) (by decide)
     (by decide) (by decide)).1⟩

theorem resetAllGroups_none (s : Store) (user : User) (branchId : Nat) (now : DateTime) :
    resetAllGroups s user branchId now none =
      if user.isAdmin = true then
        (.success, (fundsOf s branchId).foldl
          (zeroGroup (resetTypes s) "Zeramento administrativo" branchId now) s)
      else (.error 403 "Acesso não autorizado", s) := by
  unfold resetAllGroups
  cases hadm : user.isAdmin
  · simp
  · simp only [Bool.not_true, Bool.false_eq_true, if_false, if_true, resetLoop_eq_foldl]
    rfl

theorem resetAllGroups_success {s : Store} {user : User} {branchId : Nat} {now : DateTime}
    {fault : Option Nat} {s1 : Store}
    (h : resetAllGroups s user branchId now fault = (.success, s1)) :
    s1 = (fundsOf s branchId).foldl
      (zeroGroup (resetTypes s) "Zeramento administrativo" branchId now) s := by
  rcases resetAllGroups_cases s user branchId now fault with hc | ⟨status, message, hc⟩
  · rw [hc] at h
    exact (Prod.mk.inj h).2.symm
  · rw [hc] at h
    simp at h

theorem zeroingRows_filter {s : Store} (hg : (s.congregation_groups.map fun g => g.id).Nodup)
    (types : List GroupType) (description : String) (b : Nat) (now : DateTime) {g : Group}
    (hmem : g ∈ s.congregation_groups) :
    (((fundsOf s b).filter fun g => g.current_balance ≠ 0).map
        (fun g => balancingRow types s g description b now)).filter
        (fun t => t.group_id = some g.id) =
      if g.branch_id = b ∧ g.current_balance ≠ 0 then
        [balancingRow types s g description b now]
      else [] := by
  have hinner : ((fundsOf s b).filter fun g => g.current_balance ≠ 0)
      = s.congregation_groups.filter
        (fun a => decide (a.current_balance ≠ 0) && decide (a.branch_id = b)) :=
    List.filter_filter _ _
  rw [hinner, List.filter_map]
  have hcomp : ((fun t : Transaction => decide (t.group_id = some g.id)) ∘
      fun g => balancingRow types s g description b now)
      = fun x : Group => decide (x.id = g.id) := by
    funext x
    simp [balancingRow]
  rw [hcomp, filter_key_of_nodup (fun x : Group => x.id) _ hg hmem]
  by_cases hc : g.branch_id = b ∧ g.current_balance ≠ 0
  · simp [hc.1, hc.2]
  · rw [if_neg hc]
    have : ¬ ((decide (g.current_balance ≠ 0) && decide (g.branch_id = b)) = true) := by
      simp only [Bool.and_eq_true, decide_eq_true_eq]
      exact fun h => hc ⟨h.2, h.1⟩
    rw [if_neg this]
    rfl

theorem foldl_zeroGroup_of_zero (types : List GroupType) (description : String) (b : Nat)
    (now : DateTime) (gs : List Group) (st : Store) (hz : ∀ g ∈ gs, g.current_balance = 0) :
    gs.foldl (zeroGroup types description b now) st = st := by
  induction gs generalizing st with
  | nil => rfl
  | cons g gs ih =>
    have h0 : zeroGroup types description b now st g = st := by
      unfold zeroGroup
      rw [if_pos (hz g (List.mem_cons_self _ _))]
    rw [List.foldl_cons, h0]
    exact ih st fun x hx => hz x (List.mem_cons_of_mem _ hx)

theorem reset_leaves_branch_at_zero (s : Store) (types : List GroupType) (b : Nat)
    (now : DateTime) :
    ∀ g ∈ ((fundsOf s b).foldl (zeroGroup types "Zeramento administrativo" b now)
        s).congregation_groups,
      g.branch_id = b → g.current_balance = 0 := by
  have hz := zeroRun_reset s types b now
  obtain ⟨Z, hZ, -, hcover⟩ := hz.groups
  intro g hg hb
  unfold fundsOf at hg
  rw [hZ] at hg
  obtain ⟨g0, hg0, -, hbr, hbal⟩ := mem_zeroed hg
  rcases hcover g0 hg0 (by rw [← hbr, hb]; simp) with hin | hzero
  · rw [hbal, if_pos hin]
  · rw [hbal]
    split
    · rfl
    · exact hzero

/-- C22. Zeroing is a no-op on zero balances: the administrative reset of a
branch creates no entry for a fund of the branch whose cached balance is 0 and
leaves that balance at 0, whatever the outcome of the call; and a reset run
twice in succession leaves the store, with its entries and balances, as the
first run left it. The fund identities are unique. -/
theorem reset_skips_zero_funds (s : Store) (user : User) (branchId : Nat) (now later : DateTime)
    (hg : (s.congregation_groups.map fun g => g.id).Nodup) :
    (∀ fault, ∀ g ∈ s.congregation_groups, g.branch_id = branchId → g.current_balance = 0 →
      (writtenEntries s (resetAllGroups s user branchId now fault).2).filter
          (fun t => t.group_id = some g.id) = [] ∧
      balanceOf (resetAllGroups s user branchId now fault).2 g.id = some 0) ∧
    (resetAllGroups (resetAllGroups s user branchId now none).2 user branchId later none).2
      = (resetAllGroups s user branchId now none).2 := by
  constructor
  · intro fault g hmem hbr hzero
    have hlookup : groupById s (some g.id) = some g := by
      unfold groupById
      have := filter_key_of_nodup (fun x : Group => x.id) (fun _ => true) hg hmem
      simp only [List.filter_true, ↓reduceIte] at this
      have hpred : (fun x : Group => decide (some x.id = some g.id))
          = fun x : Group => decide (x.id = g.id) := by
        funext x
        simp
      rw [hpred, this]
      rfl
    rcases resetAllGroups_cases s user branchId now fault with hc | ⟨status, message, hc⟩
    · rw [hc]
      obtain ⟨extra, htx, herased⟩ := foldl_zeroGroup_erased
        (s.group_types.filter fun t => t.name ∈ ["RETIRADA", "DEPOSITO"])
        "Zeramento administrativo" branchId now s (fundsOf s branchId) s
      have hfields := (foldl_zeroGroup_fields
        (s.group_types.filter fun t => t.name ∈ ["RETIRADA", "DEPOSITO"])
        "Zeramento administrativo" branchId now (fundsOf s branchId) s).2.2
      constructor
      · show (writtenEntries s ((fundsOf s branchId).foldl _ s)).filter _ = []
        rw [writtenEntries_append htx]
        have h1 := filter_erased extra _ herased g.id
        rw [zeroingRows_filter hg _ _ _ _ hmem, if_neg (fun h => h.2 hzero)] at h1
        simpa using h1
      · show balanceOf ((fundsOf s branchId).foldl _ s) g.id = some 0
        unfold balanceOf
        rw [groupById_map _ (by intro x; split <;> rfl) s _ hfields, hlookup]
        simp only [Option.map_some']
        split
        · rfl
        · exact congrArg some hzero
    · rw [hc]
      constructor
      · simp [writtenEntries]
      · unfold balanceOf
        rw [hlookup]
        exact congrArg some hzero
  · rw [resetAllGroups_none s user branchId now]
    cases hadm : user.isAdmin
    · simp only [Bool.false_eq_true, if_false]
      rw [resetAllGroups_none, hadm]
      rfl
    · simp only [if_true]
      rw [resetAllGroups_none, hadm]
      simp only [if_true]
      apply foldl_zeroGroup_of_zero
      intro g hgm
      obtain ⟨hgm1, hbr⟩ := List.mem_filter.mp hgm
      exact reset_leaves_branch_at_zero s _ branchId now g hgm1 (by simpa using hbr)

/-- C22, on the example of the specification: the first reset of branch 1 posts
three entries and brings the funds to zero, the second posts nothing and leaves
the store as it is; the reset of branch 2, whose only fund is at zero, changes
nothing at all. -/
theorem reset_skips_zero_funds_witness :
    (resetAllGroups archiveExample admin 1 noon none).2.transactions.length = 3 ∧
    (resetAllGroups archiveExample admin 2 noon none).2 = archiveExample ∧
    (resetAllGroups (resetAllGroups archiveExample admin 1 noon none).2 admin 1 midMarch none).2
      = (resetAllGroups archiveExample admin 1 noon none).2 :=
  ⟨by decide, by decide,
   (reset_skips_zero_funds archiveExample admin 1 noon midMarch (by decide)).2⟩

theorem typeMap_filter (l : List GroupType) (names : List String) (n : String)
    (hn : n ∈ names) : typeMap (l.filter fun t => t.name ∈ names) n = typeMap l n := by
  unfold typeMap
  rw [List.filter_filter]
  congr 2
  apply List.filter_congr
  intro t _
  by_cases ht : t.name = n
  · simp [ht, hn]
  · simp [ht]

theorem entryFacts_balancingRow (types1 types2 : List GroupType) (st1 st2 : Store) (g : Group)
    (d1 d2 : String) (b : Nat) (date : DateTime)
    (hret : typeMap types1 "RETIRADA" = typeMap types2 "RETIRADA")
    (hdep : typeMap types1 "DEPOSITO" = typeMap types2 "DEPOSITO") :
    entryFacts (balancingRow types1 st1 g d1 b date)
      = entryFacts (balancingRow types2 st2 g d2 b date) := by
  unfold entryFacts balancingRow
  by_cases hpos : g.current_balance > 0
  · simp only [hpos, if_true, hret]
  · simp only [hpos, if_false, hdep]

theorem map_entryFacts_erased (x : List Transaction) :
    x.map entryFacts = (x.map eraseId).map entryFacts := by
  rw [List.map_map]
  rfl

/-- C23, counterexample. On the example of the specification the reset of
branch 1 and the monthly archive post balancing entries on the same funds, but
the reset's carry the description `Zeramento administrativo` and the
archive's `Ajuste mensal - Zeramento`. -/
theorem reset_entries_carry_other_description :
    (resetAllGroups archiveExample admin 1 noon none).1 = .success ∧
    (writtenEntries archiveExample (resetAllGroups archiveExample admin 1 noon none).2).map
      (fun t => (t.group_id, t.description))
      = [(some 1, some "Zeramento administrativo"), (some 2, some "Zeramento administrativo"),
         (some 3, some "Zeramento administrativo")] ∧
    ((writtenEntries archiveExample (monthlyArchive archiveExample admin noon none).2).filter
      (fun t => t.branch_id = 1)).map (fun t => (t.group_id, t.description))
      = [(some 1, some "Ajuste mensal - Zeramento"), (some 2, some "Ajuste mensal - Zeramento"),
         (some 3, some "Ajuste mensal - Zeramento")] := by
  decide

/-- C23, amended. A successful administrative reset of a branch writes no
monthly archive row and no monthly fund archive row, leaves the fund balances
as the archive's loop body for that branch leaves them from the same state, and
posts balancing entries with the same fund, type, amount, person, previous
balance and new balance as that loop body posts; the descriptions differ:
`Zeramento administrativo` for the reset, `Ajuste mensal - Zeramento` for the
archive. -/
theorem reset_matches_archive_zeroing (s : Store) (user : User) (b : Branch) (now : DateTime)
    (fault : Option Nat) (s1 : Store) (year month : Nat)
    (h : resetAllGroups s user b.id now fault = (.success, s1)) :
    s1.monthly_archives = s.monthly_archives ∧
    s1.monthly_group_archives = s.monthly_group_archives ∧
    s1.congregation_groups
      = (archiveBranch (archiveTypes s) year month now s b).congregation_groups ∧
    (writtenEntries s s1).map entryFacts
      = (writtenEntries s (archiveBranch (archiveTypes s) year month now s b)).map entryFacts ∧
    (∀ t ∈ writtenEntries s s1, t.description = some "Zeramento administrativo") ∧
    (∀ t ∈ writtenEntries s (archiveBranch (archiveTypes s) year month now s b),
      t.description = some "Ajuste mensal - Zeramento") := by
  have hs1 := resetAllGroups_success h
  subst hs1
  have hframe := foldl_zeroGroup_frame (resetTypes s) "Zeramento administrativo" b.id now
    (fundsOf s b.id) s
  have hfields := (foldl_zeroGroup_fields (resetTypes s) "Zeramento administrativo" b.id now
    (fundsOf s b.id) s).2.2
  obtain ⟨x1, htx1, herased1⟩ := foldl_zeroGroup_erased (resetTypes s)
    "Zeramento administrativo" b.id now s (fundsOf s b.id) s
  have harch := archiveBranch_fields (archiveTypes s) year month now s s b
  obtain ⟨x2, htx2, herased2⟩ := harch.2.2.2.1
  obtain ⟨y1, hty1, hdesc1⟩ := foldl_zeroGroup_transactions (resetTypes s)
    "Zeramento administrativo" b.id now (fun t => t.description = some "Zeramento administrativo")
    (fundsOf s b.id) (fun _ _ _ _ => rfl) s
  obtain ⟨y2, hty2, hdesc2⟩ := archiveBranch_transactions (archiveTypes s) year month now
    (fun t => t.description = some "Ajuste mensal - Zeramento") s b (fun _ _ _ _ => rfl)
  refine ⟨hframe.1, hframe.2.1, ?_, ?_, ?_, ?_⟩
  · rw [hfields, harch.2.2.1]
    rfl
  · rw [writtenEntries_append htx1, writtenEntries_append htx2, map_entryFacts_erased x1,
      map_entryFacts_erased x2, herased1, herased2, ← map_entryFacts_erased,
      ← map_entryFacts_erased, List.map_map, List.map_map]
    apply List.map_congr_left
    intro g _
    exact entryFacts_balancingRow _ _ _ _ g _ _ b.id now
      ((typeMap_filter _ _ _ (by simp)).trans (typeMap_filter _ _ _ (by simp)).symm)
      ((typeMap_filter _ _ _ (by simp)).trans (typeMap_filter _ _ _ (by simp)).symm)
  · rw [writtenEntries_append hty1]
    exact hdesc1
  · rw [writtenEntries_append hty2]
    exact hdesc2

/-- C23, amended, on the example of the specification: the reset of branch 1 and
the archive's loop body for branch 1 post the same three balancing entries and
leave the same balances. -/
theorem reset_matches_archive_zeroing_witness :
    (writtenEntries archiveExample (resetAllGroups archiveExample admin 1 noon none).2).map
      entryFacts
      = [(some 1, some 4, 5000, "Sistema", 5000, 0), (some 2, some 4, 10000, "Sistema", 10000, 0),
         (some 3, some 3, 3000, "Sistema", -3000, 0)] ∧
    (resetAllGroups archiveExample admin 1 noon none).2.congregation_groups
      = (archiveBranch (archiveTypes archiveExample) 2025 2 noon archiveExample
          ⟨1, "Sede", false⟩).congregation_groups ∧
    (writtenEntries archiveExample (resetAllGroups archiveExample admin 1 noon none).2).map
      entryFacts
      = (writtenEntries archiveExample (archiveBranch (archiveTypes archiveExample) 2025 2 noon
          archiveExample ⟨1, "Sede", false⟩)).map entryFacts :=
  ⟨by decide,
   (reset_matches_archive_zeroing archiveExample admin ⟨1, "Sede", false⟩ noon none _ 2025 2
     (by decide)).2.2.1,
   (reset_matches_archive_zeroing archiveExample admin ⟨1, "Sede", false⟩ noon none _ 2025 2
     (by decide)).2.2.2.1⟩

/-- C29, counterexample. An administrator (branch 9) deposits 50.00 on the fund
`Jovens` (id 2), which branch 1 owns: the entry written records branch 9. -/
theorem admin_post_records_admin_branch :
    admin.isAdmin = true ∧ admin.id = 9 ∧
    (postTransactions twoBranchStore admin depositBody noon none).1
      = .created 2 15000 10000 "DEPOSITO" (some 2) ∧
    (writtenEntries twoBranchStore
      (postTransactions twoBranchStore admin depositBody noon none).2).map
      (fun t => (t.group_id, t.branch_id)) = [(some 2, 9)] ∧
    (groupById twoBranchStore (some 2)).map (fun g => g.branch_id) = some 1 := by
  decide

/-- C29, amended. A Post Entry call that is answered 201 writes exactly one
entry, on the target fund of the response, and the entry records as its branch
the caller's identity. When the caller is not an administrator and the type is
tithe, offering, deposit or withdrawal, the entry's fund is a fund of the
caller's branch, so the branch recorded is the branch that owns the fund. -/
theorem posted_entry_records_caller (s : Store) (user : User) (body : PostBody)
    (now : DateTime) (fault : Option PostStep) (tid : Nat) (nb pb : Int) (ty : String)
    (tgt : Option Nat) (s1 : Store)
    (h : postTransactions s user body now fault = (.created tid nb pb ty tgt, s1)) :
    ∃ t, writtenEntries s s1 = [t] ∧ t.id = tid ∧ t.group_id = tgt ∧ t.branch_id = user.id ∧
      (user.isAdmin = false → body.type ≠ "OUTROS" →
        ∃ g ∈ s.congregation_groups, t.group_id = some g.id ∧ g.branch_id = t.branch_id) := by
  obtain ⟨cg, gt, m, sc, hcg, -, -, hres, -, -, htid, -, hs1⟩ := postTransactions_created h
  have htx : s1.transactions = s.transactions ++
      [postedRow s user body now gt.id tgt (roundDiv (m * 100) (10 ^ sc)) pb nb] := by
    rw [hs1]
  refine ⟨_, writtenEntries_append htx, htid.symm, rfl, rfl, ?_⟩
  intro hadm hty
  rcases hres with ⟨-, htg, -⟩ | ⟨-, -, g, hg, hauth, htg, -⟩ | ⟨hout, -, -⟩
  · obtain ⟨hmem, -, hbr⟩ := caixaGeralOf_some hcg
    exact ⟨cg, hmem, htg, hbr⟩
  · obtain ⟨hmem, hid⟩ := groupById_some hg
    refine ⟨g, hmem, ?_, ?_⟩
    · show tgt = some g.id
      rw [htg, hid]
    · rcases hauth with hadm1 | hbr
      · rw [hadm] at hadm1
        simp at hadm1
      · exact hbr
  · exact absurd hout hty

/-- C29, amended, on the example store: a member of branch 1 deposits 50.00 on
the fund `Jovens` of branch 1, and the entry records branch 1. -/
theorem posted_entry_records_caller_witness :
    (writtenEntries exampleStore (postTransactions exampleStore member depositBody noon none).2).map
      (fun t => (t.group_id, t.branch_id)) = [(some 2, 1)] ∧
    ∃ t, writtenEntries exampleStore
        (postTransactions exampleStore member depositBody noon none).2 = [t] ∧
      t.id = 1 ∧ t.group_id = some 2 ∧ t.branch_id = member.id ∧
      (member.isAdmin = false → depositBody.type ≠ "OUTROS" →
        ∃ g ∈ exampleStore.congregation_groups, t.group_id = some g.id ∧
          g.branch_id = t.branch_id) :=
  ⟨by decide,
   posted_entry_records_caller exampleStore member depositBody noon none 1 15000 10000
     "DEPOSITO" (some 2) _ (by decide)⟩

theorem latestEntry_append (l : List Transaction) (t : Transaction) :
    latestEntry (l ++ [t]) =
      match latestEntry l with
      | none => some t
      | some a => if a.id < t.id then some t else some a := by
  unfold latestEntry
  rw [List.foldl_append]
  rfl

theorem latestEntry_mem (l : List Transaction) :
    ∀ a, latestEntry l = some a → a ∈ l := by
  induction l using List.reverseRecOn with
  | nil => intro a h; simp [latestEntry] at h
  | append_singleton l t ih =>
    intro a h
    rw [latestEntry_append] at h
    cases hl : latestEntry l with
    | none =>
      rw [hl] at h
      simp only [Option.some.injEq] at h
      simp [h]
    | some x =>
      rw [hl] at h
      simp only at h
      split at h
      · simp only [Option.some.injEq] at h
        simp [h]
      · simp only [Option.some.injEq] at h
        rw [← h]
        exact List.mem_append_left _ (ih x hl)

theorem latestEntry_append_new (l : List Transaction) (t : Transaction)
    (hlt : ∀ a ∈ l, a.id < t.id) : latestEntry (l ++ [t]) = some t := by
  rw [latestEntry_append]
  cases hl : latestEntry l with
  | none => rfl
  | some a =>
    simp only
    rw [if_pos (hlt a (latestEntry_mem l a hl))]

theorem viewMatches_entry {s s1 : Store} (h : ViewMatches s) (row : Transaction)
    (hid : row.id = s.next_transaction_id)
    (htx : s1.transactions = s.transactions ++ [row])
    (hnext : s1.next_transaction_id = s.next_transaction_id + 1)
    (hgroups : s1.congregation_groups
      = setBalance s.congregation_groups row.group_id row.new_balance) :
    ViewMatches s1 := by
  obtain ⟨hids, hbal⟩ := h
  constructor
  · intro t ht
    rw [htx] at ht
    rw [hnext]
    rcases List.mem_append.mp ht with h1 | h1
    · have := hids t h1
      omega
    · simp only [List.mem_singleton] at h1
      rw [h1, hid]
      omega
  · intro g1 hg1
    rw [hgroups] at hg1
    unfold setBalance at hg1
    obtain ⟨g, hg, rfl⟩ := List.mem_map.mp hg1
    have hidg : (if some g.id = row.group_id
        then { g with current_balance := row.new_balance } else g).id = g.id := by
      split <;> rfl
    rw [hidg]
    unfold reportedBalance
    rw [htx, List.filter_append]
    by_cases hrow : row.group_id = some g.id
    · have hf : [row].filter (fun t => decide (t.group_id = some g.id)) = [row] := by
        simp [hrow]
      rw [hf, latestEntry_append_new _ _ (fun a ha => by
        rw [hid]; exact hids a (List.mem_filter.mp ha).1), if_pos hrow.symm]
    · have hf : [row].filter (fun t => decide (t.group_id = some g.id)) = [] := by
        simp [hrow]
      rw [hf, List.append_nil, if_neg (fun e => hrow e.symm)]
      exact hbal g hg

theorem viewMatches_zeroGroup (types : List GroupType) (description : String) (branchId : Nat)
    (date : DateTime) (st : Store) (g : Group) (h : ViewMatches st) :
    ViewMatches (zeroGroup types description branchId date st g) := by
  unfold zeroGroup
  split
  · exact h
  · exact viewMatches_entry h (balancingRow types st g description branchId date) rfl rfl rfl rfl

theorem viewMatches_foldl_zeroGroup (types : List GroupType) (description : String)
    (branchId : Nat) (date : DateTime) (gs : List Group) (st : Store) (h : ViewMatches st) :
    ViewMatches (gs.foldl (zeroGroup types description branchId date) st) := by
  induction gs generalizing st with
  | nil => exact h
  | cons g gs ih =>
    rw [List.foldl_cons]
    exact ih _ (viewMatches_zeroGroup types description branchId date st g h)

theorem viewMatches_archiveBranch (types : List GroupType) (year month : Nat) (date : DateTime)
    (st : Store) (branch : Branch) (h : ViewMatches st) :
    ViewMatches (archiveBranch types year month date st branch) := by
  unfold archiveBranch
  dsimp only
  exact viewMatches_foldl_zeroGroup types _ branch.id date _ _ h

theorem viewMatches_foldl_archiveBranch (types : List GroupType) (year month : Nat)
    (date : DateTime) (bs : List Branch) (st : Store) (h : ViewMatches st) :
    ViewMatches (bs.foldl (archiveBranch types year month date) st) := by
  induction bs generalizing st with
  | nil => exact h
  | cons b bs ih =>
    rw [List.foldl_cons]
    exact ih _ (viewMatches_archiveBranch types year month date st b h)

theorem viewMatches_step (s : Store) (h : ViewMatches s) (op : Op) (hop : op.WritesThrough) :
    ViewMatches (op.run s).2 := by
  cases op with
  | post user body now fault =>
    simp only [Op.run]
    rcases postTransactions_cases s user body now fault with hs | ⟨tid, nb, pb, ty, tgt, hc⟩ | hf
    · rw [hs]
      exact h
    · have hpair : postTransactions s user body now fault
          = (.created tid nb pb ty tgt, (postTransactions s user body now fault).2) :=
        Prod.ext hc rfl
      obtain ⟨cg, gt, m, sc, -, -, -, -, -, -, -, -, hs1⟩ := postTransactions_created hpair
      rw [hs1]
      exact viewMatches_entry h
        (postedRow s user body now gt.id tgt (roundDiv (m * 100) (10 ^ sc)) pb nb)
        rfl rfl rfl rfl
    · exact absurd hf hop
  | put id body fault => exact absurd hop (fun e => e)
  | archive user now fault =>
    simp only [Op.run]
    rcases monthlyArchive_cases s user now fault with ⟨label, hc⟩ | ⟨status, message, hc⟩
    · rw [hc]
      unfold archiveAll
      exact viewMatches_foldl_archiveBranch _ _ _ now _ s h
    · rw [hc]
      exact h
  | reset user branchId now fault =>
    simp only [Op.run]
    rcases resetAllGroups_cases s user branchId now fault with hc | ⟨status, message, hc⟩
    · rw [hc]
      exact viewMatches_foldl_zeroGroup _ _ branchId now _ s h
    · rw [hc]
      exact h

theorem viewMatches_runOps (ops : List Op) (s : Store) (h : ViewMatches s)
    (hops : ∀ op ∈ ops, op.WritesThrough) : ViewMatches (runOps s ops) := by
  induction ops generalizing s with
  | nil => exact h
  | cons op ops ih =>
    unfold runOps
    rw [List.foldl_cons]
    exact ih _ (viewMatches_step s h op (hops op (List.mem_cons_self _ _)))
      (fun o ho => hops o (List.mem_cons_of_mem _ ho))

theorem viewMatches_fresh (s : Store) (hfresh : s.Fresh) : ViewMatches s := by
  constructor
  · simp [hfresh.1]
  · intro g hg
    unfold reportedBalance latestEntry
    simp only [hfresh.1, List.filter_nil, List.foldl_nil]
    exact (hfresh.2 g hg).symm

/-- C25, counterexample. After a deposit of 100.00 on the fund `Jovens` and an
update of that deposit to 150.00, the fund listing reports the cached balance
150.00 while the administrator's fund view, which reads the `new_balance` of the
fund's latest entry, reports 100.00. -/
theorem admin_view_stale_after_update :
    freshStore.Fresh ∧
    apiGroups (runOps freshStore updatedRun) admin
      = [(1, "Caixa Geral", "Caixa Geral", 0, "Sede"), (2, "Jovens", "DEPOSITO", 15000, "Sede"),
         (3, "Caixa Geral", "Caixa Geral", 0, "Filial")] ∧
    adminBranchGroups (runOps freshStore updatedRun) admin 1
      = .ok [(1, "Caixa Geral", 0), (2, "Jovens", 10000)] :=
  ⟨by decide, by decide, rfl⟩

/-- C25, amended. The administrator's fund view reports, for each fund, the
`new_balance` of the fund's latest entry (zero when it has none), not the cached
balance. From funds created with balance zero and no entry, in every state
reached through Post Entry calls of any type whose balance write does not
raise, monthly archive runs and resets, this value equals the fund's cached
balance; an Update Entry call changes the cached balance but not the value the
view reports. -/
theorem admin_view_matches_cached_balance (s : Store) (ops : List Op) (hfresh : s.Fresh)
    (hops : ∀ op ∈ ops, op.WritesThrough) (user : User) (branchId : Nat)
    (hadmin : user.isAdmin = true) :
    adminBranchGroups (runOps s ops) user branchId =
      .ok ((fundsOf (runOps s ops) branchId).map fun g => (g.id, g.name, g.current_balance)) := by
  have hview := viewMatches_runOps ops s (viewMatches_fresh s hfresh) hops
  unfold adminBranchGroups fundsOf
  rw [hadmin]
  simp only [Bool.not_true, Bool.false_eq_true, if_false]
  congr 1
  apply List.map_congr_left
  intro g hg
  rw [hview.2 g (List.mem_filter.mp hg).1]

/-- C25, amended, on a run of the example store: after four posts, a monthly
archive, a deposit, a reset and an offering the view of branch 1 reports the
cached balances. -/
theorem admin_view_matches_cached_balance_witness :
    (runOps freshStore (postedRun.take 4)).congregation_groups.map
      (fun g => (g.id, g.current_balance)) = [(1, 1250), (2, 700), (3, 0)] ∧
    adminBranchGroups (runOps freshStore (postedRun.take 4)) admin 1
      = .ok [(1, "Caixa Geral", 1250), (2, "Jovens", 700)] ∧
    adminBranchGroups (runOps freshStore postedRun) admin 1
      = .ok ((fundsOf (runOps freshStore postedRun) 1).map fun g =>
          (g.id, g.name, g.current_balance)) :=
  ⟨by decide, rfl,
   admin_view_matches_cached_balance freshStore postedRun (by decide) (by decide) admin 1 rfl⟩

theorem entryValue_congr {s s1 : Store} (h : s1.group_types = s.group_types) :
    entryValue s1 = entryValue s := by
  funext t
  unfold entryValue
  rw [h]

theorem entryValue_of_type {s : Store} (hu : TypeIdsUnique s) {x : GroupType}
    (hx : x ∈ s.group_types) {t : Transaction} (ht : t.group_type_id = some x.id) :
    entryValue s t = caseAmount x.name t.amount := by
  unfold entryValue
  have := filter_key_of_nodup (fun y : GroupType => y.id) (fun _ => true) hu hx
  simp only [List.filter_true, ↓reduceIte] at this
  have hpred : (fun gt : GroupType => decide (some gt.id = t.group_type_id))
      = fun gt : GroupType => decide (gt.id = x.id) := by
    funext gt
    rw [ht]
    simp
  rw [hpred, this]
  simp

theorem caseAmount_added (n : String) (hn : n ∈ ["DIZIMO", "OFERTA", "DEPOSITO"]) (a : Int) :
    caseAmount n a = a := by
  unfold caseAmount
  rw [if_pos hn]

theorem caseAmount_retirada (a : Int) : caseAmount "RETIRADA" a = -a := by
  unfold caseAmount
  rw [if_neg (by decide), if_pos rfl]

theorem entryValue_eraseId (s : Store) (t : Transaction) :
    entryValue s (eraseId t) = entryValue s t := rfl

theorem entryValue_balancingRow {s : Store} (hu : TypeIdsUnique s)
    (hret : ∃ x ∈ s.group_types, x.name = "RETIRADA")
    (hdep : ∃ x ∈ s.group_types, x.name = "DEPOSITO") (types : List GroupType)
    (htypes : ∀ n, n = "RETIRADA" ∨ n = "DEPOSITO" → typeMap types n = typeMap s.group_types n)
    (st : Store) (g : Group) (description : String) (b : Nat) (date : DateTime) :
    entryValue s (balancingRow types st g description b date) = -g.current_balance := by
  by_cases hpos : g.current_balance > 0
  · obtain ⟨x, hx, hxn, hxm⟩ := typeMap_some_of_mem hret
    have ht : (balancingRow types st g description b date).group_type_id = some x.id := by
      simp only [balancingRow, hpos, if_true]
      rw [htypes _ (Or.inl rfl), hxm]
    rw [entryValue_of_type hu hx ht, hxn, caseAmount_retirada]
    show -|g.current_balance| = -g.current_balance
    rw [abs_of_pos hpos]
  · obtain ⟨x, hx, hxn, hxm⟩ := typeMap_some_of_mem hdep
    have ht : (balancingRow types st g description b date).group_type_id = some x.id := by
      simp only [balancingRow, hpos, if_false]
      rw [htypes _ (Or.inr rfl), hxm]
    rw [entryValue_of_type hu hx ht, hxn, caseAmount_added _ (by decide)]
    show |g.current_balance| = -g.current_balance
    rw [abs_of_nonpos (not_lt.mp hpos)]

theorem books_extend {s s1 : Store} (h : Books s) (htypes : s1.group_types = s.group_types)
    (hbranches : s1.branches = s.branches) (extra : List Transaction)
    (htx : s1.transactions = s.transactions ++ extra) (f : Group → Group)
    (hgroups : s1.congregation_groups = s.congregation_groups.map f)
    (hf : ∀ g ∈ s.congregation_groups, (f g).id = g.id ∧
      (f g).current_balance = g.current_balance +
        ((extra.filter fun t => t.group_id = some g.id).map (entryValue s)).sum) :
    Books s1 := by
  obtain ⟨hbal, hk, hret, hdep⟩ := h
  have hids : s1.congregation_groups.map (fun g => g.id)
      = s.congregation_groups.map fun g => g.id := by
    rw [hgroups, List.map_map]
    apply List.map_congr_left
    intro g hg
    exact (hf g hg).1
  refine ⟨?_, ⟨?_, ?_, ?_⟩, ?_, ?_⟩
  · intro g1 hg1
    rw [hgroups] at hg1
    obtain ⟨g, hg, rfl⟩ := List.mem_map.mp hg1
    rw [(hf g hg).1, (hf g hg).2, hbal g hg]
    unfold fundLedger
    rw [htx, List.filter_append, List.map_append, List.sum_append, entryValue_congr htypes]
  · rw [hbranches]
    exact hk.1
  · rw [hids]
    exact hk.2.1
  · unfold TypeIdsUnique
    rw [htypes]
    exact hk.2.2
  · rw [htypes]
    exact hret
  · rw [htypes]
    exact hdep

theorem books_post (s : Store) (h : Books s) (user : User) (body : PostBody) (now : DateTime)
    (fault : Option PostStep) (hty : body.type ≠ "OUTROS")
    (hfault : fault ≠ some .updateBalance) :
    Books (postTransactions s user body now fault).2 := by
  rcases postTransactions_cases s user body now fault with hs | ⟨tid, nb, pb, ty, tgt, hc⟩ | hf
  · rw [hs]
    exact h
  · have hpair : postTransactions s user body now fault
        = (.created tid nb pb ty tgt, (postTransactions s user body now fault).2) :=
      Prod.ext hc rfl
    obtain ⟨cg, gt, m, sc, hcg, hgt, -, hres, hnb, -, -, -, hs1⟩ := postTransactions_created hpair
    rw [hs1]
    obtain ⟨hgtm, hgtn⟩ := groupTypeOf_some hgt
    have hval : entryValue s
        (postedRow s user body now gt.id tgt (roundDiv (m * 100) (10 ^ sc)) pb nb)
        = if body.type = "RETIRADA" then -(roundDiv (m * 100) (10 ^ sc))
          else roundDiv (m * 100) (10 ^ sc) := by
      rw [entryValue_of_type h.2.1.2.2 hgtm (t := postedRow s user body now gt.id tgt
        (roundDiv (m * 100) (10 ^ sc)) pb nb) rfl, hgtn]
      show caseAmount body.type (roundDiv (m * 100) (10 ^ sc)) = _
      rcases hres with ⟨h1 | h1, -, -⟩ | ⟨h1 | h1, -, -⟩ | ⟨h1, -, -⟩
      · rw [h1, caseAmount_added _ (by decide), if_neg (by decide)]
      · rw [h1, caseAmount_added _ (by decide), if_neg (by decide)]
      · rw [h1, caseAmount_added _ (by decide), if_neg (by decide)]
      · rw [h1, caseAmount_retirada, if_pos rfl]
      · exact absurd h1 hty
    have hsrc : ∃ g0 ∈ s.congregation_groups, tgt = some g0.id ∧ pb = g0.current_balance := by
      rcases hres with ⟨-, htg, hpb⟩ | ⟨-, -, g0, hg0, -, htg, hpb⟩ | ⟨h1, -, -⟩
      · exact ⟨cg, (caixaGeralOf_some hcg).1, htg, hpb⟩
      · obtain ⟨hmem, hid⟩ := groupById_some hg0
        exact ⟨g0, hmem, by rw [htg, hid], hpb⟩
      · exact absurd h1 hty
    obtain ⟨g0, hg0, htg, hpb⟩ := hsrc
    refine books_extend h rfl rfl
      [postedRow s user body now gt.id tgt (roundDiv (m * 100) (10 ^ sc)) pb nb] rfl
      (fun g => if some g.id = tgt then { g with current_balance := nb } else g) rfl ?_
    intro g hg
    dsimp only
    constructor
    · split <;> rfl
    · by_cases hid : some g.id = tgt
      · have hgg : g = g0 := by
          apply List.inj_on_of_nodup_map h.2.1.2.1 hg hg0
          rw [htg] at hid
          exact Option.some.inj hid
        have hf : [postedRow s user body now gt.id tgt (roundDiv (m * 100) (10 ^ sc)) pb
            nb].filter (fun t => decide (t.group_id = some g.id))
            = [postedRow s user body now gt.id tgt (roundDiv (m * 100) (10 ^ sc)) pb nb] := by
          simp [postedRow, hid]
        rw [if_pos hid, hf]
        simp only [List.map_cons, List.map_nil, List.sum_cons, List.sum_nil, add_zero]
        rw [hval, hnb, hpb, hgg]
      · have hf : [postedRow s user body now gt.id tgt (roundDiv (m * 100) (10 ^ sc)) pb
            nb].filter (fun t => decide (t.group_id = some g.id)) = [] := by
          simp only [List.filter_cons, List.filter_nil, postedRow]
          rw [if_neg]
          simpa using fun e : tgt = some g.id => hid e.symm
        rw [if_neg hid, hf]
        simp
  · exact absurd hf hfault

theorem sum_entryValue_erased (s : Store) (extra spec : List Transaction)
    (h : extra.map eraseId = spec.map eraseId) (id : Nat) :
    ((extra.filter fun t => t.group_id = some id).map (entryValue s)).sum
      = ((spec.filter fun t => t.group_id = some id).map (entryValue s)).sum := by
  have key : ∀ l : List Transaction, l.map (entryValue s) = (l.map eraseId).map (entryValue s) := by
    intro l
    rw [List.map_map]
    rfl
  rw [key, key (spec.filter _), filter_erased extra spec h id]

theorem books_archiveAll (s : Store) (h : Books s) (now : DateTime) :
    Books (archiveAll s now) := by
  have hrun := archiveRun_archiveAll h.2.1 now
  obtain ⟨extra, htx, herased⟩ := hrun.transactions
  refine books_extend h hrun.group_types hrun.branches extra htx _ hrun.groups ?_
  intro g hg
  dsimp only
  constructor
  · split <;> rfl
  · rw [sum_entryValue_erased s extra _ herased g.id,
      balancingSpec_filter h.2.1.2.1 now _ (nonAdminBranches_nodup h.2.1) hg]
    by_cases hb : g.branch_id ∈ (nonAdminBranches s).map (fun b => b.id)
    · rw [if_pos hb]
      by_cases hz : g.current_balance = 0
      · rw [if_neg (fun e => e.2 hz), hz]
        rfl
      · rw [if_pos ⟨hb, hz⟩]
        simp only [List.map_cons, List.map_nil, List.sum_cons, List.sum_nil, add_zero]
        rw [entryValue_balancingRow h.2.1.2.2 h.2.2.1 h.2.2.2 (archiveTypes s)
          (fun n hn => typeMap_filter _ _ n (by rcases hn with rfl | rfl <;> simp))]
        show (0 : Int) = g.current_balance + -g.current_balance
        omega
    · rw [if_neg hb, if_neg (fun e => hb e.1)]
      simp

theorem books_reset (s : Store) (h : Books s) (branchId : Nat) (now : DateTime) :
    Books ((fundsOf s branchId).foldl
      (zeroGroup (resetTypes s) "Zeramento administrativo" branchId now) s) := by
  have hfields := foldl_zeroGroup_fields (resetTypes s) "Zeramento administrativo" branchId now
    (fundsOf s branchId) s
  obtain ⟨extra, htx, herased⟩ := foldl_zeroGroup_erased (resetTypes s)
    "Zeramento administrativo" branchId now s (fundsOf s branchId) s
  refine books_extend h hfields.1 hfields.2.1 extra htx _ hfields.2.2 ?_
  intro g hg
  dsimp only
  have hin : g.id ∈ ((fundsOf s branchId).filter fun g => g.current_balance ≠ 0).map
      (fun g => g.id) ↔ (g.branch_id = branchId ∧ g.current_balance ≠ 0) := by
    constructor
    · intro hmem
      obtain ⟨g1, hg1, hid⟩ := List.mem_map.mp hmem
      obtain ⟨hg1f, hnz⟩ := List.mem_filter.mp hg1
      obtain ⟨hg1m, hbr⟩ := List.mem_filter.mp hg1f
      have : g1 = g := List.inj_on_of_nodup_map h.2.1.2.1 hg1m hg hid
      subst this
      exact ⟨by simpa using hbr, by simpa using hnz⟩
    · intro hc
      exact List.mem_map.mpr ⟨g, List.mem_filter.mpr
        ⟨List.mem_filter.mpr ⟨hg, by simpa using hc.1⟩, by simpa using hc.2⟩, rfl⟩
  constructor
  · split <;> rfl
  · rw [sum_entryValue_erased s extra _ herased g.id,
      zeroingRows_filter h.2.1.2.1 _ _ _ _ hg]
    by_cases hc : g.branch_id = branchId ∧ g.current_balance ≠ 0
    · rw [if_pos (hin.mpr hc), if_pos hc]
      simp only [List.map_cons, List.map_nil, List.sum_cons, List.sum_nil, add_zero]
      rw [entryValue_balancingRow h.2.1.2.2 h.2.2.1 h.2.2.2 (resetTypes s)
        (fun n hn => typeMap_filter _ _ n (by rcases hn with rfl | rfl <;> simp))]
      show (0 : Int) = g.current_balance + -g.current_balance
      omega
    · rw [if_neg (fun e => hc (hin.mp e)), if_neg hc]
      simp

theorem books_step (s : Store) (h : Books s) (op : Op) (hop : op.Ledgers) :
    Books (op.run s).2 := by
  cases op with
  | post user body now fault => exact books_post s h user body now fault hop.1 hop.2
  | put id body fault => exact absurd hop (fun e => e)
  | archive user now fault =>
    simp only [Op.run]
    rcases monthlyArchive_cases s user now fault with ⟨label, hc⟩ | ⟨status, message, hc⟩
    · rw [hc]
      exact books_archiveAll s h now
    · rw [hc]
      exact h
  | reset user branchId now fault =>
    simp only [Op.run]
    rcases resetAllGroups_cases s user branchId now fault with hc | ⟨status, message, hc⟩
    · rw [hc]
      exact books_reset s h branchId now
    · rw [hc]
      exact h

theorem books_runOps (ops : List Op) (s : Store) (h : Books s)
    (hops : ∀ op ∈ ops, op.Ledgers) : Books (runOps s ops) := by
  induction ops generalizing s with
  | nil => exact h
  | cons op ops ih =>
    unfold runOps
    rw [List.foldl_cons]
    exact ih _ (books_step s h op (hops op (List.mem_cons_self _ _)))
      (fun o ho => hops o (List.mem_cons_of_mem _ ho))

theorem books_fresh (s : Store) (hfresh : s.Fresh) (hk : s.KeysUnique)
    (hret : ∃ x ∈ s.group_types, x.name = "RETIRADA")
    (hdep : ∃ x ∈ s.group_types, x.name = "DEPOSITO") : Books s := by
  refine ⟨?_, hk, hret, hdep⟩
  intro g hg
  unfold fundLedger
  rw [hfresh.1]
  exact hfresh.2 g hg

/-- C30. From funds created with balance zero and no entry, in every state
reached through Post Entry calls of type tithe, offering, deposit or withdrawal
(whose balance write does not raise), monthly archive runs and resets, the
per-branch aggregate of the administrator balance view - over the entries of
the branch's funds, tithe, offering and deposit amounts added, withdrawal
amounts subtracted - is the sum of the cached balances of the branch's funds,
which is what the branch balance view reports. The primary keys are unique and
the types `RETIRADA` and `DEPOSITO` are registered. -/
theorem admin_balances_match_branch_balance (s : Store) (ops : List Op) (hfresh : s.Fresh)
    (hk : s.KeysUnique) (hret : ∃ x ∈ s.group_types, x.name = "RETIRADA")
    (hdep : ∃ x ∈ s.group_types, x.name = "DEPOSITO") (hops : ∀ op ∈ ops, op.Ledgers)
    (user : User) (hadmin : user.isAdmin = true) :
    adminBalances (runOps s ops) user =
      .ok ((nonAdminBranches (runOps s ops)).map fun b =>
        (b.id, b.name, ((fundsOf (runOps s ops) b.id).map fun g => g.current_balance).sum)) ∧
    ∀ b ∈ nonAdminBranches (runOps s ops),
      apiBalance (runOps s ops) ⟨b.id, false⟩ =
        .ok ((fundsOf (runOps s ops) b.id).map fun g => g.current_balance).sum := by
  have hbooks := books_runOps ops s (books_fresh s hfresh hk hret hdep) hops
  constructor
  · unfold adminBalances nonAdminBranches fundsOf
    rw [hadmin]
    simp only [Bool.not_true, Bool.false_eq_true, if_false]
    congr 1
    apply List.map_congr_left
    intro b _
    congr 3
    apply List.map_congr_left
    intro g hg
    exact (hbooks.1 g (List.mem_filter.mp hg).1).symm
  · intro b _
    rfl

/-- C30, on a run of the example store: after three posts the two views give
82.50 for branch 1; after the monthly archive, four more posts (one rejected)
and a reset of branch 1 they give 0.00 for branch 1 and 40.00 for branch 2. -/
theorem admin_balances_match_branch_balance_witness :
    adminBalances (runOps freshStore (ledgerRun.take 3)) admin
      = .ok [(1, "Sede", 8250), (2, "Filial", 0)] ∧
    apiBalance (runOps freshStore (ledgerRun.take 3)) member = .ok 8250 ∧
    apiBalance (runOps freshStore ledgerRun) ⟨2, false⟩ = .ok 4000 ∧
    (runOps freshStore ledgerRun).transactions.length = 10 ∧
    adminBalances (runOps freshStore ledgerRun) admin =
      .ok ((nonAdminBranches (runOps freshStore ledgerRun)).map fun b =>
        (b.id, b.name,
          ((fundsOf (runOps freshStore ledgerRun) b.id).map fun g => g.current_balance).sum)) :=
  ⟨rfl, rfl, rfl, by decide,
   (admin_balances_match_branch_balance freshStore ledgerRun (by decide) (by decide)
     (by decide) (by decide) (by decide) admin rfl).1⟩

end Ledger
